import Mathlib

/-!
# stsh job control (src/assign4/stsh.cc)

A shallow embedding of the job-control code of the `stsh` shell: the builtins
`fg`, `bg`, `slay`, `halt`, `cont` (functions `resume`, `sendSignal`,
`handleBuiltin`), the SIGCHLD handler (`updateJobList`), the terminal-signal
handler (`sendToForeground`) and `createJob` / `startProcess`.

The shell process is modelled as a state `World` (job registry, SIGCHLD mask
bit, the trace of system calls issued so far) together with what the
environment will answer: the return values of the system calls still to come and
the signals that will be delivered while the shell sleeps in `sigsuspend`.
Every function of the source is a state transformer returning how it ended:
normally, with an `STSHException`, with `exit`, or blocked forever.
-/

set_option linter.dupNamespace false

namespace Stsh

/-! ## Constants of the platform headers -/

def SIGINT : Int := 2
def SIGQUIT : Int := 3
def SIGKILL : Int := 9
def SIGCHLD : Int := 17
def SIGCONT : Int := 18
def SIGSTOP : Int := 19
def SIGTSTP : Int := 20
def STDIN_FILENO : Int := 0
def STDOUT_FILENO : Int := 1

/-- Conversion of a `size_t` to `pid_t` (a 32-bit signed int), as in
`pid_t pid = parseNumber(...)`. -/
def toPid (n : Nat) : Int :=
  if n % 2 ^ 32 < 2 ^ 31 then Int.ofNat (n % 2 ^ 32) else Int.ofNat (n % 2 ^ 32) - 2 ^ 32

/-! ## Data model: processes, jobs, the job list -/

inductive STSHProcessState where
  | kRunning
  | kStopped
  | kTerminated
  deriving DecidableEq, Repr

inductive STSHJobState where
  | kForeground
  | kBackground
  deriving DecidableEq, Repr

/-- One parsed command: the program name and its NULL-terminated token array
(`none` is a NULL pointer). -/
structure command where
  command : String
  tokens : List (Option String)
  deriving DecidableEq, Repr

/-- A parsed pipeline. -/
structure pipeline where
  commands : List command
  input : String
  output : String
  background : Bool
  deriving DecidableEq, Repr

/-- Modelled from the spec: class `STSHProcess` (stsh-process.h is not part of the
sources). A process has a pid, a state in Running/Stopped/Terminated and the
command it was started for. -/
structure STSHProcess where
  pid : Int
  state : STSHProcessState
  cmd : command
  deriving DecidableEq, Repr

/-- Modelled from the spec: the constructor `STSHProcess(pid, command)`; a
freshly forked process is Running. -/
def STSHProcess.create (pid : Int) (c : command) : STSHProcess :=
  { pid := pid, state := .kRunning, cmd := c }

/-- Modelled from the spec: class `STSHJob` (stsh-job.h is not part of the
sources). A job has an id, a placement and the ordered list of its processes,
in pipeline order. -/
structure STSHJob where
  num : Nat
  state : STSHJobState
  processes : List STSHProcess
  deriving DecidableEq, Repr

/-- Modelled from the spec: `STSHJob::getGroupID`. The group id is the pid of the
first process forked for the job; for a job without processes it is 0 (see the
comment in `startProcess`: "If this is the first process in the job, pgid will
be 0"). -/
def STSHJob.getGroupID (j : STSHJob) : Int :=
  match j.processes with
  | [] => 0
  | p :: _ => p.pid

/-- Modelled from the spec: `STSHJob::containsProcess`. -/
def STSHJob.containsProcess (j : STSHJob) (pid : Int) : Bool :=
  j.processes.any (fun p => p.pid == pid)

/-- Modelled from the spec: `STSHJob::getProcess(pid)`. -/
def STSHJob.getProcess (j : STSHJob) (pid : Int) : Option STSHProcess :=
  j.processes.find? (fun p => p.pid == pid)

/-- Modelled from the spec: `STSHJob::addProcess`, appending at the end of the
ordered process list. -/
def STSHJob.addProcess (j : STSHJob) (p : STSHProcess) : STSHJob :=
  { j with processes := j.processes ++ [p] }

/-- Modelled from the spec: `STSHJob::setState`. -/
def STSHJob.setState (j : STSHJob) (s : STSHJobState) : STSHJob :=
  { j with state := s }

/-- Modelled from the spec: `process.setState(state)` on the process of the job
with the given pid, all other processes untouched. -/
def STSHJob.setProcessState (j : STSHJob) (pid : Int) (s : STSHProcessState) : STSHJob :=
  { j with processes := j.processes.map (fun p => if p.pid = pid then { p with state := s } else p) }

/-- Modelled from the spec: class `STSHJobList` (stsh-job-list.h is not part of
the sources): the jobs of the registry, ordered by job id. -/
structure STSHJobList where
  jobs : List STSHJob
  deriving DecidableEq, Repr

/-- Modelled from the spec: the id given to a new job; ids are small integers,
unique while live and reused after removal: one more than the largest id in use,
1 for an empty registry. -/
def STSHJobList.nextNum (l : STSHJobList) : Nat :=
  (l.jobs.map (fun j => j.num)).foldr max 0 + 1

/-- Modelled from the spec: `STSHJobList::addJob(placement)`; returns the id of the
new job, which has no process yet. -/
def STSHJobList.addJob (l : STSHJobList) (s : STSHJobState) : Nat × STSHJobList :=
  (l.nextNum, { jobs := l.jobs ++ [{ num := l.nextNum, state := s, processes := [] }] })

/-- Modelled from the spec: `STSHJobList::containsJob`. -/
def STSHJobList.containsJob (l : STSHJobList) (num : Nat) : Bool :=
  l.jobs.any (fun j => j.num == num)

/-- Modelled from the spec: `STSHJobList::getJob`. -/
def STSHJobList.getJob (l : STSHJobList) (num : Nat) : Option STSHJob :=
  l.jobs.find? (fun j => j.num == num)

/-- Modelled from the spec: writing through the reference `STSHJob&` obtained from
the registry: the job with the given id is replaced by its image under `f`. -/
def STSHJobList.modifyJob (l : STSHJobList) (num : Nat) (f : STSHJob → STSHJob) : STSHJobList :=
  { jobs := l.jobs.map (fun j => if j.num = num then f j else j) }

/-- Modelled from the spec: `STSHJobList::containsProcess`. -/
def STSHJobList.containsProcess (l : STSHJobList) (pid : Int) : Bool :=
  l.jobs.any (fun j => j.containsProcess pid)

/-- Modelled from the spec: `STSHJobList::getJobWithProcess`. -/
def STSHJobList.getJobWithProcess (l : STSHJobList) (pid : Int) : Option STSHJob :=
  l.jobs.find? (fun j => j.containsProcess pid)

/-- Modelled from the spec: `STSHJobList::hasForegroundJob`. -/
def STSHJobList.hasForegroundJob (l : STSHJobList) : Bool :=
  l.jobs.any (fun j => j.state == .kForeground)

/-- Modelled from the spec: `STSHJobList::getForegroundJob`. -/
def STSHJobList.getForegroundJob (l : STSHJobList) : Option STSHJob :=
  l.jobs.find? (fun j => j.state == .kForeground)

/-- Modelled from the spec: `STSHJobList::synchronize(job)`: "if every Process in
the job is Terminated, remove the job from the registry; otherwise leave it". -/
def STSHJobList.synchronize (l : STSHJobList) (num : Nat) : STSHJobList :=
  { jobs := l.jobs.filter
      (fun j => !(j.num == num && j.processes.all (fun p => p.state == .kTerminated))) }

/-! ## The world of the shell process -/

/-- The exceptions thrown in stsh.cc, one constructor per `throw` site. -/
inductive STSHException where
  | usage (builtin : String)
  | tokensNotNullDelimited
  | noSuchJob (builtin : String) (jobID : Nat)
  | noProcessWithPid (pid : Int)
  | noJobWithId (jobID : Nat)
  | noProcessAtIndex (jobID index : Nat)
  | builtinNotSupported
  | forkFailed
  | pipeFailed
  | dup2Failed
  | commandNotFound (path : String)
  | openFailed (path : String)
  | closeFailed (fd : Int)
  | setpgidFailed (pid : Int)
  | killpgFailed (pgrp sig : Int)
  | killFailed (pid sig : Int)
  | tcgetpgrpFailed (fd : Int)
  | tcsetpgrpFailed (fd pgrp : Int)
  deriving DecidableEq, Repr

/-- The exception carries the usage text of a builtin. -/
def STSHException.isUsageError : STSHException → Bool
  | .usage _ => true
  | _ => false

/-- The exception reports an unknown job id, process index or pid. -/
def STSHException.isLookupError : STSHException → Bool
  | .noSuchJob _ _ => true
  | .noProcessWithPid _ => true
  | .noJobWithId _ => true
  | .noProcessAtIndex _ _ => true
  | _ => false

/-- The system calls the shell issues, and what it prints. -/
inductive SysCall where
  | sigprocmaskBlock (sig : Int)
  | sigprocmaskUnblock (sig : Int)
  | sigsuspend
  | fork
  | pipe2
  | pipe2Fds (readEnd writeEnd : Int)
  | dup2 (oldfd newfd : Int)
  | execvp (path : String)
  | openRead (path : String)
  | openWrite (path : String)
  | close (fd : Int)
  | setpgid (pid pgid : Int)
  | killpg (pgrp sig : Int)
  | kill (pid sig : Int)
  | tcgetpgrp (fd : Int)
  | tcsetpgrp (fd pgrp : Int)
  | getpid
  | waitpid
  | exit (code : Int)
  | printJobList (jobs : STSHJobList)
  | printJobStarted (num : Nat) (pids : List Int)
  | printError (e : STSHException)
  deriving DecidableEq, Repr

/-- A system call together with the value it returned. -/
structure Event where
  call : SysCall
  ret : Int
  deriving DecidableEq, Repr

/-- What `waitpid` reports about a child, as told apart by the macros
`WIFEXITED`, `WIFSIGNALED`, `WIFSTOPPED`, `WIFCONTINUED`. -/
inductive WaitStatus where
  | exited (code : Int)
  | signaled (sig : Int)
  | stopped (sig : Int)
  | continued
  | unknown
  deriving DecidableEq, Repr

/-- One signal delivered to the shell: its number and, for SIGCHLD, the child
status changes that `waitpid` will hand out to the handler. -/
structure Delivery where
  sig : Int
  children : List (Int × WaitStatus)
  deriving DecidableEq, Repr

/-- State of the shell process and the answers of its environment. -/
structure World where
  joblist : STSHJobList
  /-- SIGCHLD is in the signal mask. -/
  blocked : Bool
  /-- System calls issued so far, oldest first. -/
  trace : List Event
  /-- Return values of the system calls to come. -/
  rets : List Int
  /-- Signals delivered while the shell sleeps in `sigsuspend`. -/
  deliveries : List Delivery
  /-- This process is a forked child: `getpid()` differs from the shell's pid. -/
  inChild : Bool
  deriving DecidableEq, Repr

/-- How a function of the shell ends: it returns, throws, ends the process with
`exit`, replaces the program with `execvp`, or sleeps forever. -/
inductive Res (α : Type) where
  | ok (a : α)
  | throw (e : STSHException)
  | exit (code : Int)
  | replaced
  | hang
  deriving DecidableEq, Repr

/-- A function of the shell: a transformer of the world with its way of ending. -/
def Act (α : Type) : Type := World → Res α × World

/-- Run an action in a world. -/
def Act.run {α : Type} (m : Act α) (w : World) : Res α × World := m w

def Act.pure {α : Type} (a : α) : Act α := fun w => (.ok a, w)

def Act.bind {α β : Type} (m : Act α) (f : α → Act β) : Act β := fun w =>
  match m w with
  | (.ok a, w1) => f a w1
  | (.throw e, w1) => (.throw e, w1)
  | (.exit c, w1) => (.exit c, w1)
  | (.replaced, w1) => (.replaced, w1)
  | (.hang, w1) => (.hang, w1)

instance : Monad Act where
  pure := Act.pure
  bind := Act.bind

/-- The C++ `throw`. -/
def throwE {α : Type} (e : STSHException) : Act α := fun w => (.throw e, w)

/-- The C++ `try { body } catch (const STSHException& e) { handler e }`. -/
def tryCatchE {α : Type} (body : Act α) (handler : STSHException → Act α) : Act α := fun w =>
  match body w with
  | (.throw e, w1) => handler e w1
  | r => r

/-- Read the registry. -/
def getJoblist : Act STSHJobList := fun w => (.ok w.joblist, w)

/-- Write the registry. -/
def setJoblist (l : STSHJobList) : Act Unit := fun w => (.ok (), { w with joblist := l })

/-- Issue a system call whose result does not depend on the environment. -/
def emit (c : SysCall) (ret : Int) : Act Unit := fun w =>
  (.ok (), { w with trace := w.trace ++ [{ call := c, ret := ret }] })

/-- The next return value of the environment; a failure (-1) when it has no more. -/
def nextRet : Act Int := fun w =>
  match w.rets with
  | [] => (.ok (-1), w)
  | r :: rs => (.ok r, { w with rets := rs })

/-- Issue a system call and obtain its return value from the environment. -/
def syscall (c : SysCall) : Act Int := do
  let r ← nextRet
  emit c r
  return r

/-- The C `exit`: the process ends here. -/
def exitE {α : Type} (code : Int) : Act α := fun w =>
  (.exit code, { w with trace := w.trace ++ [{ call := .exit code, ret := 0 }] })

/-! ## Signal mask and checked system calls (stsh.cc lines 54-167)

`debugLog` prints nothing: `kGlobalLoggingLevel` is `SILENT`, above every level
used, so the calls to it are left out. -/

/-- Only the mask bit of SIGCHLD is tracked. -/
def blockSignal (sig : Int) : Act Unit := fun w =>
  (.ok (), { w with blocked := if sig = SIGCHLD then true else w.blocked,
                    trace := w.trace ++ [{ call := .sigprocmaskBlock sig, ret := 0 }] })

def unblockSignal (sig : Int) : Act Unit := fun w =>
  (.ok (), { w with blocked := if sig = SIGCHLD then false else w.blocked,
                    trace := w.trace ++ [{ call := .sigprocmaskUnblock sig, ret := 0 }] })

def fork_errchk : Act Int := do
  let child ← syscall .fork
  if child < 0 then throwE .forkFailed else pure child

/-- On success the environment hands out the two descriptors, read end first; the
trace records them after the call. -/
def pipe2_errchk : Act (Int × Int) := do
  let err ← syscall .pipe2
  if err < 0 then throwE .pipeFailed
  else do
    let r ← nextRet
    let w ← nextRet
    emit (.pipe2Fds r w) 0
    pure (r, w)

def dup2_errchk (oldfd newfd : Int) : Act Int := do
  let err ← syscall (.dup2 oldfd newfd)
  if err < 0 then throwE .dup2Failed else pure err

/-- A call of `execvp` that returns has failed; a call that succeeds replaces the
program. -/
def execvp_errchk (path : String) : Act Int := do
  let err ← syscall (.execvp path)
  if err < 0 then throwE (.commandNotFound path) else fun w => (.replaced, w)

def open_errchk (path : String) (forWriting : Bool) : Act Int := do
  let err ← syscall (if forWriting then .openWrite path else .openRead path)
  if err < 0 then throwE (.openFailed path) else pure err

def close_errchk (fd : Int) : Act Int := do
  let err ← syscall (.close fd)
  if err < 0 then throwE (.closeFailed fd) else pure err

def setpgid_errchk (pid pgid : Int) : Act Int := do
  let err ← syscall (.setpgid pid pgid)
  if err < 0 then throwE (.setpgidFailed pid) else pure err

def killpg_errchk (pgrp sig : Int) : Act Int := do
  let err ← syscall (.killpg pgrp sig)
  if err < 0 then throwE (.killpgFailed pgrp sig) else pure err

def kill_errchk (pid sig : Int) : Act Int := do
  let err ← syscall (.kill pid sig)
  if err < 0 then throwE (.killFailed pid sig) else pure err

def tcgetpgrp_errchk (fd : Int) : Act Int := do
  let err ← syscall (.tcgetpgrp fd)
  if err < 0 then throwE (.tcgetpgrpFailed fd) else pure err

def tcsetpgrp_errchk (fd pgrp : Int) : Act Int := do
  let err ← syscall (.tcsetpgrp fd pgrp)
  if err < 0 then throwE (.tcsetpgrpFailed fd pgrp) else pure err

/-! ## Signal handlers (stsh.cc lines 273-351) -/

def updateJobListHelper (pid : Int) (state : STSHProcessState) : Act Unit := do
  let jobList ← getJoblist
  if !jobList.containsProcess pid then pure ()
  else
    match jobList.getJobWithProcess pid with
    | none => pure ()
    | some job =>
      setJoblist ((jobList.modifyJob job.num (fun j => j.setProcessState pid state)).synchronize job.num)

/-- The loop of `updateJobList`: `waitpid` hands out the pending status changes
one by one and then reports that none is left. -/
def updateJobList : List (Int × WaitStatus) → Act Unit
  | [] => emit .waitpid 0
  | (pid, status) :: rest => do
    emit .waitpid pid
    if pid ≤ 0 then pure ()
    else do
      match status with
      | .exited _ => updateJobListHelper pid .kTerminated
      | .signaled _ => updateJobListHelper pid .kTerminated
      | .stopped _ => updateJobListHelper pid .kStopped
      | .continued => updateJobListHelper pid .kRunning
      | .unknown => pure ()
      updateJobList rest

def sendToForeground (sig : Int) : Act Unit := do
  let jl ← getJoblist
  if jl.hasForegroundJob then
    match jl.getForegroundJob with
    | none => pure ()
    | some job => do
      let _ ← killpg_errchk job.getGroupID sig
      pure ()
  else pure ()

/-- The handlers installed by `installSignalHandlers`; SIGTTIN and SIGTTOU are
ignored, and so is here every signal without a handler. -/
def handleSignal (d : Delivery) : Act Unit :=
  if d.sig = SIGQUIT then exitE 0
  else if d.sig = SIGCHLD then updateJobList d.children
  else if d.sig = SIGINT ∨ d.sig = SIGTSTP then sendToForeground d.sig
  else pure ()

/-- The loop of `waitForForeground` over the signals still to be delivered:
`sigsuspend` sleeps until the next one, whose handler then runs. When a
foreground job is left and no signal comes any more, the shell sleeps forever. -/
def waitLoop : List Delivery → Act Unit
  | [] => fun w => if w.joblist.hasForegroundJob then (.hang, w) else (.ok (), w)
  | d :: rest => fun w =>
    if w.joblist.hasForegroundJob then
      (do emit .sigsuspend (-1)
          handleSignal d
          waitLoop rest) { w with deliveries := rest }
    else (.ok (), w)

def waitForForeground : Act Unit := fun w => waitLoop w.deliveries w

/-! ## Builtins (stsh.cc lines 172-266) -/

def numArgumentsLoop : List (Option String) → Nat → Act Nat
  | [], _ => throwE .tokensNotNullDelimited
  | none :: _, numArguments => pure numArguments
  | some _ :: rest, numArguments => numArgumentsLoop rest (numArguments + 1)

def numArguments (c : command) : Act Nat := numArgumentsLoop c.tokens 0

/-- The string `c.tokens[i]`. -/
def tokenAt (c : command) (i : Nat) : String := ((c.tokens.get? i).getD none).getD ""

section Builtins

/- The function `parseNumber` of stsh-parse-utils.h is not part of the sources and
is a parameter: `none` stands for its throwing an exception with the usage
text it is given. -/
variable (parseNumber : String → Option Nat)

def parseNumberE (str : String) (builtin_name : String) : Act Nat :=
  match parseNumber str with
  | none => throwE (.usage builtin_name)
  | some n => pure n

/-- The flag `jobIsRunning` computed by the loop of `resume` over the processes of
the job: some process is Running. -/
def jobIsRunning (job : STSHJob) : Bool :=
  job.processes.any (fun p => p.state == .kRunning)

/-- Lines 185-203 of `resume`: everything before the wait. -/
def resumeSetup (c : command) (builtin_name : String) (inForeground : Bool) : Act Unit := do
  let n ← numArguments c
  if n ≠ 1 then throwE (.usage builtin_name)
  else do
    let jobID ← parseNumberE parseNumber (tokenAt c 0) builtin_name
    blockSignal SIGCHLD
    let jl ← getJoblist
    if !jl.containsJob jobID then throwE (.noSuchJob builtin_name jobID)
    else
      match jl.getJob jobID with
      | none => throwE (.noSuchJob builtin_name jobID)
      | some job => do
        setJoblist (jl.modifyJob jobID
          (fun j => j.setState (if inForeground then .kForeground else .kBackground)))
        if !jobIsRunning job then
          let _ ← killpg_errchk job.getGroupID SIGCONT
          pure ()
        else pure ()

/-- Resume execution of a job; the builtins `fg` and `bg`. -/
def resume (c : command) (builtin_name : String) (inForeground : Bool) : Act Unit := do
  resumeSetup parseNumber c builtin_name inForeground
  if inForeground then waitForForeground else pure ()
  unblockSignal SIGCHLD

/-- The lookup of `sendSignal` (lines 219-232): the process the builtin names. -/
def sendSignalResolve (c : command) (builtin_name : String) (numArgs : Nat) : Act STSHProcess := do
  if numArgs = 1 then do
    let pid := toPid (← parseNumberE parseNumber (tokenAt c 0) builtin_name)
    let jl ← getJoblist
    if !jl.containsProcess pid then throwE (.noProcessWithPid pid)
    else
      match (jl.getJobWithProcess pid).bind (fun j => j.getProcess pid) with
      | none => throwE (.noProcessWithPid pid)
      | some process => pure process
  else if numArgs = 2 then do
    let jobID ← parseNumberE parseNumber (tokenAt c 0) builtin_name
    let index ← parseNumberE parseNumber (tokenAt c 0) builtin_name
    let jl ← getJoblist
    if !jl.containsJob jobID then throwE (.noJobWithId jobID)
    else
      match jl.getJob jobID with
      | none => throwE (.noJobWithId jobID)
      | some job =>
        match job.processes.get? index with
        | none => throwE (.noProcessAtIndex jobID index)
        | some process => pure process
  else throwE (.usage builtin_name)

/-- Send a signal to the specified process; the builtins `slay`, `halt`, `cont`. -/
def sendSignal (c : command) (builtin_name : String) (sig : Int) : Act Unit := do
  let numArgs ← numArguments c
  blockSignal SIGCHLD
  let process ← sendSignalResolve parseNumber c builtin_name numArgs
  if sig = SIGSTOP ∧ process.state = .kStopped then pure ()
  else if sig = SIGCONT ∧ process.state = .kRunning then pure ()
  else do
    let _ ← kill_errchk process.pid sig
    unblockSignal SIGCHLD

def kSupportedBuiltins : List String :=
  ["quit", "exit", "fg", "bg", "slay", "halt", "cont", "jobs"]

/-- The command `pipeline.commands[0]`. -/
def pipeline.leading (p : pipeline) : command :=
  p.commands.headD { command := "", tokens := [none] }

def handleBuiltin (p : pipeline) : Act Bool :=
  let c := p.leading
  match kSupportedBuiltins.indexOf c.command with
  | 0 => exitE 0
  | 1 => exitE 0
  | 2 => do resume parseNumber c "fg" true; pure true
  | 3 => do resume parseNumber c "bg" false; pure true
  | 4 => do sendSignal parseNumber c "slay" SIGKILL; pure true
  | 5 => do sendSignal parseNumber c "halt" SIGSTOP; pure true
  | 6 => do sendSignal parseNumber c "cont" SIGCONT; pure true
  | 7 => do emit (.printJobList (← getJoblist)) 0; pure true
  | _ => pure false

end Builtins

/-! ## Creating jobs (stsh.cc lines 353-501) -/

/-- The group id of the job behind the reference `STSHJob& job`. -/
def jobGroupID (job : Nat) : Act Int := fun w =>
  (.ok (((w.joblist.getJob job).map (fun j => j.getGroupID)).getD 0), w)

/-- A wrapper around `execvp` that works with the command struct. -/
def executeCommand (c : command) : Act Int := execvp_errchk c.command

/-- Initialize a process for one command. When `fork` returns 0 the process
followed from there on is the child. -/
def startProcess (job : Nat) (c : command) (input_fd output_fd : Int) (inForeground : Bool) :
    Act Unit := do
  let child ← fork_errchk
  if child = 0 then do
    (fun w => (.ok (), { w with inChild := true }) : Act Unit)
    unblockSignal SIGCHLD
    if input_fd = STDIN_FILENO ∧ inForeground then do
      let pid ← syscall .getpid
      let pgid0 ← jobGroupID job
      let pgid := if pgid0 = 0 then pid else pgid0
      let _ ← setpgid_errchk pid pgid
      let _ ← tcsetpgrp_errchk STDIN_FILENO pgid
      pure ()
    else pure ()
    if input_fd ≠ STDIN_FILENO then do
      let _ ← dup2_errchk input_fd STDIN_FILENO
      let _ ← close_errchk input_fd
      pure ()
    else pure ()
    if output_fd ≠ STDOUT_FILENO then do
      let _ ← dup2_errchk output_fd STDOUT_FILENO
      let _ ← close_errchk output_fd
      pure ()
    else pure ()
    let _ ← executeCommand c
    exitE 0
  else do
    let jl ← getJoblist
    setJoblist (jl.modifyJob job (fun j => j.addProcess (STSHProcess.create child c)))
    let _ ← setpgid_errchk child (← jobGroupID job)
    pure ()

/-- The loop of `createJob` over the commands still to start; `i < numProcesses - 1`
holds exactly when commands remain after the current one. -/
def createJobLoop (job : Nat) (p : pipeline) : List command → Int → Act Unit
  | [], _ => Act.pure ()
  | c :: rest, prev_input_fd => do
    let fds ← (if rest ≠ [] then pipe2_errchk else Act.pure (0, 0))
    let output_fd ← (if rest ≠ [] then Act.pure fds.2
      else if p.output.length = 0 then Act.pure STDOUT_FILENO
      else open_errchk p.output true)
    tryCatchE (startProcess job c prev_input_fd output_fd (!p.background))
      (fun e => do
        let _ ← close_errchk prev_input_fd
        let _ ← close_errchk output_fd
        throwE e)
    if prev_input_fd ≠ STDIN_FILENO then do
      let _ ← close_errchk prev_input_fd
      pure ()
    else pure ()
    if output_fd ≠ STDOUT_FILENO then do
      let _ ← close_errchk output_fd
      pure ()
    else pure ()
    createJobLoop job p rest (if rest ≠ [] then fds.1 else prev_input_fd)

/-- Creates a new job on behalf of the provided pipeline. -/
def createJob (p : pipeline) : Act Unit := do
  let jl ← getJoblist
  let job := (jl.addJob (if p.background then .kBackground else .kForeground)).1
  setJoblist (jl.addJob (if p.background then .kBackground else .kForeground)).2
  let readFromStdin : Bool := p.input.length = 0
  let pipeline_input_fd ← (if readFromStdin then Act.pure STDIN_FILENO else open_errchk p.input false)
  blockSignal SIGCHLD
  let orig_pgrp ← (if readFromStdin ∧ !p.background then tcgetpgrp_errchk pipeline_input_fd
    else Act.pure (-1))
  createJobLoop job p p.commands pipeline_input_fd
  if !p.background then
    if !readFromStdin then waitForForeground
    else do
      let _ ← tcsetpgrp_errchk pipeline_input_fd (← jobGroupID job)
      waitForForeground
      let _ ← tcsetpgrp_errchk pipeline_input_fd orig_pgrp
      pure ()
  else do
    let j := ((← getJoblist).getJob job).getD { num := job, state := .kBackground, processes := [] }
    emit (.printJobStarted j.num (j.processes.map (fun q => q.pid))) 0
  unblockSignal SIGCHLD

/-! ## The read-eval loop of `main` (stsh.cc lines 515-527) -/

section Main

variable (parseNumber : String → Option Nat)

/-- One round of the loop of `main` for a line that parsed into a pipeline. -/
def mainStep (p : pipeline) : Act Unit :=
  tryCatchE
    (do
      let builtin ← handleBuiltin parseNumber p
      if !builtin then createJob p else pure ())
    (fun e => do
      emit (.printError e) 0
      if (← (fun w => (.ok w.inChild, w) : Act Bool)) then exitE 0 else pure ())

/-- What happens to the shell at its prompt: a line is read and run, with the
answers of the environment while it runs, or a signal is delivered. A SIGCHLD
sent while the signal is blocked stays pending and is not delivered. -/
inductive Op where
  | line (p : pipeline) (rets : List Int) (deliveries : List Delivery)
  | signal (d : Delivery)
  deriving DecidableEq, Repr

def step (w : World) : Op → Res Unit × World
  | .line p rets deliveries => mainStep parseNumber p { w with rets := rets, deliveries := deliveries }
  | .signal d => if d.sig = SIGCHLD ∧ w.blocked then (.ok (), w) else handleSignal d w

/-- Run the operations in order; the shell goes on only after a normal return. -/
def runOps : List Op → World → Res Unit × World
  | [], w => (.ok (), w)
  | op :: rest, w =>
    match step parseNumber w op with
    | (.ok _, w1) => runOps rest w1
    | r => r

/-- The shell as `main` starts it: empty registry, SIGCHLD not blocked. -/
def initialWorld : World :=
  { joblist := { jobs := [] }, blocked := false, trace := [], rets := [], deliveries := [],
    inChild := false }

end Main

/-! ## Observations on traces and sample data -/

def isSignalCall : SysCall → Bool
  | .kill _ _ => true
  | .killpg _ _ => true
  | _ => false

/-- The signals sent (`kill`, `killpg`) in a trace, in order. -/
def signalsSent (t : List Event) : List SysCall :=
  (t.map (fun e => e.call)).filter isSignalCall

/-- The world in which `resume` has blocked SIGCHLD and written the placement. -/
def afterSetState (w : World) (jobID : Nat) (inForeground : Bool) : World :=
  { w with blocked := true,
           trace := w.trace ++ [{ call := .sigprocmaskBlock SIGCHLD, ret := 0 }],
           joblist := w.joblist.modifyJob jobID
             (fun j => j.setState (if inForeground then .kForeground else .kBackground)) }

/-- The number of jobs with Foreground placement. -/
def foregroundCount (l : STSHJobList) : Nat :=
  (l.jobs.filter (fun j => j.state == .kForeground)).length

def decimalDigits : List Char → Nat → Option Nat
  | [], acc => some acc
  | c :: cs, acc =>
    if '0' ≤ c ∧ c ≤ '9' then decimalDigits cs (10 * acc + (c.toNat - '0'.toNat)) else none

/-- A sample `parseNumber`: unsigned decimal numbers. -/
def decimalNumber (s : String) : Option Nat :=
  if s.data = [] then none else decimalDigits s.data 0

/-- A command with its NULL-terminated tokens. -/
def mkCommand (name : String) (args : List String) : command :=
  { command := name, tokens := args.map some ++ [none] }

/-- The pipeline of a single command without redirection, in the foreground. -/
def mkLine (name : String) (args : List String) : pipeline :=
  { commands := [mkCommand name args], input := "", output := "", background := false }

def sampleProcess (pid : Int) (s : STSHProcessState) : STSHProcess :=
  { pid := pid, state := s, cmd := mkCommand "sleep" ["100"] }

/-- A shell whose registry holds job 1, in the background, with the given
processes; every system call to come succeeds. -/
def worldWithJob (ps : List STSHProcess) (deliveries : List Delivery) : World :=
  { joblist := { jobs := [{ num := 1, state := .kBackground, processes := ps }] },
    blocked := false, trace := [], rets := [0, 0, 0], deliveries := deliveries, inChild := false }

/-- The pipeline `cat < missing.txt`. -/
def catMissing : pipeline :=
  { commands := [mkCommand "cat" []], input := "missing.txt", output := "", background := false }

/-- The classification of a child status in the words of the spec: Terminated
for a normal exit or a fatal signal, Stopped for a stop, Running for a
continue. -/
def specClassify : WaitStatus → Option STSHProcessState
  | .exited _ => some .kTerminated
  | .signaled _ => some .kTerminated
  | .stopped _ => some .kStopped
  | .continued => some .kRunning
  | .unknown => none

/-- The value the environment returns to the next system call. -/
def World.nextAnswer (w : World) : Int := w.rets.headD (-1)

/-- The world after the system call `c` has been issued and answered. -/
def World.push (w : World) (c : SysCall) : World :=
  { w with rets := w.rets.tail, trace := w.trace ++ [{ call := c, ret := w.nextAnswer }] }

/-- A relation between the world before and after, closed under sequencing. -/
structure Frame (R : World → World → Prop) : Prop where
  refl : ∀ w, R w w
  trans : ∀ a b c, R a b → R b c → R a c

/-- Every run of `m` relates the world it starts in to the world it ends in. -/
def Steps {α : Type} (R : World → World → Prop) (m : Act α) : Prop :=
  ∀ w, R w (m w).2

/-- The frame of an observation that stays the same. -/
def keeps {β : Type} (obs : World → β) : World → World → Prop :=
  fun w w1 => obs w1 = obs w

/-- A frame that is not affected by system calls of the kind `A` being added to
the trace, nor by the environment's answers being used up. -/
structure TraceFrame (R : World → World → Prop) (A : SysCall → Prop) : Prop where
  frame : Frame R
  emit : ∀ (w : World) (c : SysCall) (r : Int) (rs : List Int) (ds : List Delivery), A c →
    R w { w with trace := w.trace ++ [{ call := c, ret := r }], rets := rs, deliveries := ds }
  skip : ∀ (w : World) (rs : List Int) (ds : List Delivery),
    R w { w with rets := rs, deliveries := ds }

/-- The first step of the child of `startProcess` (lines 397-408): the child of a
foreground job that reads the terminal puts itself into the group of the job
and hands the terminal to that group. -/
def childSetGroup (job : Nat) (input_fd : Int) (inForeground : Bool) : Act Unit :=
  if input_fd = STDIN_FILENO ∧ inForeground then
    syscall .getpid >>= fun pid =>
    jobGroupID job >>= fun pgid0 =>
    setpgid_errchk pid (if pgid0 = 0 then pid else pgid0) >>= fun _ =>
    tcsetpgrp_errchk STDIN_FILENO (if pgid0 = 0 then pid else pgid0) >>= fun _ =>
    pure ()
  else pure ()

/-- The child duplicates a descriptor onto a standard one and closes the original
(lines 409-416). -/
def childRedirect (fd target : Int) : Act Unit :=
  if fd ≠ target then
    dup2_errchk fd target >>= fun _ => close_errchk fd >>= fun _ => pure ()
  else pure ()

/-- The child branch of `startProcess` (lines 395-420): what the forked child
runs. -/
def startProcessChild (job : Nat) (c : command) (input_fd output_fd : Int) (inForeground : Bool) :
    Act Unit :=
  unblockSignal SIGCHLD >>= fun _ =>
  childSetGroup job input_fd inForeground >>= fun _ =>
  childRedirect input_fd STDIN_FILENO >>= fun _ =>
  childRedirect output_fd STDOUT_FILENO >>= fun _ =>
  executeCommand c >>= fun _ =>
  exitE 0

/-- From here on the process followed is the forked child. -/
def enterChild : Act Unit := fun w => (.ok (), { w with inChild := true })

/-- The parent branch of `startProcess` (lines 422-424) for the pid `child`. -/
def startProcessParent (job : Nat) (c : command) (child : Int) : Act Unit := do
  let jl ← getJoblist
  setJoblist (jl.modifyJob job (fun j => j.addProcess (STSHProcess.create child c)))
  let _ ← setpgid_errchk child (← jobGroupID job)
  pure ()

/-- The first part of an iteration of the loop of `createJob` (lines 457-465): the
pipe to the next command, or the output of the pipeline for the last one. The
result is the pair `fds` and `output_fd`. -/
def openOutput (p : pipeline) (rest : List command) : Act ((Int × Int) × Int) :=
  (if rest ≠ [] then pipe2_errchk else Act.pure (0, 0)) >>= fun fds =>
  (if rest ≠ [] then Act.pure fds.2
    else if p.output.length = 0 then Act.pure STDOUT_FILENO
    else open_errchk p.output true) >>= fun output_fd =>
  pure (fds, output_fd)

/-- The catch block of the loop of `createJob` (lines 468-475). -/
def cleanupHandler (prev_input_fd output_fd : Int) (e : STSHException) : Act Unit :=
  close_errchk prev_input_fd >>= fun _ => close_errchk output_fd >>= fun _ => throwE e

/-- The try block of the loop of `createJob` with its catch block (lines 466-475). -/
def startOrCleanup (job : Nat) (p : pipeline) (c : command) (prev_input_fd output_fd : Int) :
    Act Unit :=
  tryCatchE (startProcess job c prev_input_fd output_fd (!p.background))
    (cleanupHandler prev_input_fd output_fd)

/-- The parent closes the descriptors it has passed on (lines 476-477). -/
def closeParentEnds (prev_input_fd output_fd : Int) : Act Unit :=
  (if prev_input_fd ≠ STDIN_FILENO then close_errchk prev_input_fd >>= fun _ => pure ()
    else pure ()) >>= fun _ =>
  (if output_fd ≠ STDOUT_FILENO then close_errchk output_fd >>= fun _ => pure () else pure ())

/-- The flag `readFromStdin` of `createJob`: no input redirection is given. -/
def readFromStdin (p : pipeline) : Bool := p.input.length = 0

/-- Lines 446-454 of `createJob`: the job is registered, the input is resolved,
SIGCHLD is blocked and the owner of the terminal is looked up. The result is the
id of the job, `pipeline_input_fd` and `orig_pgrp`. -/
def createJobHead (p : pipeline) : Act (Nat × Int × Int) :=
  getJoblist >>= fun jl =>
  setJoblist (jl.addJob (if p.background then .kBackground else .kForeground)).2 >>= fun _ =>
  (if readFromStdin p then Act.pure STDIN_FILENO else open_errchk p.input false)
    >>= fun pipeline_input_fd =>
  blockSignal SIGCHLD >>= fun _ =>
  (if readFromStdin p ∧ !p.background then tcgetpgrp_errchk pipeline_input_fd
    else Act.pure (-1)) >>= fun orig_pgrp =>
  pure ((jl.addJob (if p.background then .kBackground else .kForeground)).1,
    pipeline_input_fd, orig_pgrp)

/-- The notice printed for a background job (lines 494-498). -/
def printJobStarted (job : Nat) : Act Unit :=
  getJoblist >>= fun jl =>
  emit (.printJobStarted
    ((jl.getJob job).getD { num := job, state := .kBackground, processes := [] }).num
    (((jl.getJob job).getD { num := job, state := .kBackground, processes := [] }).processes.map
      (fun q => q.pid))) 0

/-- Lines 481-500 of `createJob`: what follows the loop. -/
def createJobTail (p : pipeline) (job : Nat) (pipeline_input_fd orig_pgrp : Int) : Act Unit :=
  (if !p.background then
    if !readFromStdin p then waitForForeground
    else
      jobGroupID job >>= fun g =>
      tcsetpgrp_errchk pipeline_input_fd g >>= fun _ =>
      waitForForeground >>= fun _ =>
      tcsetpgrp_errchk pipeline_input_fd orig_pgrp >>= fun _ =>
      pure ()
  else printJobStarted job) >>= fun _ =>
  unblockSignal SIGCHLD

/-- The function ends the life of the process or throws: it does not return and
does not sleep forever. -/
def Res.ends {α : Type} : Res α → Prop
  | .throw _ => True
  | .exit code => code = 0
  | .replaced => True
  | .ok _ => False
  | .hang => False

/-- The result is a return, a throw, the end of the process with status 0, or the
replacement of the program: not a sleep without end. -/
def Res.fine {α : Type} : Res α → Prop
  | .hang => False
  | .exit code => code = 0
  | _ => True

/-- An action that never sleeps forever and ends the process only with status 0. -/
def NoHang {α : Type} (m : Act α) : Prop := ∀ w, (m w).1.fine

/-- The world in which the parent has recorded a process in a job. -/
def World.addProcess (w : World) (job : Nat) (q : STSHProcess) : World :=
  { w with joblist := w.joblist.modifyJob job (fun j => j.addProcess q) }

/-- The group id of a job of the registry, 0 when the job has no process. -/
def World.groupOf (w : World) (job : Nat) : Int :=
  ((w.joblist.getJob job).map (fun j => j.getGroupID)).getD 0

/-- Every job of the registry of `w1` is a job of the registry of `w`, with the same
id and the same group id: no job has changed its group id on the way from `w`
to `w1`. -/
def groupIdsKept (w w1 : World) : Prop :=
  ∀ j1 ∈ w1.joblist.jobs, ∃ j ∈ w.joblist.jobs, j.num = j1.num ∧ j.getGroupID = j1.getGroupID

/-- An action that, started in the shell, does not return normally (and does not
sleep) in a forked child: when it ends in the child, it has thrown, ended the
process with status 0, or replaced the program. -/
def ChildSafe {α : Type} (m : Act α) : Prop :=
  ∀ w, w.inChild = false → (m w).2.inChild = true → (m w).1.ends

/-- The events of the first part of an iteration that succeeds: the pipe created
for a command that is not the last one, with its two ends, or the output file
opened for the last command. -/
def openEvents (p : pipeline) (rest : List command) (a rd wr out : Int) : List Event :=
  if rest ≠ [] then [{ call := .pipe2, ret := a }, { call := .pipe2Fds rd wr, ret := 0 }]
  else if p.output.length = 0 then []
  else [{ call := .openWrite p.output, ret := out }]

/-- The events of the parent closing the descriptors it has passed on. -/
def closeEvents (prev out c1 c2 : Int) : List Event :=
  (if prev ≠ STDIN_FILENO then [{ call := .close prev, ret := c1 }] else []) ++
  (if out ≠ STDOUT_FILENO then [{ call := .close out, ret := c2 }] else [])

/-- One iteration of the loop of `createJob` in which every system call succeeds,
leading the shell from `w` to `w3`: the command gets `out` as its output, the
next command gets `next` as its input, and `pid` is the process forked. -/
structure IterOk (job : Nat) (p : pipeline) (c : command) (rest : List command) (prev : Int)
    (w w3 : World) (out next pid : Int) : Prop where
  pid_pos : 0 < pid
  joblist : w3.joblist = w.joblist.modifyJob job (fun j => j.addProcess (STSHProcess.create pid c))
  blocked : w3.blocked = w.blocked
  inChild : w3.inChild = w.inChild
  wiring : (rest ≠ [] ∨ (p.output.length = 0 → out = STDOUT_FILENO)) ∧ (rest = [] → next = prev)
  trace : ∃ a b c1 c2 rd wr : Int, 0 ≤ a ∧ 0 ≤ b ∧ 0 ≤ c1 ∧ 0 ≤ c2 ∧
    (rest ≠ [] → out = wr ∧ next = rd) ∧ (rest = [] → p.output.length ≠ 0 → 0 ≤ out) ∧
    w3.trace = w.trace ++ (openEvents p rest a rd wr out ++
      [{ call := .fork, ret := pid },
       { call := .setpgid pid ((w.addProcess job (STSHProcess.create pid c)).groupOf job),
         ret := b }] ++ closeEvents prev out c1 c2)

/-- The pids returned to the parent by the forks of a trace, in order. -/
def forkedPids (t : List Event) : List Int :=
  (t.filter (fun e => e.call == .fork && decide (0 < e.ret))).map (fun e => e.ret)

/-- The calls `setpgid(pid, pgid)` of a trace, in order. -/
def setpgidCalls (t : List Event) : List (Int × Int) :=
  t.filterMap (fun e => match e.call with
    | .setpgid pid pgid => some (pid, pgid)
    | _ => none)

/-- The system calls the parent issues in the loop of `createJob`. -/
def isLoopCall : SysCall → Bool
  | .pipe2 => true
  | .pipe2Fds _ _ => true
  | .openWrite _ => true
  | .fork => true
  | .setpgid _ _ => true
  | .close _ => true
  | _ => false

/-- The placement `createJob` gives to the job of a pipeline. -/
def placementOf (p : pipeline) : STSHJobState :=
  if p.background then .kBackground else .kForeground

/-- The events of lines 446-454 of a run of `createJob` that gets through them:
the input file opened when an input redirection is given, SIGCHLD blocked, and
the owner of the terminal looked up for a foreground pipeline that reads it. -/
def headEvents (p : pipeline) (input_fd orig_pgrp : Int) : List Event :=
  (if readFromStdin p then [] else [{ call := .openRead p.input, ret := input_fd }]) ++
  [{ call := .sigprocmaskBlock SIGCHLD, ret := 0 }] ++
  (if readFromStdin p ∧ !p.background then [{ call := .tcgetpgrp input_fd, ret := orig_pgrp }]
    else [])

/-- Lines 446-480 of `createJob`: everything up to the end of the loop that starts
the processes. The result is the id of the job, `pipeline_input_fd` and
`orig_pgrp`. -/
def createJobStart (p : pipeline) : Act (Nat × Int × Int) :=
  createJobHead p >>= fun x =>
  createJobLoop x.1 p p.commands x.2.1 >>= fun _ =>
  pure x

/-- The job a run of `createJob` has registered when its loop has started a
process with each of the pids `pids`, in this order, for the commands of `p`. -/
def startedJob (p : pipeline) (num : Nat) (pids : List Int) : STSHJob :=
  { num := num, state := placementOf p,
    processes := List.zipWith STSHProcess.create pids p.commands }

/-- What a run of lines 446-480 of `createJob` that gets to the end of the loop
has done, in the world `w1` it ends in with the result `x`: `pids` are the pids
of the processes forked and `delta` the events of the loop. -/
structure StartOk (p : pipeline) (w w1 : World) (x : Nat × Int × Int) (pids : List Int)
    (delta : List Event) : Prop where
  num : x.1 = w.joblist.nextNum
  length : pids.length = p.commands.length
  pids_pos : ∀ pid ∈ pids, 0 < pid
  joblist : w1.joblist = { jobs := w.joblist.jobs ++ [startedJob p x.1 pids] }
  getJob : w1.joblist.getJob x.1 = some (startedJob p x.1 pids)
  blocked : w1.blocked = true
  inChild : w1.inChild = w.inChild
  stdin : readFromStdin p = true → x.2.1 = STDIN_FILENO
  input : readFromStdin p = false → 0 ≤ x.2.1
  orig : readFromStdin p = true → p.background = false → 0 ≤ x.2.2
  trace : w1.trace = w.trace ++ (headEvents p x.2.1 x.2.2 ++ delta)
  forks : forkedPids delta = pids
  groups : setpgidCalls delta = pids.map (fun pid => (pid, pids.headD 0))
  calls : ∀ e ∈ delta, isLoopCall e.call = true
  forkCount : (delta.filter (fun e => e.call == .fork)).length = p.commands.length

/-- The pipeline `ls | sort | wc &`. -/
def threeStage : pipeline :=
  { commands := [mkCommand "ls" [], mkCommand "sort" [], mkCommand "wc" []],
    input := "", output := "", background := true }

/-- A shell with an empty registry in which every system call of `createJob` for a
pipeline of three commands succeeds: the pipes get the descriptors 3, 4 and 5, 6
and the children the pids 100, 101 and 102. -/
def threeStageWorld : World :=
  { initialWorld with rets := [0, 3, 4, 100, 0, 0, 0, 5, 6, 101, 0, 0, 0, 102, 0, 0] }

/-- The system calls issued during `waitForForeground`: `sigsuspend`, and in the
signal handlers that run meanwhile `waitpid`, `killpg` and `exit`. -/
def isWaitCall : SysCall → Bool
  | .sigsuspend => true
  | .waitpid => true
  | .killpg _ _ => true
  | .exit _ => true
  | _ => false

/-- The world `w1` comes from `w` by system calls of the kind `A` only, with the
signal mask and the process unchanged. -/
def TraceExt (A : SysCall → Bool) (w w1 : World) : Prop :=
  w1.blocked = w.blocked ∧ w1.inChild = w.inChild ∧
    ∃ d : List Event, w1.trace = w.trace ++ d ∧ ∀ e ∈ d, A e.call = true

/-- The group that owns the terminal according to a trace: the one of the last
`tcsetpgrp` that succeeded. -/
def terminalOwner (t : List Event) : Option Int :=
  (t.filterMap (fun e => match e.call with
    | .tcsetpgrp _ pgrp => if 0 ≤ e.ret then some pgrp else none
    | _ => none)).getLast?

/-- A shell with an empty registry that is about to run one command in the
foreground: the terminal belongs to group 50, the child gets pid 100, every
system call succeeds, and the child exits while the shell waits. -/
def oneChildWorld : World :=
  { initialWorld with
      rets := [50, 100, 0, 0, 0],
      deliveries := [{ sig := SIGCHLD, children := [(100, .exited 0)] }] }

/-- The run has ended in a forked child, or `R` relates the worlds: what `R` says
about the runs that stay in the shell process. -/
def InShell (R : World → World → Prop) (w w1 : World) : Prop :=
  w1.inChild = true ∨ R w w1

/-- The calls that change the signal mask. -/
def isMaskCall : SysCall → Bool
  | .sigprocmaskBlock _ => true
  | .sigprocmaskUnblock _ => true
  | _ => false

/-- A call that neither changes the signal mask nor forks. -/
def isQuietCall (c : SysCall) : Bool := !isMaskCall c && !(c == .fork)

/-- Where a run of `createJob` stands with respect to the mask: SIGCHLD not yet
blocked, blocked, or unblocked again. -/
inductive MaskPhase where
  | before
  | blocked
  | done
  deriving DecidableEq, Repr

/-- The discipline of `createJob` on the signal mask, call by call: before the
block of SIGCHLD there is no fork and no unblock, after it the mask is not
touched until SIGCHLD is unblocked, and after that nothing follows. -/
def maskStep : MaskPhase → SysCall → Option MaskPhase
  | .before, .sigprocmaskBlock sig => if sig = SIGCHLD then some .blocked else none
  | .before, .sigprocmaskUnblock _ => none
  | .before, .fork => none
  | .before, _ => some .before
  | .blocked, .sigprocmaskBlock _ => none
  | .blocked, .sigprocmaskUnblock sig => if sig = SIGCHLD then some .done else none
  | .blocked, _ => some .blocked
  | .done, _ => none

/-- The phase reached by a sequence of calls that keeps the discipline of
`maskStep`, none when it breaks it. -/
def maskScan : MaskPhase → List Event → Option MaskPhase
  | ph, [] => some ph
  | ph, e :: t => (maskStep ph e.call).bind (fun ph1 => maskScan ph1 t)

/-- Lines 481-498 of `createJob`: the wait for a foreground job, with the terminal
handed over and taken back, or the notice for a background job. -/
def createJobWait (p : pipeline) (job : Nat) (pipeline_input_fd orig_pgrp : Int) : Act Unit :=
  if !p.background then
    if !readFromStdin p then waitForForeground
    else
      jobGroupID job >>= fun g =>
      tcsetpgrp_errchk pipeline_input_fd g >>= fun _ =>
      waitForForeground >>= fun _ =>
      tcsetpgrp_errchk pipeline_input_fd orig_pgrp >>= fun _ =>
      pure ()
  else printJobStarted job

/-- Lines 449-451 of `createJob`: the input of the pipeline is resolved. -/
def openInput (p : pipeline) : Act Int :=
  if readFromStdin p then Act.pure STDIN_FILENO else open_errchk p.input false

/-- Lines 453-454 of `createJob`: the owner of the terminal is looked up for a
foreground pipeline that reads the terminal. -/
def lookupOwner (p : pipeline) (pipeline_input_fd : Int) : Act Int :=
  if readFromStdin p ∧ !p.background then tcgetpgrp_errchk pipeline_input_fd else Act.pure (-1)

/-- A call that does not change the signal mask. -/
def notMaskCall (c : SysCall) : Bool := !isMaskCall c

/-- The registry and the process are the same in `w1` as in `w`, and no fork has
succeeded in the shell on the way from `w` to `w1`. -/
def NoFork (w w1 : World) : Prop :=
  w1.joblist = w.joblist ∧ w1.inChild = w.inChild ∧
    ∃ d : List Event, w1.trace = w.trace ++ d ∧ forkedPids d = []

/-- On the way from `w` to `w1` the shell has recorded in the job, in order, one
process for each fork that succeeded, for the commands `cmds` from the first
one on, and has changed nothing else in the registry. -/
def Recorded (job : Nat) (cmds : List command) (w w1 : World) : Prop :=
  w1.inChild = w.inChild ∧ ∃ d : List Event, w1.trace = w.trace ++ d ∧
    (forkedPids d).length ≤ cmds.length ∧
    w1.joblist = w.joblist.modifyJob job (fun j =>
      { j with processes := j.processes ++ List.zipWith STSHProcess.create (forkedPids d) cmds })

/-- On the way from `w` to `w1` one fork has succeeded and its process has been
recorded in the job for the command `c`. -/
def OneFork (job : Nat) (c : command) (w w1 : World) : Prop :=
  w1.inChild = w.inChild ∧ ∃ (d : List Event) (pid : Int), w1.trace = w.trace ++ d ∧
    forkedPids d = [pid] ∧
    w1.joblist = w.joblist.modifyJob job (fun j => j.addProcess (STSHProcess.create pid c))

/-- The descriptors the environment has handed out to the shell in a trace, in
order: the result of each `open` that succeeded and the two ends of each pipe. -/
def openedFds (t : List Event) : List Int :=
  t.flatMap (fun e => match e.call with
    | .openRead _ => if 0 ≤ e.ret then [e.ret] else []
    | .openWrite _ => if 0 ≤ e.ret then [e.ret] else []
    | .pipe2Fds rd wr => [rd, wr]
    | _ => [])

/-- The descriptors closed in a trace, in order: the argument of each `close` that
succeeded. -/
def closedFds (t : List Event) : List Int :=
  t.flatMap (fun e => match e.call with
    | .close fd => if 0 ≤ e.ret then [fd] else []
    | _ => [])

/-- The descriptor the shell holds for the input of the next command, when it is
not its own standard input. -/
def pendingInput (prev : Int) : List Int :=
  if prev = STDIN_FILENO then [] else [prev]

/-- The pipeline `sort < in.txt | wc > out.txt &`. -/
def sortWc : pipeline :=
  { commands := [mkCommand "sort" [], mkCommand "wc" []],
    input := "in.txt", output := "out.txt", background := true }

/-- A shell with an empty registry in which every system call of `createJob` for
`sortWc` succeeds: the input file gets descriptor 3, the pipe the descriptors 4
and 5, the output file descriptor 3 again (free by then), and the children the
pids 100 and 101. -/
def sortWcWorld : World :=
  { initialWorld with rets := [3, 0, 4, 5, 100, 0, 0, 0, 3, 101, 0, 0, 0] }

/-- The pipes created in a trace, in order, each with its read end and its write
end. -/
def pipeFds (t : List Event) : List (Int × Int) :=
  t.filterMap (fun e => match e.call with
    | .pipe2Fds rd wr => some (rd, wr)
    | _ => none)

/-- The events of the child putting `fd` in the place of the standard descriptor
`target` (lines 409-416): `dup2(fd, target)` and `close(fd)`, nothing when `fd`
is `target` itself. -/
def redirectEvents (fd target a b : Int) : List Event :=
  if fd ≠ target then [{ call := .dup2 fd target, ret := a }, { call := .close fd, ret := b }]
  else []

/-- The calls by which the child of a foreground job that reads the terminal joins
the group of the job and hands the terminal to it (lines 397-408). -/
def isGroupCall : SysCall → Bool
  | .getpid => true
  | .setpgid _ _ => true
  | .tcsetpgrp _ _ => true
  | _ => false

/-- The events of a child of `startProcess` that gets to run its program, from the
`fork` that returns 0 to the `execvp` that replaces the program: SIGCHLD is
unblocked, `grp` are the calls about the process group, `input_fd` is put in
the place of the standard input, `output_fd` in the place of the standard
output, and the program of the command `c` is run. -/
def childEvents (c : command) (input_fd output_fd : Int) (grp : List Event)
    (a1 b1 a2 b2 r : Int) : List Event :=
  [{ call := .fork, ret := 0 }, { call := .sigprocmaskUnblock SIGCHLD, ret := 0 }] ++ grp ++
    redirectEvents input_fd STDIN_FILENO a1 b1 ++ redirectEvents output_fd STDOUT_FILENO a2 b2 ++
    [{ call := .execvp c.command, ret := r }]

/-- The action never replaces the program of the process. -/
def NoExec {α : Type} (m : Act α) : Prop := ∀ w, (m w).1 ≠ .replaced

/-- The world of `sortWcWorld` seen from the first child: the first `fork` returns
0, and the calls of the child succeed. -/
def sortWcFirstChild : World :=
  { initialWorld with rets := [3, 0, 4, 5, 0, 0, 0, 0, 0, 0] }

/-- The world of `sortWcWorld` seen from the second child: the shell gets the pid
100 from the first `fork`, the second `fork` returns 0, and the calls of the
child succeed. -/
def sortWcSecondChild : World :=
  { initialWorld with rets := [3, 0, 4, 5, 100, 0, 0, 0, 3, 0, 0, 0, 0, 0, 0] }

/-- A foreground command that reads the terminal and writes to it, seen from its
child: the terminal belongs to group 50, `fork` returns 0, the child has pid
100, and its calls succeed. -/
def lsChild : World :=
  { initialWorld with rets := [50, 0, 100, 0, 0, 0] }

end Stsh

/-!
# The file system reader (src/assign2)

A shallow embedding of `inode_iget`, `inode_indexlookup`, `inode_getsize`,
`file_getblock` and `directory_findname`. The disk is what
`diskimg_readsector` answers: for each sector number a return value and the
content the buffer holds after the call.
-/

namespace Unixv6

/-- The constants of diskimg.h, unixfilesystem.h and ino.h that the code uses;
these headers are not part of the sources, so the constants are parameters.
`sizeof_inode` is `sizeof(struct inode)`. -/
structure Layout where
  DISKIMG_SECTOR_SIZE : Int
  INODE_START_SECTOR : Int
  sizeof_inode : Int
  ILARG : Nat
  IFMT : Nat
  IFDIR : Nat

/-- The fields of `struct inode` (ino.h, not part of the sources) that the code
reads: the mode, the two parts of the size and the eight block numbers
`i_addr[0..7]`. -/
structure inode where
  i_mode : Nat
  i_size0 : Nat
  i_size1 : Nat
  i_addr : Nat → Nat

/-- The `struct direntv6` of direntv6.h: 16 bytes, the inumber and a name of at most
`D_NAME_MAX_SIZE` characters (those before the padding with NUL). -/
structure direntv6 where
  d_inumber : Nat
  d_name : List Char
  deriving DecidableEq, Repr

def D_NAME_MAX_SIZE : Nat := 14

/-- The value of `sizeof(struct direntv6)`: a `uint16_t` and 14 characters. -/
def sizeof_direntv6 : Int := 2 + 14

/-- What a buffer of one sector holds, seen as the array the caller declared:
inodes (`inode_iget`), 16-bit block numbers (`lookup_address_block`) or
directory entries (`directory_findname`). -/
structure Sector where
  inodes : Nat → inode
  words : Nat → Nat
  dirents : Nat → direntv6

/-- The file system as the code sees it: `superblock.s_isize`, and for each sector
number what `diskimg_readsector` (diskimg.c, not part of the sources) returns and
what the buffer holds after the call (whatever was in it when the read
failed). -/
structure unixfilesystem where
  s_isize : Nat
  readsector : Int → Int
  sector : Int → Sector

/-- The element `buf[i]` of a C array with `n` elements; `none` when the index is
outside the array, where the read is undefined. -/
def bufRead {α : Type} (n : Int) (buf : Nat → α) (i : Int) : Option α :=
  if 0 ≤ i ∧ i < n then some (buf i.toNat) else none

/-- The macro `n_address_per_block`, with `sizeof(uint16_t) = 2`. -/
def n_address_per_block (L : Layout) : Int := L.DISKIMG_SECTOR_SIZE.tdiv 2

def DISKIMG_MAX_FILESIZE (L : Layout) : Int :=
  7 * n_address_per_block L * L.DISKIMG_SECTOR_SIZE +
    n_address_per_block L * n_address_per_block L * L.DISKIMG_SECTOR_SIZE

/-- The macro `n_inode_per_sector`. -/
def n_inode_per_sector (L : Layout) : Int := L.DISKIMG_SECTOR_SIZE.tdiv L.sizeof_inode

/-- The function `inode_iget`: the value returned and the inode stored in `*inp`,
`none` when nothing is stored or what is stored was read outside the buffer. -/
def inode_iget (L : Layout) (fs : unixfilesystem) (inumber : Int) : Int × Option inode :=
  if inumber = 0 then (-1, none)
  else
    let inumber := inumber - 1
    let num_inodes := (fs.s_isize : Int) * n_inode_per_sector L
    if inumber ≥ num_inodes then (-1, none)
    else
      let sector_containing_inode := inumber.tdiv (n_inode_per_sector L) + L.INODE_START_SECTOR
      let inode_index_within_sector := inumber.tmod (n_inode_per_sector L)
      let buf := (fs.sector sector_containing_inode).inodes
      (0, bufRead (n_inode_per_sector L) buf inode_index_within_sector)

/-- The function `lookup_address_block`; the value returned by the read is not
looked at. -/
def lookup_address_block (L : Layout) (fs : unixfilesystem) (block : Int) (index : Int) :
    Option Int :=
  (bufRead (L.DISKIMG_SECTOR_SIZE.tdiv 2) (fs.sector block).words index).map Int.ofNat

def inode_getsize (inp : inode) : Int := ((inp.i_size0 <<< 16) ||| inp.i_size1 : Nat)

def inode_islarge (L : Layout) (inp : inode) : Bool := inp.i_mode &&& L.ILARG ≠ 0

def inode_isdir (L : Layout) (inp : inode) : Bool := inp.i_mode &&& L.IFMT = L.IFDIR

/-- The element `inp->i_addr[i]`. -/
def addrAt (inp : inode) (i : Int) : Option Int := (bufRead 8 inp.i_addr i).map Int.ofNat

/-- The function `inode_indexlookup`; `none` when an array is read outside its
bounds. -/
def inode_indexlookup (L : Layout) (fs : unixfilesystem) (inp : inode) (fileBlockIndex : Int) :
    Option Int :=
  let filesize := inode_getsize inp
  if !inode_islarge L inp then
    if fileBlockIndex ≥ 8 then some (-1)
    else addrAt inp fileBlockIndex
  else if filesize ≤ DISKIMG_MAX_FILESIZE L then
    if fileBlockIndex < 7 * n_address_per_block L then
      let index1 := fileBlockIndex.tdiv (n_address_per_block L)
      let index2 := fileBlockIndex.tmod (n_address_per_block L)
      (addrAt inp index1).bind fun address_block =>
      lookup_address_block L fs address_block index2
    else
      if fileBlockIndex ≥ 7 * n_address_per_block L +
          n_address_per_block L * n_address_per_block L then some (-1)
      else
        let fileBlockIndex := fileBlockIndex - 7 * n_address_per_block L
        let index1 := 7
        let index2 := fileBlockIndex.tdiv (n_address_per_block L)
        let index3 := fileBlockIndex.tmod (n_address_per_block L)
        (addrAt inp index1).bind fun address_block1 =>
        (lookup_address_block L fs address_block1 index2).bind fun address_block2 =>
        lookup_address_block L fs address_block2 index3
  else some (-1)

/-- The function `file_getblock`: the value returned and the number of the sector
that has been read into `buf`, if one has; `none` when the inode or a block
number used was read outside an array. -/
def file_getblock (L : Layout) (fs : unixfilesystem) (inumber : Int) (fileBlockIndex : Int) :
    Option (Int × Option Int) :=
  let r := inode_iget L fs inumber
  if r.1 < 0 then some (-1, none)
  else
    match r.2 with
    | none => none
    | some inp =>
      match inode_indexlookup L fs inp fileBlockIndex with
      | none => none
      | some block_num =>
        if block_num < 0 then some (-1, none)
        else if fs.readsector block_num < 0 then some (-1, some block_num)
        else
          let filesize := inode_getsize inp
          if filesize.tmod L.DISKIMG_SECTOR_SIZE = 0 then
            let num_blocks := filesize.tdiv L.DISKIMG_SECTOR_SIZE
            if fileBlockIndex ≥ num_blocks then some (-1, some block_num)
            else some (L.DISKIMG_SECTOR_SIZE, some block_num)
          else
            let num_blocks := filesize.tdiv L.DISKIMG_SECTOR_SIZE + 1
            if fileBlockIndex ≥ num_blocks then some (-1, some block_num)
            else if fileBlockIndex = num_blocks - 1 then
              some (filesize.tmod L.DISKIMG_SECTOR_SIZE, some block_num)
            else some (L.DISKIMG_SECTOR_SIZE, some block_num)

/-- The test `strncmp(a, b, n) == 0` on the characters of two C strings. -/
def strncmpEq (a b : List Char) (n : Nat) : Bool := a.take n == b.take n

/-- How `directory_findname` ends: it returns `code`, with the entry stored in
`*dirEnt` if one is; or it reads `buf[i]` with `i` outside the buffer while
looking at the block `fileBlockIndex`; or it uses an inode or a block number
that was read outside an array. -/
inductive FindResult where
  | ret (code : Int) (dirEnt : Option direntv6)
  | outside (fileBlockIndex : Int) (i : Int)
  | undefined
  deriving DecidableEq, Repr

/-- The inner loop of `directory_findname` over the indices still to come (lines
27-32); `none` when it runs through without a match. -/
def findInBlock (nbuf : Int) (buf : Nat → direntv6) (name : List Char) (fileBlockIndex : Int) :
    List Nat → Option FindResult
  | [] => none
  | i :: rest =>
    match bufRead nbuf buf i with
    | none => some (.outside fileBlockIndex i)
    | some entry =>
      if strncmpEq entry.d_name name D_NAME_MAX_SIZE then some (.ret 0 (some entry))
      else findInBlock nbuf buf name fileBlockIndex rest

/-- The outer loop of `directory_findname` from `offset` on (lines 20-33); `rounds`
bounds the number of rounds still to come. -/
def findFromOffset (L : Layout) (fs : unixfilesystem) (name : List Char) (dirinumber : Int)
    (size : Int) : Nat → Int → FindResult
  | 0, _ => .ret (-1) none
  | rounds + 1, offset =>
    if offset < size then
      let fileBlockIndex := offset.tdiv L.DISKIMG_SECTOR_SIZE
      match file_getblock L fs dirinumber fileBlockIndex with
      | none => .undefined
      | some (bytes_read, block) =>
        if bytes_read < 0 then .ret (-1) none
        else
          let nbuf := L.DISKIMG_SECTOR_SIZE.tdiv sizeof_direntv6
          let buf := ((block.map fs.sector).map (fun s => s.dirents)).getD
            (fun _ => { d_inumber := 0, d_name := [] })
          match findInBlock nbuf buf name fileBlockIndex
              (List.range (nbuf * sizeof_direntv6).toNat) with
          | some r => r
          | none => findFromOffset L fs name dirinumber size rounds (offset + L.DISKIMG_SECTOR_SIZE)
    else .ret (-1) none

/-- The function `directory_findname`. With sectors of at least one byte the outer
loop makes at most `size` rounds. -/
def directory_findname (L : Layout) (fs : unixfilesystem) (name : List Char) (dirinumber : Int) :
    FindResult :=
  let r := inode_iget L fs dirinumber
  if r.1 < 0 then .ret (-1) none
  else
    match r.2 with
    | none => .undefined
    | some ino =>
      if !inode_isdir L ino then .ret (-1) none
      else findFromOffset L fs name dirinumber (inode_getsize ino) (inode_getsize ino).toNat 0

/-- The layout of the Unix v6 file system: sectors of 512 bytes, inodes of 32 bytes
from sector 2 on, and the mode bits `ILARG`, `IFMT` and `IFDIR`. -/
def v6 : Layout :=
  { DISKIMG_SECTOR_SIZE := 512, INODE_START_SECTOR := 2, sizeof_inode := 32,
    ILARG := 0o10000, IFMT := 0o60000, IFDIR := 0o40000 }

/-- An inode that is not allocated. -/
def emptyInode : inode := { i_mode := 0, i_size0 := 0, i_size1 := 0, i_addr := fun _ => 0 }

/-- The inode of a directory of `size` bytes whose first block is sector 10. -/
def dirInode (size : Nat) : inode :=
  { i_mode := 0o140000, i_size0 := 0, i_size1 := size, i_addr := fun i => if i = 0 then 10 else 0 }

/-- A sector as an empty buffer. -/
def emptySector : Sector :=
  { inodes := fun _ => emptyInode, words := fun _ => 0,
    dirents := fun _ => { d_inumber := 0, d_name := [] } }

/-- A disk with 16 inodes, all in sector 2. Inode 1 is a directory of `size` bytes
whose only block, sector 10, starts with the entries `.` and `..`; the sector
still holds at index 5 the entry `old` of a file that was removed. Every read
returns `answer`. -/
def sampleDisk (size : Nat) (answer : Int) : unixfilesystem :=
  { s_isize := 1,
    readsector := fun _ => answer,
    sector := fun n =>
      if n = 2 then { emptySector with inodes := fun i => if i = 0 then dirInode size else emptyInode }
      else if n = 10 then
        { emptySector with dirents := fun i =>
            if i = 0 then { d_inumber := 1, d_name := ".".toList }
            else if i = 1 then { d_inumber := 1, d_name := "..".toList }
            else if i = 5 then { d_inumber := 7, d_name := "old".toList }
            else { d_inumber := 0, d_name := [] } }
      else emptySector }

/-- The inode of a large file of 65536 bytes whose block numbers are 20, 21, ... -/
def largeInode : inode :=
  { i_mode := 0o110000, i_size0 := 1, i_size1 := 0, i_addr := fun i => 20 + i }

/-- The number of blocks of a file of `s` bytes in the words of the claim:
`ceil(s / 512)`. -/
def claimedBlocks (s : Int) : Int := (s + 511) / 512

/-- The number of valid bytes of block `k` of a file of `s` bytes in the words of
the claim: 512 for every block but the last, and what is left for the last. -/
def claimedBytes (s k : Int) : Int :=
  if k = claimedBlocks s - 1 then s - 512 * (claimedBlocks s - 1) else 512

end Unixv6

/-!
# The review search (src/assign1/amazon.cc)

A shallow embedding of `convertQuery`, `findKeywordPtr`,
`findReviewsContainingTerm` and `searchKeywordIndex`. The keyword index file is
the list of its keyword records, in file order.
-/

namespace Amazon

/-! ## `convertQuery` (amazon.cc lines 250-313) -/

/-- The test of line 265 on a character that has been made lowercase. -/
def keepChar (c : Char) : Bool := c.isAlphanum || c == '"' || c == ' ' || c == '-'

/-- The first loop of `convertQuery` (lines 262-269): the query in lowercase without
the characters that are neither alphanumeric nor a double quote, a space or a
dash. -/
def cleanQuery (query : List Char) : List Char :=
  query.filterMap (fun c => if keepChar c.toLower then some c.toLower else none)

/-- The variables of the second loop of `convertQuery`. -/
structure QueryScan where
  allSearchTerms : List (List (List Char))
  currentTerms : List (List Char)
  currentTerm : List Char
  quoteFound : Bool
  deriving DecidableEq, Repr

/-- The statement `if (currentTerm != "") { currentTerms.push_back(currentTerm);
currentTerm = ""; }`. -/
def pushTerm (st : QueryScan) : QueryScan :=
  if st.currentTerm ≠ [] then
    { st with currentTerms := st.currentTerms ++ [st.currentTerm], currentTerm := [] }
  else st

/-- The statement `if (currentTerms.size() != 0) { allSearchTerms.push_back(currentTerms);
currentTerms.clear(); }`. -/
def pushTerms (st : QueryScan) : QueryScan :=
  if st.currentTerms.length ≠ 0 then
    { st with allSearchTerms := st.allSearchTerms ++ [st.currentTerms], currentTerms := [] }
  else st

/-- One round of the second loop of `convertQuery` (lines 276-304). -/
def scanStep (st : QueryScan) (c : Char) : QueryScan :=
  if c = '"' then
    let st1 := { st with quoteFound := !st.quoteFound }
    if !st1.quoteFound then pushTerm st1 else st1
  else if c = ' ' then
    if !(pushTerm st).quoteFound then pushTerms (pushTerm st) else pushTerm st
  else if c = '-' then pushTerm st
  else { st with currentTerm := st.currentTerm ++ [c] }

/-- The function `convertQuery` on the characters of the query. -/
def convertChars (query : List Char) : List (List (List Char)) :=
  (pushTerms (pushTerm ((cleanQuery query).foldl scanStep
    { allSearchTerms := [], currentTerms := [], currentTerm := [], quoteFound := false }))).allSearchTerms

/-- The function `convertQuery`. -/
def convertQuery (query : String) : List (List String) :=
  (convertChars query.toList).map (fun term => term.map String.mk)

/-! ## The keyword index (amazon.cc lines 37-163)

The keyword index file is read through its records: each keyword comes with its
block of entries, and an entry is two `unsigned int`s, the review index and a
word that packs the review portion and the word offset. -/

/-- One keyword of the keyword index file and its block of entries. -/
structure KeywordRecord where
  keyword : String
  entries : List (Nat × Nat)
  deriving DecidableEq, Repr

/-- The struct `KeywordInfo`. -/
structure KeywordInfo where
  reviewIndex : Nat
  reviewPortion : Nat
  wordOffset : Nat
  deriving DecidableEq, Repr

/-- The comparison `KeywordInfo::operator<`. -/
def KeywordInfo.lt (a other : KeywordInfo) : Bool :=
  decide (a.reviewIndex < other.reviewIndex ∨
    (a.reviewIndex = other.reviewIndex ∧ a.reviewPortion < other.reviewPortion) ∨
    (a.reviewIndex = other.reviewIndex ∧ a.reviewPortion = other.reviewPortion ∧
      a.wordOffset < other.wordOffset))

/-- The function `parse_keyword_info` on the two `unsigned int`s of an entry. -/
def parse_keyword_info (keywordInfoBlock : Nat × Nat) : KeywordInfo :=
  let keywordInfoByte := keywordInfoBlock.2 % 2 ^ 32
  { reviewIndex := keywordInfoBlock.1 % 2 ^ 32,
    reviewPortion := ((keywordInfoByte &&& 0xFF000000) >>> 24) % 2 ^ 8,
    wordOffset := keywordInfoByte &&& 0x00FFFFFF }

/-- The method `findKeywordPtr`: `std::lower_bound` gives the first keyword that is
not less than the one looked for, which is the answer when it is equal to it. -/
def findKeywordPtr (keywordIndexFile : List KeywordRecord) (keyword : String) :
    Option KeywordRecord :=
  match keywordIndexFile.find? (fun e => !decide (e.keyword < keyword)) with
  | none => none
  | some e => if e.keyword ≠ keyword then none else some e

/-- Insertion into a `std::set` kept as the list of its elements in increasing
order: an element equivalent to one of the set is not inserted. -/
def setInsert {α : Type} (lt : α → α → Bool) (x : α) : List α → List α
  | [] => [x]
  | y :: ys =>
    if lt x y then x :: y :: ys
    else if lt y x then y :: setInsert lt x ys
    else y :: ys

/-- The test `set.find(x) != set.end()`. -/
def setFind {α : Type} (lt : α → α → Bool) (s : List α) (x : α) : Bool :=
  s.any (fun y => !lt x y && !lt y x)

/-- The comparison of a `std::set<unsigned int>`. -/
def natLt (a b : Nat) : Bool := decide (a < b)

/-- The inner loop of `findReviewsContainingTerm` (lines 107-121) over the entries
of one keyword. -/
def scanEntries (isFirst : Bool) (keywordInfoSet : List KeywordInfo)
    (entries : List (Nat × Nat)) : List KeywordInfo :=
  entries.foldl (fun newKeywordInfoSet block =>
    let keywordInfo := parse_keyword_info block
    if isFirst then setInsert KeywordInfo.lt keywordInfo newKeywordInfoSet
    else
      let prevKeywordInfo :=
        { keywordInfo with wordOffset := (keywordInfo.wordOffset + 2 ^ 32 - 1) % 2 ^ 32 }
      if setFind KeywordInfo.lt keywordInfoSet prevKeywordInfo then
        setInsert KeywordInfo.lt keywordInfo newKeywordInfoSet
      else newKeywordInfoSet) []

/-- The outer loop of `findReviewsContainingTerm` (lines 86-127): `none` when a
keyword is not found, else the last `keywordInfoSet`. -/
def termLoop (keywordIndexFile : List KeywordRecord) :
    List String → Bool → List KeywordInfo → Option (List KeywordInfo)
  | [], _, keywordInfoSet => some keywordInfoSet
  | w :: rest, isFirst, keywordInfoSet =>
    match findKeywordPtr keywordIndexFile w with
    | none => none
    | some e => termLoop keywordIndexFile rest false (scanEntries isFirst keywordInfoSet e.entries)

/-- The method `findReviewsContainingTerm`: the set of review indices as the list
of its elements in increasing order. -/
def findReviewsContainingTerm (keywordIndexFile : List KeywordRecord) (term : List String) :
    List Nat :=
  match termLoop keywordIndexFile term true [] with
  | none => []
  | some keywordInfoSet =>
    keywordInfoSet.foldl (fun reviewIndices element =>
      setInsert natLt element.reviewIndex reviewIndices) []

/-- One element of the first range of `std::set_intersection` against the second
range, `rest` being the walk for the elements after it. -/
def intersectStep (a : Nat) (rest : List Nat → List Nat) : List Nat → List Nat
  | [] => []
  | b :: bs =>
    if a < b then rest (b :: bs)
    else if b < a then intersectStep a rest bs
    else a :: rest bs

/-- The walk of `std::set_intersection` over two increasing ranges. -/
def set_intersection : List Nat → List Nat → List Nat
  | [] => fun _ => []
  | a :: as => intersectStep a (set_intersection as)

/-- The method `searchKeywordIndex`: the value returned and the vector
`reviewIndexes` on return. -/
def searchKeywordIndex (keywordIndexFile : List KeywordRecord) (query : String)
    (reviewIndexes : List Nat) : Bool × List Nat :=
  let allSearchTerms := convertQuery query
  let st := allSearchTerms.foldl (fun (st : List Nat × Bool) term =>
    let currentTermReviewIndices := findReviewsContainingTerm keywordIndexFile term
    if st.2 then (currentTermReviewIndices, false)
    else
      ((set_intersection currentTermReviewIndices st.1).foldl
        (fun intersect e => setInsert natLt e intersect) [], false)) ([], true)
  let out := reviewIndexes ++ st.1
  (decide (out.length > 0), out)

/-- The statement "the index lists the word `w` at review `r`, portion `p`, word
offset `o`". -/
def lists (keywordIndexFile : List KeywordRecord) (w : String) (r p o : Nat) : Bool :=
  keywordIndexFile.any (fun e => e.keyword == w &&
    e.entries.any (fun block => parse_keyword_info block == ⟨r, p, o⟩))

/-- A packed entry of the keyword index file. -/
def entry (r p o : Nat) : Nat × Nat := (r, p * 2 ^ 24 + o)

/-- A small keyword index: review 3 reads "it did not work", review 4 reads
"did work not", review 7 reads "tv did not". -/
def sampleIndex : List KeywordRecord :=
  [ ⟨"did", [entry 3 0 1, entry 4 0 0, entry 7 1 1]⟩,
    ⟨"it", [entry 3 0 0]⟩,
    ⟨"not", [entry 3 0 2, entry 4 0 2, entry 7 1 2]⟩,
    ⟨"tv", [entry 7 1 0]⟩,
    ⟨"work", [entry 3 0 3, entry 4 0 1]⟩ ]

/-- The place `n` words before a place of a review. -/
def back (n : Nat) (y : KeywordInfo) : KeywordInfo :=
  { y with wordOffset := y.wordOffset - n }

/-- The index has an entry of the word `w` that reads as the place `z`. -/
def listsAt (file : List KeywordRecord) (w : String) (z : KeywordInfo) : Prop :=
  ∃ e, findKeywordPtr file w = some e ∧ ∃ block ∈ e.entries, parse_keyword_info block = z

/-- An item of a query as the claim describes them: a bare word, a double-quoted
phrase of words, or words joined by hyphens. -/
inductive QueryItem where
  | word (w : List Char)
  | phrase (ws : List (List Char))
  | hyphenated (ws : List (List Char))
  deriving DecidableEq, Repr

/-- A word: letters and digits, at least one. -/
def isWord (w : List Char) : Bool := !w.isEmpty && w.all Char.isAlphanum

/-- The words of an item, in order. -/
def QueryItem.words : QueryItem → List (List Char)
  | .word w => [w]
  | .phrase ws => ws
  | .hyphenated ws => ws

/-- An item has at least one word and all of them are words. -/
def QueryItem.wellFormed (it : QueryItem) : Bool := !it.words.isEmpty && it.words.all isWord

/-- The texts joined with one separator character between neighbours. -/
def joinWith (sep : Char) : List (List Char) → List Char
  | [] => []
  | [w] => w
  | w :: w2 :: rest => w ++ sep :: joinWith sep (w2 :: rest)

/-- The text of an item in a query. -/
def QueryItem.text : QueryItem → List Char
  | .word w => w
  | .phrase ws => '"' :: joinWith ' ' ws ++ ['"']
  | .hyphenated ws => joinWith '-' ws

/-- The term the claim states for an item: its words in lowercase, in order. -/
def QueryItem.term (it : QueryItem) : List (List Char) :=
  it.words.map (fun w => w.map Char.toLower)

/-- The item with its words in lowercase. -/
def QueryItem.lower : QueryItem → QueryItem
  | .word w => .word (w.map Char.toLower)
  | .phrase ws => .phrase (ws.map (fun w => w.map Char.toLower))
  | .hyphenated ws => .hyphenated (ws.map (fun w => w.map Char.toLower))

/-- The query made of the items separated by single spaces. -/
def queryText (items : List QueryItem) : List Char :=
  joinWith ' ' (items.map QueryItem.text)

/-- The query of the doc comment of `convertQuery`, item by item. -/
def sampleItems : List QueryItem :=
  [.word "TV".toList, .phrase ["did".toList, "not".toList, "work".toList],
    .hyphenated ["second".toList, "rate".toList]]

end Amazon

/-!
# The proxy loop check (src/assign6/request-handler.cc)

A shallow embedding of `addHeaders` and `containsProxyLoop`.
-/

namespace Proxy

def kForwardedForKey : String := "x-forwarded-for"

def kIpDelimiter : String := ", "

/-- The class `HTTPRequest` (request.h) is not part of the sources. Of a request,
what `addHeaders` and `containsProxyLoop` ask of it is kept: its headers, as
pairs of name and value, and the IP address of the client. -/
structure HTTPRequest where
  header : List (String × String)
  clientIPAddress : String
  deriving DecidableEq, Repr

/-- The method `HTTPRequest::containsName`. -/
def HTTPRequest.containsName (request : HTTPRequest) (name : String) : Bool :=
  request.header.any (fun h => h.1 == name)

/-- The call `request.getHeader().getValueAsString(name)`. -/
def HTTPRequest.getValueAsString (request : HTTPRequest) (name : String) : String :=
  ((request.header.find? (fun h => h.1 == name)).map (fun h => h.2)).getD ""

/-- The method `HTTPRequest::addHeader`: the value replaces an older one of the
same name. -/
def HTTPRequest.addHeader (request : HTTPRequest) (name value : String) : HTTPRequest :=
  { request with header := (name, value) :: request.header.filter (fun h => !(h.1 == name)) }

/-- The function `addHeaders` (lines 62-71): the address of the client is appended
to the list of the header `x-forwarded-for`, after the delimiter `", "`. -/
def addHeaders (request : HTTPRequest) : HTTPRequest :=
  let request1 := request.addHeader "x-forwarded-proto" "http"
  if request1.containsName kForwardedForKey then
    request1.addHeader kForwardedForKey
      (request1.getValueAsString kForwardedForKey ++ ", " ++ request1.clientIPAddress)
  else request1.addHeader kForwardedForKey request1.clientIPAddress

/-- The position of the first occurrence of `pat` in `s`, counted from `i` for the
start of `s`; `none` stands for `std::string::npos`. -/
def findFrom (pat : List Char) : List Char → Nat → Option Nat
  | [], i => if pat.isEmpty then some i else none
  | c :: s, i => if pat.isPrefixOf (c :: s) then some i else findFrom pat s (i + 1)

/-- The call `ipstr.find(pat)` of `std::string`. -/
def find (ipstr pat : List Char) : Option Nat := findFrom pat ipstr 0

/-- The loop of `containsProxyLoop` (lines 77-81) on the characters of `ipstr`.
Each round erases at least the delimiter, so the loop makes no more rounds than
`ipstr` has characters; `rounds` bounds their number. -/
def containsProxyLoopRounds (clientIPAddress : String) : Nat → List Char → Bool
  | 0, _ => false
  | rounds + 1, ipstr =>
    match find ipstr kIpDelimiter.toList with
    | none => false
    | some pos =>
      if clientIPAddress.toList = ipstr.take pos then true
      else containsProxyLoopRounds clientIPAddress rounds
        (ipstr.drop (pos + kIpDelimiter.length))

/-- The function `HTTPRequestHandler::containsProxyLoop` (lines 73-83). -/
def containsProxyLoop (request : HTTPRequest) : Bool :=
  if !request.containsName kForwardedForKey then false
  else
    containsProxyLoopRounds request.clientIPAddress
      (request.getValueAsString kForwardedForKey).length
      (request.getValueAsString kForwardedForKey).toList

/-- A request with the header `x-forwarded-for: value` from the client `client`. -/
def forwarded (value client : String) : HTTPRequest :=
  { header := [(kForwardedForKey, value)], clientIPAddress := client }

end Proxy

/-!
# Lemmas and theorems
-/

namespace Stsh

/-! ## Auxiliary lemmas -/

theorem bind_run {α β : Type} (m : Act α) (f : α → Act β) (w : World) :
    (m >>= f) w = Act.bind m f w := rfl

theorem pure_run {α : Type} (a : α) (w : World) : (pure a : Act α) w = (.ok a, w) := rfl

theorem numArgumentsLoop_world (ts : List (Option String)) (k : Nat) (w : World) :
    (numArgumentsLoop ts k w).2 = w := by
  induction ts generalizing k with
  | nil => rfl
  | cons t ts ih =>
    cases t with
    | none => rfl
    | some s => simpa [numArgumentsLoop] using ih (k + 1)

theorem numArguments_eq (c : command) (w : World) :
    numArguments c w = ((numArguments c w).1, w) := by
  have h := numArgumentsLoop_world c.tokens 0 w
  unfold numArguments
  exact Prod.ext rfl h

theorem signalsSent_append (t u : List Event) :
    signalsSent (t ++ u) = signalsSent t ++ signalsSent u := by
  simp [signalsSent]

theorem indexOf_fg : kSupportedBuiltins.indexOf "fg" = 2 := by decide

theorem indexOf_bg : kSupportedBuiltins.indexOf "bg" = 3 := by decide

theorem indexOf_slay : kSupportedBuiltins.indexOf "slay" = 4 := by decide

theorem indexOf_halt : kSupportedBuiltins.indexOf "halt" = 5 := by decide

theorem indexOf_cont : kSupportedBuiltins.indexOf "cont" = 6 := by decide

theorem containsJob_getJob (l : STSHJobList) (k : Nat) (h : l.containsJob k = true) :
    ∃ j, l.getJob k = some j ∧ j.num = k := by
  unfold STSHJobList.containsJob at h
  unfold STSHJobList.getJob
  rw [List.any_eq_true] at h
  obtain ⟨x, hx, hxk⟩ := h
  cases hf : l.jobs.find? (fun j => j.num == k) with
  | none =>
    rw [List.find?_eq_none] at hf
    exact absurd hxk (hf x hx)
  | some j =>
    have := List.find?_some hf
    exact ⟨j, rfl, by simpa using this⟩

theorem getJob_containsJob (l : STSHJobList) (k : Nat) (j : STSHJob) (h : l.getJob k = some j) :
    l.containsJob k = true := by
  unfold STSHJobList.getJob at h
  unfold STSHJobList.containsJob
  rw [List.any_eq_true]
  exact ⟨j, List.mem_of_find?_eq_some h, by simpa using List.find?_some h⟩

theorem killpg_errchk_world (g s : Int) (w : World) :
    (killpg_errchk g s w).2 =
      { w with rets := w.rets.tail,
               trace := w.trace ++ [{ call := .killpg g s, ret := w.rets.headD (-1) }] } := by
  cases hr : w.rets with
  | nil => simp [killpg_errchk, syscall, nextRet, emit, bind_run, Act.bind, hr, throwE, pure_run]
  | cons r rs =>
    by_cases h : r < 0 <;>
      simp [killpg_errchk, syscall, nextRet, emit, bind_run, Act.bind, hr, throwE, pure_run, h]

theorem killpg_errchk_result (g s : Int) (w : World) :
    (killpg_errchk g s w).1 =
      if w.rets.headD (-1) < 0 then .throw (.killpgFailed g s) else .ok (w.rets.headD (-1)) := by
  cases hr : w.rets with
  | nil => simp [killpg_errchk, syscall, nextRet, emit, bind_run, Act.bind, hr, throwE, pure_run]
  | cons r rs =>
    by_cases h : r < 0 <;>
      simp [killpg_errchk, syscall, nextRet, emit, bind_run, Act.bind, hr, throwE, pure_run, h]

theorem resumeSetup_world (parseNumber : String → Option Nat) (c : command) (name : String)
    (inForeground : Bool) (w : World) (jobID : Nat) (job : STSHJob)
    (hn : (numArguments c w).1 = .ok 1)
    (hp : parseNumber (tokenAt c 0) = some jobID)
    (hj : w.joblist.getJob jobID = some job) :
    (resumeSetup parseNumber c name inForeground w).2 =
      if jobIsRunning job then afterSetState w jobID inForeground
      else { afterSetState w jobID inForeground with
               rets := w.rets.tail,
               trace := (afterSetState w jobID inForeground).trace ++
                 [{ call := .killpg job.getGroupID SIGCONT, ret := w.rets.headD (-1) }] } := by
  have h1 : numArguments c w = (.ok 1, w) := by rw [numArguments_eq, hn]
  have hc := getJob_containsJob _ _ _ hj
  have hw := killpg_errchk_world job.getGroupID SIGCONT (afterSetState w jobID inForeground)
  cases hk : killpg_errchk job.getGroupID SIGCONT (afterSetState w jobID inForeground) with
  | mk r w2 =>
    rw [hk] at hw
    simp only at hw
    cases hrun : jobIsRunning job
    · cases r <;>
      simp [resumeSetup, bind_run, Act.bind, h1, parseNumberE, hp, pure_run, blockSignal,
        getJoblist, hc, hj, setJoblist, hrun, afterSetState] <;>
      simp [afterSetState] at hk hw <;> simp [hk, hw]
    · simp [resumeSetup, bind_run, Act.bind, h1, parseNumberE, hp, pure_run, blockSignal,
        getJoblist, hc, hj, setJoblist, hrun, afterSetState]

theorem resumeSetup_joblist (parseNumber : String → Option Nat) (c : command) (name : String)
    (inForeground : Bool) (w : World) (jobID : Nat) (job : STSHJob)
    (hn : (numArguments c w).1 = .ok 1)
    (hp : parseNumber (tokenAt c 0) = some jobID)
    (hj : w.joblist.getJob jobID = some job) :
    (resumeSetup parseNumber c name inForeground w).2.joblist =
      w.joblist.modifyJob jobID
        (fun j => j.setState (if inForeground then .kForeground else .kBackground)) := by
  rw [resumeSetup_world parseNumber c name inForeground w jobID job hn hp hj]
  cases jobIsRunning job <;> simp [afterSetState]

theorem resumeSetup_signals (parseNumber : String → Option Nat) (c : command) (name : String)
    (inForeground : Bool) (w : World) (jobID : Nat) (job : STSHJob)
    (hn : (numArguments c w).1 = .ok 1)
    (hp : parseNumber (tokenAt c 0) = some jobID)
    (hj : w.joblist.getJob jobID = some job) :
    signalsSent (resumeSetup parseNumber c name inForeground w).2.trace =
      signalsSent w.trace ++
        (if jobIsRunning job then [] else [.killpg job.getGroupID SIGCONT]) := by
  rw [resumeSetup_world parseNumber c name inForeground w jobID job hn hp hj]
  cases jobIsRunning job <;> simp [afterSetState, signalsSent, isSignalCall]

theorem resume_background (parseNumber : String → Option Nat) (c : command) (name : String)
    (w : World) :
    (resume parseNumber c name false w).2.joblist =
        (resumeSetup parseNumber c name false w).2.joblist ∧
    signalsSent (resume parseNumber c name false w).2.trace =
        signalsSent (resumeSetup parseNumber c name false w).2.trace := by
  cases h : resumeSetup parseNumber c name false w with
  | mk r w1 =>
    cases r <;>
      simp [resume, bind_run, Act.bind, h, pure_run, unblockSignal, signalsSent, isSignalCall]

theorem resume_foreground (parseNumber : String → Option Nat) (c : command) (name : String)
    (w : World) (h : (resumeSetup parseNumber c name true w).1 = .ok ()) :
    resume parseNumber c name true w =
      (do waitForForeground; unblockSignal SIGCHLD : Act Unit)
        (resumeSetup parseNumber c name true w).2 := by
  cases hs : resumeSetup parseNumber c name true w with
  | mk r w1 =>
    rw [hs] at h
    simp only at h
    subst h
    simp [resume, bind_run, Act.bind, hs]

theorem getJob_modifyJob_same (l : STSHJobList) (k : Nat) (f : STSHJob → STSHJob)
    (hf : ∀ j, (f j).num = j.num) :
    (l.modifyJob k f).getJob k = (l.getJob k).map f := by
  cases l with
  | mk jobs =>
    simp only [STSHJobList.modifyJob, STSHJobList.getJob]
    induction jobs with
    | nil => rfl
    | cons j js ih =>
      by_cases h : j.num = k
      · have hb : (j.num == k) = true := by simpa using h
        have hb2 : ((f j).num == k) = true := by simpa [hf] using h
        simp only [List.map_cons, if_pos h, List.find?_cons, hb, hb2, Option.map_some']
      · have hb : (j.num == k) = false := by simpa using h
        simp only [List.map_cons, if_neg h, List.find?_cons, hb]
        exact ih

theorem getJob_modifyJob_other (l : STSHJobList) (k k' : Nat) (f : STSHJob → STSHJob)
    (hf : ∀ j, (f j).num = j.num) (hk : k' ≠ k) :
    (l.modifyJob k f).getJob k' = l.getJob k' := by
  cases l with
  | mk jobs =>
    simp only [STSHJobList.modifyJob, STSHJobList.getJob]
    induction jobs with
    | nil => rfl
    | cons j js ih =>
      by_cases h : j.num = k
      · have h2 : ¬ j.num = k' := fun h3 => hk (h3.symm.trans h)
        have hb : (j.num == k') = false := by simpa using h2
        have hb2 : ((f j).num == k') = false := by simpa [hf] using h2
        simp only [List.map_cons, if_pos h, List.find?_cons, hb, hb2]
        exact ih
      · cases hb : (j.num == k')
        · simp only [List.map_cons, if_neg h, List.find?_cons, hb]
          exact ih
        · simp only [List.map_cons, if_neg h, List.find?_cons, hb]

theorem nums_modifyJob (l : STSHJobList) (k : Nat) (f : STSHJob → STSHJob)
    (hf : ∀ j, (f j).num = j.num) :
    (l.modifyJob k f).jobs.map (fun j => j.num) = l.jobs.map (fun j => j.num) := by
  simp only [STSHJobList.modifyJob, List.map_map]
  apply List.map_congr_left
  intro j _
  by_cases h : j.num = k <;> simp [h, hf]

theorem kill_errchk_trace (pid sig : Int) (w : World) :
    signalsSent (kill_errchk pid sig w).2.trace = signalsSent w.trace ++ [.kill pid sig] := by
  cases hr : w.rets with
  | nil =>
    simp [kill_errchk, syscall, nextRet, emit, bind_run, Act.bind, hr, throwE, pure_run,
      signalsSent, isSignalCall]
  | cons r rs =>
    by_cases h : r < 0 <;>
      simp [kill_errchk, syscall, nextRet, emit, bind_run, Act.bind, hr, throwE, pure_run, h,
        signalsSent, isSignalCall]

theorem sendSignalResolve_world (parseNumber : String → Option Nat) (c : command) (name : String)
    (n : Nat) (w : World) :
    (sendSignalResolve parseNumber c name n w).2 = w := by
  unfold sendSignalResolve
  by_cases h1 : n = 1
  · simp only [h1, if_true, bind_run, Act.bind, parseNumberE]
    cases parseNumber (tokenAt c 0) with
    | none => rfl
    | some v =>
      simp only [pure_run, getJoblist]
      cases w.joblist.containsProcess (toPid v) with
      | false => rfl
      | true =>
        simp only [Bool.not_true, Bool.false_eq_true, if_false]
        cases (w.joblist.getJobWithProcess (toPid v)).bind (fun j => j.getProcess (toPid v)) <;> rfl
  · by_cases h2 : n = 2
    · subst h2
      simp only [(by decide : ¬ (2 : Nat) = 1), if_true, if_false, bind_run, Act.bind,
        parseNumberE]
      cases parseNumber (tokenAt c 0) with
      | none => rfl
      | some v =>
        simp only [pure_run, getJoblist]
        cases w.joblist.containsJob v with
        | false => rfl
        | true =>
          simp only [Bool.not_true, Bool.false_eq_true, if_false]
          cases w.joblist.getJob v with
          | none => rfl
          | some job =>
            simp only
            cases job.processes.get? v <;> rfl
    · simp [h1, h2, throwE]

theorem sendSignal_signals (parseNumber : String → Option Nat) (c : command) (name : String)
    (sig : Int) (w : World) (n : Nat) (proc : STSHProcess) (w1 : World)
    (hn : (numArguments c w).1 = .ok n)
    (hres : sendSignalResolve parseNumber c name n (blockSignal SIGCHLD w).2 = (.ok proc, w1)) :
    signalsSent (sendSignal parseNumber c name sig w).2.trace =
      signalsSent w.trace ++
        (if (sig = SIGSTOP ∧ proc.state = .kStopped) ∨ (sig = SIGCONT ∧ proc.state = .kRunning)
         then [] else [.kill proc.pid sig]) := by
  have h1 : numArguments c w = (.ok n, w) := by rw [numArguments_eq, hn]
  have hw1 : w1 = (blockSignal SIGCHLD w).2 := by
    have := sendSignalResolve_world parseNumber c name n (blockSignal SIGCHLD w).2
    rw [hres] at this
    exact this
  have hres2 : sendSignalResolve parseNumber c name n
      { w with blocked := true, trace := w.trace ++ [{ call := .sigprocmaskBlock SIGCHLD, ret := 0 }] }
      = (.ok proc, w1) := by
    simpa [blockSignal] using hres
  have hb : signalsSent w1.trace = signalsSent w.trace := by
    rw [hw1]
    simp [blockSignal, signalsSent, isSignalCall]
  have hk := kill_errchk_trace proc.pid sig w1
  by_cases ha : sig = SIGSTOP ∧ proc.state = .kStopped
  · simp [sendSignal, bind_run, Act.bind, h1, blockSignal, hres2, ha, pure_run, hb]
  · by_cases hc : sig = SIGCONT ∧ proc.state = .kRunning
    · simp [sendSignal, bind_run, Act.bind, h1, blockSignal, hres2, ha, hc, pure_run, hb]
    · cases hkk : kill_errchk proc.pid sig w1 with
      | mk r w2 =>
        rw [hkk] at hk
        simp only at hk
        cases r <;>
          simp [sendSignal, bind_run, Act.bind, h1, blockSignal, hres2, ha, hc, pure_run, hb,
            hkk, unblockSignal, signalsSent_append, hk]
        all_goals simp [signalsSent, isSignalCall]

/-! ## The builtins `slay`, `halt`, `cont` addressed by job id and index -/

/-- C1 (code defect): `slay 1 0` on job 1 holding the processes 100 and 101 should
target the first process, pid 100. `sendSignal` reads the index from `tokens[0]`,
the job id, and not from `tokens[1]`: the builtin returns normally and the one
signal it sends goes to pid 101, the process at position 1. -/
theorem slay_job_index_targets_wrong_process :
    (worldWithJob [sampleProcess 100 .kRunning, sampleProcess 101 .kRunning] []).joblist.getJob 1
      = some { num := 1, state := .kBackground,
               processes := [sampleProcess 100 .kRunning, sampleProcess 101 .kRunning] } ∧
    (handleBuiltin decimalNumber (mkLine "slay" ["1", "0"])
      (worldWithJob [sampleProcess 100 .kRunning, sampleProcess 101 .kRunning] [])).1 = .ok true ∧
    signalsSent (handleBuiltin decimalNumber (mkLine "slay" ["1", "0"])
      (worldWithJob [sampleProcess 100 .kRunning, sampleProcess 101 .kRunning] [])).2.trace
      = [.kill 101 SIGKILL] := by
  decide

/-- C2 (code defect): the index compared with the number of processes is the job
id. `halt 1 7` on job 1 holding two processes raises nothing and stops pid 101,
and `halt 1 0` on job 1 holding one process raises the lookup error for index 1
and sends nothing. -/
theorem halt_job_index_range_check_uses_job_id :
    ((handleBuiltin decimalNumber (mkLine "halt" ["1", "7"])
      (worldWithJob [sampleProcess 100 .kRunning, sampleProcess 101 .kRunning] [])).1 = .ok true ∧
    signalsSent (handleBuiltin decimalNumber (mkLine "halt" ["1", "7"])
      (worldWithJob [sampleProcess 100 .kRunning, sampleProcess 101 .kRunning] [])).2.trace
      = [.kill 101 SIGSTOP]) ∧
    ((handleBuiltin decimalNumber (mkLine "halt" ["1", "0"])
      (worldWithJob [sampleProcess 100 .kRunning] [])).1 = .throw (.noProcessAtIndex 1 1) ∧
    signalsSent (handleBuiltin decimalNumber (mkLine "halt" ["1", "0"])
      (worldWithJob [sampleProcess 100 .kRunning] [])).2.trace = []) := by
  decide

/-! ## The builtins `fg` and `bg` -/

/-- C3 (as stated, refuted): job 1 holds a Running and a Stopped process; both
`bg 1` and `fg 1` return normally without having sent any signal, although a
process of the job is Stopped. -/
theorem resume_mixed_job_gets_no_continue :
    (∃ q ∈ [sampleProcess 100 .kRunning, sampleProcess 101 .kStopped], q.state = .kStopped) ∧
    (handleBuiltin decimalNumber (mkLine "bg" ["1"])
      (worldWithJob [sampleProcess 100 .kRunning, sampleProcess 101 .kStopped] [])).1 = .ok true ∧
    signalsSent (handleBuiltin decimalNumber (mkLine "bg" ["1"])
      (worldWithJob [sampleProcess 100 .kRunning, sampleProcess 101 .kStopped] [])).2.trace = [] ∧
    (handleBuiltin decimalNumber (mkLine "fg" ["1"])
      (worldWithJob [sampleProcess 100 .kRunning, sampleProcess 101 .kStopped]
        [{ sig := SIGCHLD, children := [(100, .exited 0), (101, .signaled 9)] }])).1 = .ok true ∧
    signalsSent (handleBuiltin decimalNumber (mkLine "fg" ["1"])
      (worldWithJob [sampleProcess 100 .kRunning, sampleProcess 101 .kStopped]
        [{ sig := SIGCHLD, children := [(100, .exited 0), (101, .signaled 9)] }])).2.trace = [] := by
  refine ⟨by decide, by decide, by decide, ?_, ?_⟩
  · decide!
  · decide!

/-- C3 (amended): for `fg <jobid>` or `bg <jobid>` on a job present in the
registry, the signals `resume` sends before it waits are: SIGCONT to the process
group of the job when no process of the job is Running, and nothing when some
process is Running. For `bg` these are all the signals of the call. -/
theorem resume_continues_stopped_job (parseNumber : String → Option Nat) (c : command)
    (name : String) (inForeground : Bool) (w : World) (jobID : Nat) (job : STSHJob)
    (hn : (numArguments c w).1 = .ok 1)
    (hp : parseNumber (tokenAt c 0) = some jobID)
    (hj : w.joblist.getJob jobID = some job) :
    signalsSent (resumeSetup parseNumber c name inForeground w).2.trace =
      signalsSent w.trace ++
        (if job.processes.any (fun q => q.state == .kRunning) then []
         else [.killpg job.getGroupID SIGCONT]) ∧
    (inForeground = false →
      signalsSent (resume parseNumber c name inForeground w).2.trace =
        signalsSent w.trace ++
          (if job.processes.any (fun q => q.state == .kRunning) then []
           else [.killpg job.getGroupID SIGCONT])) := by
  have h := resumeSetup_signals parseNumber c name inForeground w jobID job hn hp hj
  unfold jobIsRunning at h
  refine ⟨h, ?_⟩
  intro hf
  subst hf
  rw [(resume_background parseNumber c name w).2]
  exact h

theorem resume_continues_stopped_job_witness :
    ((numArguments (mkCommand "bg" ["1"])
        (worldWithJob [sampleProcess 100 .kStopped, sampleProcess 101 .kStopped] [])).1 = .ok 1 ∧
      decimalNumber (tokenAt (mkCommand "bg" ["1"]) 0) = some 1 ∧
      (worldWithJob [sampleProcess 100 .kStopped, sampleProcess 101 .kStopped] []).joblist.getJob 1
        = some { num := 1, state := .kBackground,
                 processes := [sampleProcess 100 .kStopped, sampleProcess 101 .kStopped] }) ∧
    signalsSent (resume decimalNumber (mkCommand "bg" ["1"]) "bg" false
      (worldWithJob [sampleProcess 100 .kStopped, sampleProcess 101 .kStopped] [])).2.trace
      = [.killpg 100 SIGCONT] :=
  ⟨⟨by decide, by decide, by decide⟩,
   ((resume_continues_stopped_job decimalNumber (mkCommand "bg" ["1"]) "bg" false
      (worldWithJob [sampleProcess 100 .kStopped, sampleProcess 101 .kStopped] []) 1
      { num := 1, state := .kBackground,
        processes := [sampleProcess 100 .kStopped, sampleProcess 101 .kStopped] }
      (by decide) (by decide) (by decide)).2 rfl).trans (by decide)⟩

/-- C4 (code defect): `fg 1` on the background job 1, whose only process then
exits: `resume` blocks SIGCHLD, sleeps in `sigsuspend`, the handler reaps the
child, and `resume` unblocks. It never calls `tcsetpgrp`, so the terminal is not
handed to the job before the wait. `createJob` does it for a foreground
pipeline: `tcsetpgrp` to the group of the job before the wait and back to the
former owner after it. -/
theorem fg_never_transfers_terminal :
    ((handleBuiltin decimalNumber (mkLine "fg" ["1"])
      (worldWithJob [sampleProcess 100 .kRunning]
        [{ sig := SIGCHLD, children := [(100, .exited 0)] }])).1 = .ok true ∧
    (handleBuiltin decimalNumber (mkLine "fg" ["1"])
      (worldWithJob [sampleProcess 100 .kRunning]
        [{ sig := SIGCHLD, children := [(100, .exited 0)] }])).2.trace.map (fun e => e.call)
      = [.sigprocmaskBlock SIGCHLD, .sigsuspend, .waitpid, .waitpid,
         .sigprocmaskUnblock SIGCHLD]) ∧
    (createJob (mkLine "sleep" ["1"])
      { initialWorld with rets := [50, 100, 0, 0, 0],
                          deliveries := [{ sig := SIGCHLD, children := [(100, .exited 0)] }] }
      ).2.trace.map (fun e => e.call)
      = [.sigprocmaskBlock SIGCHLD, .tcgetpgrp 0, .fork, .setpgid 100 100, .tcsetpgrp 0 100,
         .sigsuspend, .waitpid, .waitpid, .tcsetpgrp 0 50, .sigprocmaskUnblock SIGCHLD] := by
  refine ⟨⟨?_, ?_⟩, ?_⟩
  · decide!
  · decide!
  · decide!

/-! ## Failure of `createJob` and the foreground invariant -/

/-- C5 (code defect): the foreground pipeline `cat < missing.txt`, whose input
file cannot be opened. `createJob` has registered the job before it opens the
file, and nothing removes it: the exception reaches `main`, which prints it
and goes on, and job 1 stays in the registry, Foreground, without processes. -/
theorem createJob_failure_leaves_foreground_job :
    (createJob catMissing { initialWorld with rets := [-1] }).1
      = .throw (.openFailed "missing.txt") ∧
    (createJob catMissing { initialWorld with rets := [-1] }).2.joblist.jobs
      = [{ num := 1, state := .kForeground, processes := [] }] ∧
    (mainStep decimalNumber catMissing { initialWorld with rets := [-1] }).1 = .ok () ∧
    (mainStep decimalNumber catMissing { initialWorld with rets := [-1] }).2.joblist.jobs
      = [{ num := 1, state := .kForeground, processes := [] }] := by
  refine ⟨?_, ?_, ?_, ?_⟩ <;> decide!

/-- C6 (code defect): from the empty registry, two lines `cat < missing.txt`, each
failing to open its input, lead to a registry with two Foreground jobs. -/
theorem two_failed_pipelines_two_foreground_jobs :
    (runOps decimalNumber [.line catMissing [-1] [], .line catMissing [-1] []] initialWorld).1
      = .ok () ∧
    foregroundCount
      (runOps decimalNumber [.line catMissing [-1] [], .line catMissing [-1] []]
        initialWorld).2.joblist = 2 := by
  refine ⟨?_, ?_⟩ <;> decide!

/-! ## Which signal `sendSignal` sends -/

/-- C7: when `sendSignal` has resolved its target process, `halt` sends nothing to
a Stopped process and `cont` nothing to a Running one; in every other case, and
for `slay` whatever the state, the call sends exactly one signal (SIGSTOP,
SIGCONT, SIGKILL), to the pid of that process. -/
theorem sendSignal_idempotence (parseNumber : String → Option Nat) (p : pipeline) (w : World)
    (n : Nat) (proc : STSHProcess) (w1 : World)
    (hn : (numArguments p.leading w).1 = .ok n)
    (hres : sendSignalResolve parseNumber p.leading p.leading.command n
      (blockSignal SIGCHLD w).2 = (.ok proc, w1)) :
    (p.leading.command = "halt" →
      signalsSent (handleBuiltin parseNumber p w).2.trace =
        signalsSent w.trace ++
          (if proc.state = .kStopped then [] else [.kill proc.pid SIGSTOP])) ∧
    (p.leading.command = "cont" →
      signalsSent (handleBuiltin parseNumber p w).2.trace =
        signalsSent w.trace ++
          (if proc.state = .kRunning then [] else [.kill proc.pid SIGCONT])) ∧
    (p.leading.command = "slay" →
      signalsSent (handleBuiltin parseNumber p w).2.trace =
        signalsSent w.trace ++ [.kill proc.pid SIGKILL]) := by
  have key : ∀ (name : String) (sig : Int), p.leading.command = name →
      signalsSent (sendSignal parseNumber p.leading name sig w).2.trace =
      signalsSent w.trace ++
        (if (sig = SIGSTOP ∧ proc.state = .kStopped) ∨ (sig = SIGCONT ∧ proc.state = .kRunning)
         then [] else [.kill proc.pid sig]) := by
    intro name sig hname
    subst hname
    exact sendSignal_signals parseNumber p.leading _ sig w n proc w1 hn hres
  have hb : ∀ (name : String) (sig : Int),
      ((do sendSignal parseNumber p.leading name sig; pure true : Act Bool) w).2 =
        (sendSignal parseNumber p.leading name sig w).2 := by
    intro name sig
    cases h : sendSignal parseNumber p.leading name sig w with
    | mk r w2 => cases r <;> simp [bind_run, Act.bind, h, pure_run]
  refine ⟨?_, ?_, ?_⟩
  · intro h
    have := key "halt" SIGSTOP h
    unfold handleBuiltin
    simp only [h, indexOf_halt]
    rw [hb, this]
    simp [SIGSTOP, SIGCONT]
  · intro h
    have := key "cont" SIGCONT h
    unfold handleBuiltin
    simp only [h, indexOf_cont]
    rw [hb, this]
    simp [SIGSTOP, SIGCONT]
  · intro h
    have := key "slay" SIGKILL h
    unfold handleBuiltin
    simp only [h, indexOf_slay]
    rw [hb, this]
    simp [SIGSTOP, SIGCONT, SIGKILL]

theorem sendSignal_idempotence_witness :
    ((numArguments (mkLine "halt" ["100"]).leading
        (worldWithJob [sampleProcess 100 .kStopped] [])).1 = .ok 1 ∧
      sendSignalResolve decimalNumber (mkLine "halt" ["100"]).leading
        (mkLine "halt" ["100"]).leading.command 1
        (blockSignal SIGCHLD (worldWithJob [sampleProcess 100 .kStopped] [])).2
        = (.ok (sampleProcess 100 .kStopped),
           (blockSignal SIGCHLD (worldWithJob [sampleProcess 100 .kStopped] [])).2)) ∧
    signalsSent (handleBuiltin decimalNumber (mkLine "halt" ["100"])
      (worldWithJob [sampleProcess 100 .kStopped] [])).2.trace = [] :=
  ⟨⟨by decide, by decide!⟩,
   ((sendSignal_idempotence decimalNumber (mkLine "halt" ["100"])
      (worldWithJob [sampleProcess 100 .kStopped] []) 1 (sampleProcess 100 .kStopped)
      (blockSignal SIGCHLD (worldWithJob [sampleProcess 100 .kStopped] [])).2
      (by decide) (by decide!)).1 rfl).trans (by decide)⟩

/-! ## Errors of `fg` and `bg` -/

/-- C8: when the number of arguments of `fg` or `bg` is not one, `resume` throws
the usage error in the world it was called in: registry, trace of system calls
and SIGCHLD mask are untouched. `main` then prints the error and its loop goes
on. -/
theorem resume_usage_error (parseNumber : String → Option Nat) (p : pipeline) (w : World) (n : Nat)
    (hn : (numArguments p.leading w).1 = .ok n) (h1 : n ≠ 1) :
    (∀ (name : String) (inForeground : Bool),
        resume parseNumber p.leading name inForeground w = (.throw (.usage name), w)
        ∧ (STSHException.usage name).isUsageError = true) ∧
    ((p.leading.command = "fg" ∨ p.leading.command = "bg") → w.inChild = false →
        mainStep parseNumber p w =
          (.ok (), { w with trace := w.trace ++
            [{ call := .printError (.usage p.leading.command), ret := 0 }] })) := by
  have hn1 : numArguments p.leading w = (.ok n, w) := by rw [numArguments_eq, hn]
  have hres : ∀ (name : String) (inForeground : Bool),
      resume parseNumber p.leading name inForeground w = (.throw (.usage name), w) := by
    intro name fg
    simp [resume, resumeSetup, bind_run, Act.bind, hn1, h1, throwE]
  refine ⟨fun name fg => ⟨hres name fg, rfl⟩, ?_⟩
  intro hb hc
  rcases hb with hb | hb
  · simp [mainStep, tryCatchE, handleBuiltin, hb, indexOf_fg, bind_run, Act.bind, hres, emit, hc, pure_run]
  · simp [mainStep, tryCatchE, handleBuiltin, hb, indexOf_bg, bind_run, Act.bind, hres, emit, hc, pure_run]

theorem resume_usage_error_witness :
    ((numArguments (mkLine "fg" []).leading (worldWithJob [sampleProcess 100 .kRunning] [])).1
        = .ok 0 ∧ 0 ≠ 1) ∧
    resume decimalNumber (mkLine "fg" []).leading "fg" true
        (worldWithJob [sampleProcess 100 .kRunning] [])
      = (.throw (.usage "fg"), worldWithJob [sampleProcess 100 .kRunning] []) :=
  ⟨⟨by decide, by decide⟩,
   ((resume_usage_error decimalNumber (mkLine "fg" [])
      (worldWithJob [sampleProcess 100 .kRunning] []) 0 (by decide) (by decide)).1 "fg" true).1⟩

/-- C9: `fg <jobid>` or `bg <jobid>` for an id that is not in the registry throws
the lookup error "No such job", leaves the job list as it was and sends no
signal. -/
theorem resume_unknown_job (parseNumber : String → Option Nat) (c : command) (name : String)
    (inForeground : Bool) (w : World) (jobID : Nat)
    (hn : (numArguments c w).1 = .ok 1)
    (hp : parseNumber (tokenAt c 0) = some jobID)
    (hj : w.joblist.containsJob jobID = false) :
    (resume parseNumber c name inForeground w).1 = .throw (.noSuchJob name jobID) ∧
    (STSHException.noSuchJob name jobID).isLookupError = true ∧
    (resume parseNumber c name inForeground w).2.joblist = w.joblist ∧
    signalsSent (resume parseNumber c name inForeground w).2.trace = signalsSent w.trace := by
  have h1 : numArguments c w = (.ok 1, w) := by rw [numArguments_eq, hn]
  have h : resume parseNumber c name inForeground w =
      (.throw (.noSuchJob name jobID),
        { w with blocked := true, trace := w.trace ++ [{ call := .sigprocmaskBlock SIGCHLD, ret := 0 }] }) := by
    simp [resume, resumeSetup, bind_run, Act.bind, h1, parseNumberE, hp, pure_run, blockSignal, getJoblist, hj, throwE]
  rw [h]
  refine ⟨rfl, rfl, rfl, ?_⟩
  simp [signalsSent_append, signalsSent, isSignalCall]

theorem resume_unknown_job_witness :
    ((numArguments (mkCommand "bg" ["2"]) (worldWithJob [sampleProcess 100 .kRunning] [])).1
        = .ok 1 ∧
      decimalNumber (tokenAt (mkCommand "bg" ["2"]) 0) = some 2 ∧
      (worldWithJob [sampleProcess 100 .kRunning] []).joblist.containsJob 2 = false) ∧
    (resume decimalNumber (mkCommand "bg" ["2"]) "bg" false
      (worldWithJob [sampleProcess 100 .kRunning] [])).1 = .throw (.noSuchJob "bg" 2) :=
  ⟨⟨by decide, by decide, by decide⟩,
   (resume_unknown_job decimalNumber (mkCommand "bg" ["2"]) "bg" false
      (worldWithJob [sampleProcess 100 .kRunning] []) 2 (by decide) (by decide) (by decide)).1⟩

/-! ## Placement written by `fg` and `bg` -/

/-- C10: for `fg <jobid>` / `bg <jobid>` on a job of the registry, when `resume` has
written the placement (lines 185-203, before any wait) the job has placement
Foreground for `fg` and Background for `bg`, every job with another id is
as it was, and no job was added or removed. For `bg` this is the registry
`resume` leaves; for `fg` what follows is the wait for the foreground slot
and the unblocking of SIGCHLD. -/
theorem resume_sets_placement (parseNumber : String → Option Nat) (c : command) (name : String)
    (inForeground : Bool) (w : World) (jobID : Nat)
    (hn : (numArguments c w).1 = .ok 1)
    (hp : parseNumber (tokenAt c 0) = some jobID)
    (hj : w.joblist.containsJob jobID = true) :
    ((resumeSetup parseNumber c name inForeground w).2.joblist.getJob jobID).map (fun j => j.state)
        = some (if inForeground then .kForeground else .kBackground) ∧
    (∀ k, k ≠ jobID →
      (resumeSetup parseNumber c name inForeground w).2.joblist.getJob k = w.joblist.getJob k) ∧
    (resumeSetup parseNumber c name inForeground w).2.joblist.jobs.map (fun j => j.num)
        = w.joblist.jobs.map (fun j => j.num) ∧
    (inForeground = false →
      (resume parseNumber c name inForeground w).2.joblist
        = (resumeSetup parseNumber c name inForeground w).2.joblist) ∧
    (inForeground = true → (resumeSetup parseNumber c name inForeground w).1 = .ok () →
      resume parseNumber c name inForeground w =
        (do waitForForeground; unblockSignal SIGCHLD : Act Unit)
          (resumeSetup parseNumber c name inForeground w).2) := by
  obtain ⟨job, hjob, _⟩ := containsJob_getJob _ _ hj
  have hset : ∀ s (j : STSHJob), (j.setState s).num = j.num := fun _ _ => rfl
  rw [resumeSetup_joblist parseNumber c name inForeground w jobID job hn hp hjob]
  refine ⟨?_, ?_, ?_, ?_, ?_⟩
  · rw [getJob_modifyJob_same _ _ _ (hset _), hjob]
    rfl
  · intro k hk
    exact getJob_modifyJob_other _ _ _ _ (hset _) hk
  · exact nums_modifyJob _ _ _ (hset _)
  · intro hf
    subst hf
    rw [(resume_background parseNumber c name w).1,
      resumeSetup_joblist parseNumber c name false w jobID job hn hp hjob]
  · intro hf hok
    subst hf
    exact resume_foreground parseNumber c name w hok

theorem resume_sets_placement_witness :
    ((numArguments (mkCommand "fg" ["1"]) (worldWithJob [sampleProcess 100 .kRunning] [])).1
        = .ok 1 ∧
      decimalNumber (tokenAt (mkCommand "fg" ["1"]) 0) = some 1 ∧
      (worldWithJob [sampleProcess 100 .kRunning] []).joblist.containsJob 1 = true) ∧
    ((resumeSetup decimalNumber (mkCommand "fg" ["1"]) "fg" true
      (worldWithJob [sampleProcess 100 .kRunning] [])).2.joblist.getJob 1).map (fun j => j.state)
      = some .kForeground :=
  ⟨⟨by decide, by decide, by decide⟩,
   (resume_sets_placement decimalNumber (mkCommand "fg" ["1"]) "fg" true
      (worldWithJob [sampleProcess 100 .kRunning] []) 1 (by decide) (by decide) (by decide)).1⟩

theorem getJob_synchronize_other (l : STSHJobList) (k k' : Nat) (hk : k' ≠ k) :
    (l.synchronize k).getJob k' = l.getJob k' := by
  cases l with
  | mk jobs =>
    simp only [STSHJobList.synchronize, STSHJobList.getJob]
    induction jobs with
    | nil => rfl
    | cons j js ih =>
      cases hkeep : (!(j.num == k && j.processes.all fun p => p.state == .kTerminated))
      · have h : j.num = k := by
          by_contra hne
          have : (j.num == k) = false := by simpa using hne
          simp [this] at hkeep
        have h2 : (j.num == k') = false := by
          simpa using fun h3 : j.num = k' => hk (h3.symm.trans h)
        simp only [List.filter_cons, hkeep, Bool.false_eq_true, if_false, List.find?_cons, h2]
        exact ih
      · simp only [List.filter_cons, hkeep, if_true, List.find?_cons]
        cases (j.num == k')
        · exact ih
        · rfl

theorem getJobWithProcess_containsProcess (l : STSHJobList) (pid : Int) (j : STSHJob)
    (h : l.getJobWithProcess pid = some j) : l.containsProcess pid = true := by
  unfold STSHJobList.getJobWithProcess at h
  unfold STSHJobList.containsProcess
  rw [List.any_eq_true]
  exact ⟨j, List.mem_of_find?_eq_some h, by simpa using List.find?_some h⟩

theorem updateJobListHelper_run (pid : Int) (st : STSHProcessState) (w : World) :
    updateJobListHelper pid st w =
      (.ok (), { w with joblist :=
        match w.joblist.getJobWithProcess pid with
        | none => w.joblist
        | some job =>
          (w.joblist.modifyJob job.num (fun j => j.setProcessState pid st)).synchronize job.num }) := by
  cases hj : w.joblist.getJobWithProcess pid with
  | none =>
    cases hc : w.joblist.containsProcess pid <;>
      simp [updateJobListHelper, bind_run, Act.bind, getJoblist, pure_run, hc, hj]
  | some job =>
    have hc := getJobWithProcess_containsProcess _ _ _ hj
    simp [updateJobListHelper, bind_run, Act.bind, getJoblist, pure_run, hc, hj, setJoblist]

theorem updateJobListHelper_absent (pid : Int) (st : STSHProcessState) (w : World)
    (h : w.joblist.containsProcess pid = false) : updateJobListHelper pid st w = (.ok (), w) := by
  simp [updateJobListHelper, bind_run, Act.bind, getJoblist, pure_run, h]

/-- C11: for a collected status `(pid, status)` with `pid > 0`, the handler goes on
with the remaining statuses from a world in which: the registry is unchanged
when no job owns `pid`; otherwise, for a normal exit or a fatal signal
(Terminated), a stop (Stopped) or a continue (Running), the processes of the
owning job with that pid have the new state and all others are as they were,
`synchronize` has been applied to the owning job, and every job with another id
is untouched. -/
theorem reconciler_effect (pid : Int) (status : WaitStatus) (rest : List (Int × WaitStatus))
    (w : World) (hpid : 0 < pid) :
    ∃ w1 : World,
      updateJobList ((pid, status) :: rest) w = updateJobList rest w1 ∧
      w1.trace = w.trace ++ [{ call := .waitpid, ret := pid }] ∧
      (w.joblist.containsProcess pid = false → w1.joblist = w.joblist) ∧
      (∀ st job, specClassify status = some st → w.joblist.getJobWithProcess pid = some job →
        w1.joblist =
            (w.joblist.modifyJob job.num (fun j => j.setProcessState pid st)).synchronize job.num ∧
        (∀ i q, job.processes.get? i = some q →
          (job.setProcessState pid st).processes.get? i =
            some (if q.pid = pid then { q with state := st } else q)) ∧
        (∀ k, k ≠ job.num → w1.joblist.getJob k = w.joblist.getJob k)) := by
  have hp : ¬ pid ≤ 0 := not_le.mpr hpid
  have hset : ∀ (st : STSHProcessState) (j : STSHJob), (j.setProcessState pid st).num = j.num :=
    fun _ _ => rfl
  have main : ∀ st, specClassify status = some st →
      updateJobList ((pid, status) :: rest) w =
        updateJobList rest (updateJobListHelper pid st
          { w with trace := w.trace ++ [{ call := .waitpid, ret := pid }] }).2 := by
    intro st hst
    cases status <;> simp [specClassify] at hst <;> subst hst <;>
      simp [updateJobList, bind_run, Act.bind, emit, hp, updateJobListHelper_run]
  cases hcl : specClassify status with
  | none =>
    cases status <;> simp [specClassify] at hcl
    refine ⟨{ w with trace := w.trace ++ [{ call := .waitpid, ret := pid }] }, ?_, rfl,
      fun _ => rfl, ?_⟩
    · simp [updateJobList, bind_run, Act.bind, emit, hp, pure_run]
    · intro st job hst
      simp at hst
  | some st0 =>
    refine ⟨(updateJobListHelper pid st0
        { w with trace := w.trace ++ [{ call := .waitpid, ret := pid }] }).2, main st0 hcl, ?_, ?_, ?_⟩
    · simp [updateJobListHelper_run]
    · intro habs
      rw [updateJobListHelper_absent _ _ _ (by simpa using habs)]
    · intro st job hst hjob
      have hst' : st0 = st := by simpa using hst
      subst hst'
      have hw1 : (updateJobListHelper pid st0
          { w with trace := w.trace ++ [{ call := .waitpid, ret := pid }] }).2.joblist =
          (w.joblist.modifyJob job.num (fun j => j.setProcessState pid st0)).synchronize job.num := by
        simp [updateJobListHelper_run, hjob]
      refine ⟨hw1, ?_, ?_⟩
      · intro i q hq
        simp only [STSHJob.setProcessState, List.get?_eq_getElem?, List.getElem?_map] at hq ⊢
        rw [hq]
        rfl
      · intro k hk
        rw [hw1, getJob_synchronize_other _ _ _ hk, getJob_modifyJob_other _ _ _ _ (hset st0) hk]

theorem syscall_run (c : SysCall) (w : World) :
    syscall c w = (.ok w.nextAnswer, w.push c) := by
  cases hr : w.rets <;>
    simp [syscall, nextRet, emit, bind_run, Act.bind, hr, pure_run, World.nextAnswer, World.push]

theorem errchk_run {α : Type} (c : SysCall) (e : STSHException) (k : Int → Act α) (w : World) :
    (do let err ← syscall c; if err < 0 then throwE e else k err : Act α) w =
      if w.nextAnswer < 0 then (.throw e, w.push c) else k w.nextAnswer (w.push c) := by
  simp only [bind_run, Act.bind, syscall_run]
  split <;> rfl

theorem fork_errchk_run (w : World) :
    fork_errchk w = if w.nextAnswer < 0 then (.throw .forkFailed, w.push .fork)
      else (.ok w.nextAnswer, w.push .fork) := errchk_run _ _ _ w

theorem dup2_errchk_run (a b : Int) (w : World) :
    dup2_errchk a b w = if w.nextAnswer < 0 then (.throw .dup2Failed, w.push (.dup2 a b))
      else (.ok w.nextAnswer, w.push (.dup2 a b)) := errchk_run _ _ _ w

theorem execvp_errchk_run (path : String) (w : World) :
    execvp_errchk path w =
      if w.nextAnswer < 0 then (.throw (.commandNotFound path), w.push (.execvp path))
      else (.replaced, w.push (.execvp path)) := errchk_run _ _ _ w

theorem open_errchk_run (path : String) (forWriting : Bool) (w : World) :
    open_errchk path forWriting w =
      if w.nextAnswer < 0 then
        (.throw (.openFailed path), w.push (if forWriting then .openWrite path else .openRead path))
      else (.ok w.nextAnswer, w.push (if forWriting then .openWrite path else .openRead path)) :=
  errchk_run _ _ _ w

theorem close_errchk_run (fd : Int) (w : World) :
    close_errchk fd w = if w.nextAnswer < 0 then (.throw (.closeFailed fd), w.push (.close fd))
      else (.ok w.nextAnswer, w.push (.close fd)) := errchk_run _ _ _ w

theorem setpgid_errchk_run (pid pgid : Int) (w : World) :
    setpgid_errchk pid pgid w =
      if w.nextAnswer < 0 then (.throw (.setpgidFailed pid), w.push (.setpgid pid pgid))
      else (.ok w.nextAnswer, w.push (.setpgid pid pgid)) := errchk_run _ _ _ w

theorem killpg_errchk_run (pgrp sig : Int) (w : World) :
    killpg_errchk pgrp sig w =
      if w.nextAnswer < 0 then (.throw (.killpgFailed pgrp sig), w.push (.killpg pgrp sig))
      else (.ok w.nextAnswer, w.push (.killpg pgrp sig)) := errchk_run _ _ _ w

theorem kill_errchk_run (pid sig : Int) (w : World) :
    kill_errchk pid sig w =
      if w.nextAnswer < 0 then (.throw (.killFailed pid sig), w.push (.kill pid sig))
      else (.ok w.nextAnswer, w.push (.kill pid sig)) := errchk_run _ _ _ w

theorem tcgetpgrp_errchk_run (fd : Int) (w : World) :
    tcgetpgrp_errchk fd w =
      if w.nextAnswer < 0 then (.throw (.tcgetpgrpFailed fd), w.push (.tcgetpgrp fd))
      else (.ok w.nextAnswer, w.push (.tcgetpgrp fd)) := errchk_run _ _ _ w

theorem tcsetpgrp_errchk_run (fd pgrp : Int) (w : World) :
    tcsetpgrp_errchk fd pgrp w =
      if w.nextAnswer < 0 then (.throw (.tcsetpgrpFailed fd pgrp), w.push (.tcsetpgrp fd pgrp))
      else (.ok w.nextAnswer, w.push (.tcsetpgrp fd pgrp)) := errchk_run _ _ _ w

theorem pipe2_errchk_run (w : World) :
    pipe2_errchk w =
      if w.nextAnswer < 0 then (.throw .pipeFailed, w.push .pipe2)
      else (.ok ((w.push .pipe2).rets.headD (-1), (w.push .pipe2).rets.tail.headD (-1)),
        { w.push .pipe2 with
            rets := (w.push .pipe2).rets.tail.tail,
            trace := (w.push .pipe2).trace ++
              [{ call := .pipe2Fds ((w.push .pipe2).rets.headD (-1))
                          ((w.push .pipe2).rets.tail.headD (-1)), ret := 0 }] }) := by
  unfold pipe2_errchk
  rw [errchk_run]
  split
  · rfl
  · generalize w.push .pipe2 = v
    cases hr : v.rets with
    | nil => simp [bind_run, Act.bind, nextRet, hr, emit, pure_run]
    | cons a as =>
      cases has : as <;> simp [bind_run, Act.bind, nextRet, hr, has, emit, pure_run]

theorem getForegroundJob_hasForegroundJob (l : STSHJobList) (j : STSHJob)
    (h : l.getForegroundJob = some j) : l.hasForegroundJob = true := by
  unfold STSHJobList.getForegroundJob at h
  unfold STSHJobList.hasForegroundJob
  rw [List.any_eq_true]
  exact ⟨j, List.mem_of_find?_eq_some h, by simpa using List.find?_some h⟩

theorem sendToForeground_idle (sig : Int) (w : World) (h : w.joblist.hasForegroundJob = false) :
    sendToForeground sig w = (.ok (), w) := by
  simp [sendToForeground, bind_run, Act.bind, getJoblist, h, pure_run]

theorem sendToForeground_forward (sig : Int) (w : World) (job : STSHJob)
    (h : w.joblist.getForegroundJob = some job) :
    sendToForeground sig w =
      if w.nextAnswer < 0 then
        (.throw (.killpgFailed job.getGroupID sig), w.push (.killpg job.getGroupID sig))
      else (.ok (), w.push (.killpg job.getGroupID sig)) := by
  have hf := getForegroundJob_hasForegroundJob _ _ h
  by_cases hlt : w.nextAnswer < 0 <;>
    simp [sendToForeground, bind_run, Act.bind, getJoblist, hf, h, killpg_errchk_run, hlt,
      pure_run]

/-- C20: SIGINT and SIGTSTP are handled by `sendToForeground`. When no job is
Foreground it returns in the unchanged world; when the registry has a
Foreground job it sends exactly that signal, with `killpg`, to the process group
of that job and leaves registry and signal mask as they were. -/
theorem sendToForeground_forwards (sig : Int) (children : List (Int × WaitStatus)) (w : World)
    (hsig : sig = SIGINT ∨ sig = SIGTSTP) :
    handleSignal { sig := sig, children := children } w = sendToForeground sig w ∧
    (w.joblist.hasForegroundJob = false → sendToForeground sig w = (.ok (), w)) ∧
    (∀ job, w.joblist.getForegroundJob = some job →
      signalsSent (sendToForeground sig w).2.trace
        = signalsSent w.trace ++ [.killpg job.getGroupID sig] ∧
      (sendToForeground sig w).2.joblist = w.joblist ∧
      (sendToForeground sig w).2.blocked = w.blocked) := by
  refine ⟨?_, sendToForeground_idle sig w, ?_⟩
  · rcases hsig with h | h <;> subst h <;>
      simp [handleSignal, SIGINT, SIGTSTP, SIGQUIT, SIGCHLD]
  · intro job hjob
    rw [sendToForeground_forward sig w job hjob]
    split <;> simp [World.push, signalsSent, isSignalCall]

theorem sendToForeground_forwards_witness :
    (SIGINT = SIGINT ∨ SIGINT = SIGTSTP) ∧
    handleSignal { sig := SIGINT, children := [] }
        { worldWithJob [sampleProcess 100 .kRunning] [] with
            joblist := { jobs := [{ num := 1, state := .kForeground,
                                    processes := [sampleProcess 100 .kRunning] }] } }
      = sendToForeground SIGINT
        { worldWithJob [sampleProcess 100 .kRunning] [] with
            joblist := { jobs := [{ num := 1, state := .kForeground,
                                    processes := [sampleProcess 100 .kRunning] }] } } :=
  ⟨Or.inl rfl, (sendToForeground_forwards SIGINT []
      { worldWithJob [sampleProcess 100 .kRunning] [] with
          joblist := { jobs := [{ num := 1, state := .kForeground,
                                  processes := [sampleProcess 100 .kRunning] }] } }
      (Or.inl rfl)).1⟩

/-- C14 (code defect): the catch block of `createJob` closes `prev_input_fd` and
`output_fd` without the guards of the normal path. For a one-command pipeline
without redirection whose fork fails, it closes the descriptors 0 and 1 of the
shell. For `ls | wc` whose first fork fails, it closes 0 and the write end 4 of
the pipe, and the read end 3 stays open. -/
theorem createJob_fork_failure_closes_standard_descriptors :
    ((createJob (mkLine "sleep" ["1"]) { initialWorld with rets := [50, -1, 0, 0] }).1
        = .throw .forkFailed ∧
     (createJob (mkLine "sleep" ["1"])
        { initialWorld with rets := [50, -1, 0, 0] }).2.trace.map (fun e => e.call)
        = [.sigprocmaskBlock SIGCHLD, .tcgetpgrp 0, .fork, .close 0, .close 1]) ∧
    ((createJob { commands := [mkCommand "ls" [], mkCommand "wc" []], input := "", output := "",
                  background := true }
        { initialWorld with rets := [0, 3, 4, -1, 0, 0] }).1 = .throw .forkFailed ∧
     (createJob { commands := [mkCommand "ls" [], mkCommand "wc" []], input := "", output := "",
                  background := true }
        { initialWorld with rets := [0, 3, 4, -1, 0, 0] }).2.trace.map (fun e => e.call)
        = [.sigprocmaskBlock SIGCHLD, .pipe2, .pipe2Fds 3 4, .fork, .close 0, .close 4]) := by
  refine ⟨⟨?_, ?_⟩, ?_, ?_⟩ <;> decide!

theorem keeps_frame {β : Type} (obs : World → β) : Frame (keeps obs) :=
  ⟨fun _ => rfl, fun _ _ _ h1 h2 => h2.trans h1⟩

theorem steps_pure {α : Type} {R : World → World → Prop} (F : Frame R) (a : α) :
    Steps R (pure a : Act α) := fun w => F.refl w

theorem steps_Act_pure {α : Type} {R : World → World → Prop} (F : Frame R) (a : α) :
    Steps R (Act.pure a : Act α) := fun w => F.refl w

theorem steps_throwE {α : Type} {R : World → World → Prop} (F : Frame R) (e : STSHException) :
    Steps R (throwE e : Act α) := fun w => F.refl w

theorem steps_bind {α β : Type} {R : World → World → Prop} (F : Frame R) {m : Act α}
    {f : α → Act β} (hm : Steps R m) (hf : ∀ a, Steps R (f a)) : Steps R (m >>= f) := by
  intro w
  have h1 := hm w
  rw [bind_run]
  unfold Act.bind
  cases h : m w with
  | mk r w1 =>
    rw [h] at h1
    cases r with
    | ok a => exact F.trans _ _ _ h1 (hf a w1)
    | throw e => exact h1
    | exit c => exact h1
    | replaced => exact h1
    | hang => exact h1

theorem steps_tryCatchE {α : Type} {R : World → World → Prop} (F : Frame R) {m : Act α}
    {h : STSHException → Act α} (hm : Steps R m) (hh : ∀ e, Steps R (h e)) :
    Steps R (tryCatchE m h) := by
  intro w
  have h1 := hm w
  unfold tryCatchE
  cases hmw : m w with
  | mk r w1 =>
    rw [hmw] at h1
    cases r with
    | throw e => exact F.trans _ _ _ h1 (hh e w1)
    | ok a => exact h1
    | exit c => exact h1
    | replaced => exact h1
    | hang => exact h1

theorem steps_ite {α : Type} {R : World → World → Prop} (c : Prop) [Decidable c] {m n : Act α}
    (hm : Steps R m) (hn : Steps R n) : Steps R (if c then m else n) := by
  split
  · exact hm
  · exact hn

theorem steps_getJoblist {R : World → World → Prop} (F : Frame R) : Steps R getJoblist :=
  fun w => F.refl w

theorem steps_syscall {R : World → World → Prop} (c : SysCall)
    (h : ∀ w, R w (w.push c)) : Steps R (syscall c) := by
  intro w
  rw [syscall_run]
  exact h w

theorem steps_errchk {α : Type} {R : World → World → Prop} (F : Frame R) (c : SysCall)
    (e : STSHException) (k : Int → Act α) (h : ∀ w, R w (w.push c)) (hk : ∀ r, Steps R (k r)) :
    Steps R (do let err ← syscall c; if err < 0 then throwE e else k err : Act α) :=
  steps_bind F (steps_syscall c h) (fun _ => steps_ite _ (steps_throwE F e) (hk _))

theorem steps_close_errchk {R : World → World → Prop} (F : Frame R) (fd : Int)
    (h : ∀ w, R w (w.push (.close fd))) : Steps R (close_errchk fd) :=
  steps_errchk F _ _ _ h (fun _ => steps_pure F _)

theorem steps_dup2_errchk {R : World → World → Prop} (F : Frame R) (a b : Int)
    (h : ∀ w, R w (w.push (.dup2 a b))) : Steps R (dup2_errchk a b) :=
  steps_errchk F _ _ _ h (fun _ => steps_pure F _)

theorem steps_setpgid_errchk {R : World → World → Prop} (F : Frame R) (a b : Int)
    (h : ∀ w, R w (w.push (.setpgid a b))) : Steps R (setpgid_errchk a b) :=
  steps_errchk F _ _ _ h (fun _ => steps_pure F _)

theorem steps_killpg_errchk {R : World → World → Prop} (F : Frame R) (a b : Int)
    (h : ∀ w, R w (w.push (.killpg a b))) : Steps R (killpg_errchk a b) :=
  steps_errchk F _ _ _ h (fun _ => steps_pure F _)

theorem steps_kill_errchk {R : World → World → Prop} (F : Frame R) (a b : Int)
    (h : ∀ w, R w (w.push (.kill a b))) : Steps R (kill_errchk a b) :=
  steps_errchk F _ _ _ h (fun _ => steps_pure F _)

theorem steps_tcgetpgrp_errchk {R : World → World → Prop} (F : Frame R) (a : Int)
    (h : ∀ w, R w (w.push (.tcgetpgrp a))) : Steps R (tcgetpgrp_errchk a) :=
  steps_errchk F _ _ _ h (fun _ => steps_pure F _)

theorem steps_tcsetpgrp_errchk {R : World → World → Prop} (F : Frame R) (a b : Int)
    (h : ∀ w, R w (w.push (.tcsetpgrp a b))) : Steps R (tcsetpgrp_errchk a b) :=
  steps_errchk F _ _ _ h (fun _ => steps_pure F _)

theorem steps_fork_errchk {R : World → World → Prop} (F : Frame R)
    (h : ∀ w, R w (w.push .fork)) : Steps R fork_errchk :=
  steps_errchk F _ _ _ h (fun _ => steps_pure F _)

theorem steps_open_errchk {R : World → World → Prop} (F : Frame R) (path : String) (b : Bool)
    (h : ∀ w, R w (w.push (if b then .openWrite path else .openRead path))) :
    Steps R (open_errchk path b) :=
  steps_errchk F _ _ _ h (fun _ => steps_pure F _)

theorem steps_execvp_errchk {R : World → World → Prop} (F : Frame R) (path : String)
    (h : ∀ w, R w (w.push (.execvp path))) : Steps R (execvp_errchk path) :=
  steps_errchk F _ _ _ h (fun _ => fun w => F.refl w)

theorem steps_emit {R : World → World → Prop} (c : SysCall) (r : Int)
    (h : ∀ w : World, R w { w with trace := w.trace ++ [{ call := c, ret := r }] }) :
    Steps R (emit c r) := fun w => h w

theorem steps_exitE {α : Type} {R : World → World → Prop} (code : Int)
    (h : ∀ w : World, R w { w with trace := w.trace ++ [{ call := .exit code, ret := 0 }] }) :
    Steps R (exitE code : Act α) := fun w => h w

theorem steps_numArguments {R : World → World → Prop} (F : Frame R) (c : command) :
    Steps R (numArguments c) := by
  intro w
  rw [numArguments_eq]
  exact F.refl w

theorem tf_push {R : World → World → Prop} {A : SysCall → Prop} (T : TraceFrame R A)
    (c : SysCall) (h : A c) (w : World) : R w (w.push c) :=
  T.emit w c w.nextAnswer w.rets.tail w.deliveries h

theorem tf_emit {R : World → World → Prop} {A : SysCall → Prop} (T : TraceFrame R A)
    (c : SysCall) (r : Int) (h : A c) : Steps R (emit c r) :=
  fun w => T.emit w c r w.rets w.deliveries h

theorem tf_exitE {α : Type} {R : World → World → Prop} {A : SysCall → Prop}
    (T : TraceFrame R A) (code : Int) (h : A (.exit code)) : Steps R (exitE code : Act α) :=
  fun w => T.emit w (.exit code) 0 w.rets w.deliveries h

theorem steps_updateJobListHelper {R : World → World → Prop} (F : Frame R)
    (hrec : ∀ (w : World) (pid : Int) (st : STSHProcessState) (job : STSHJob),
      w.joblist.getJobWithProcess pid = some job →
      R w { w with joblist :=
        (w.joblist.modifyJob job.num (fun j => j.setProcessState pid st)).synchronize job.num })
    (pid : Int) (st : STSHProcessState) : Steps R (updateJobListHelper pid st) := by
  intro w
  rw [updateJobListHelper_run]
  cases hj : w.joblist.getJobWithProcess pid with
  | none => exact F.refl w
  | some job => exact hrec w pid st job hj

theorem steps_updateJobList {R : World → World → Prop} {A : SysCall → Prop}
    (T : TraceFrame R A) (hA : A .waitpid)
    (hrec : ∀ (w : World) (pid : Int) (st : STSHProcessState) (job : STSHJob),
      w.joblist.getJobWithProcess pid = some job →
      R w { w with joblist :=
        (w.joblist.modifyJob job.num (fun j => j.setProcessState pid st)).synchronize job.num })
    (l : List (Int × WaitStatus)) : Steps R (updateJobList l) := by
  induction l with
  | nil => exact tf_emit T _ _ hA
  | cons x rest ih =>
    obtain ⟨pid, status⟩ := x
    unfold updateJobList
    refine steps_bind T.frame (tf_emit T _ _ hA) (fun _ => steps_ite _ (steps_pure T.frame _) ?_)
    cases status
    · exact steps_bind T.frame (steps_updateJobListHelper T.frame hrec _ _) (fun _ => ih)
    · exact steps_bind T.frame (steps_updateJobListHelper T.frame hrec _ _) (fun _ => ih)
    · exact steps_bind T.frame (steps_updateJobListHelper T.frame hrec _ _) (fun _ => ih)
    · exact steps_bind T.frame (steps_updateJobListHelper T.frame hrec _ _) (fun _ => ih)
    · exact steps_bind T.frame (steps_pure T.frame _) (fun _ => ih)

theorem steps_sendToForeground {R : World → World → Prop} {A : SysCall → Prop}
    (T : TraceFrame R A) (hA : ∀ g s, A (.killpg g s)) (sig : Int) :
    Steps R (sendToForeground sig) := by
  unfold sendToForeground
  refine steps_bind T.frame (steps_getJoblist T.frame) (fun jl => steps_ite _ ?_ (steps_pure T.frame _))
  cases jl.getForegroundJob with
  | none => exact steps_pure T.frame _
  | some job =>
    exact steps_bind T.frame (steps_killpg_errchk T.frame _ _ (tf_push T _ (hA _ _)))
      (fun _ => steps_pure T.frame _)

theorem steps_handleSignal {R : World → World → Prop} {A : SysCall → Prop}
    (T : TraceFrame R A) (hw : A .waitpid) (hk : ∀ g s, A (.killpg g s)) (he : A (.exit 0))
    (hrec : ∀ (w : World) (pid : Int) (st : STSHProcessState) (job : STSHJob),
      w.joblist.getJobWithProcess pid = some job →
      R w { w with joblist :=
        (w.joblist.modifyJob job.num (fun j => j.setProcessState pid st)).synchronize job.num })
    (d : Delivery) : Steps R (handleSignal d) := by
  unfold handleSignal
  exact steps_ite _ (tf_exitE T 0 he)
    (steps_ite _ (steps_updateJobList T hw hrec _)
      (steps_ite _ (steps_sendToForeground T hk _) (steps_pure T.frame _)))

theorem steps_waitLoop {R : World → World → Prop} {A : SysCall → Prop}
    (T : TraceFrame R A) (hs : A .sigsuspend) (hw : A .waitpid) (hk : ∀ g s, A (.killpg g s))
    (he : A (.exit 0))
    (hrec : ∀ (w : World) (pid : Int) (st : STSHProcessState) (job : STSHJob),
      w.joblist.getJobWithProcess pid = some job →
      R w { w with joblist :=
        (w.joblist.modifyJob job.num (fun j => j.setProcessState pid st)).synchronize job.num })
    (ds : List Delivery) : Steps R (waitLoop ds) := by
  induction ds with
  | nil =>
    intro w
    unfold waitLoop
    split <;> exact T.frame.refl w
  | cons d rest ih =>
    intro w
    unfold waitLoop
    split
    · have h1 : R w { w with deliveries := rest } := T.skip w w.rets rest
      have h2 := steps_bind T.frame (tf_emit T .sigsuspend (-1) hs)
        (fun _ => steps_bind T.frame (steps_handleSignal T hw hk he hrec d) (fun _ => ih))
        { w with deliveries := rest }
      exact T.frame.trans _ _ _ h1 h2
    · exact T.frame.refl w

theorem steps_waitForForeground {R : World → World → Prop} {A : SysCall → Prop}
    (T : TraceFrame R A) (hs : A .sigsuspend) (hw : A .waitpid) (hk : ∀ g s, A (.killpg g s))
    (he : A (.exit 0))
    (hrec : ∀ (w : World) (pid : Int) (st : STSHProcessState) (job : STSHJob),
      w.joblist.getJobWithProcess pid = some job →
      R w { w with joblist :=
        (w.joblist.modifyJob job.num (fun j => j.setProcessState pid st)).synchronize job.num }) :
    Steps R waitForForeground :=
  fun w => steps_waitLoop T hs hw hk he hrec w.deliveries w

theorem resumeSetup_cases (parseNumber : String → Option Nat) (c : command) (name : String)
    (inForeground : Bool) (w : World) :
    (resumeSetup parseNumber c name inForeground w).2 = w ∨
    (resumeSetup parseNumber c name inForeground w).2 = (blockSignal SIGCHLD w).2 ∨
    ∃ jobID g, (resumeSetup parseNumber c name inForeground w).2 = afterSetState w jobID inForeground ∨
      (resumeSetup parseNumber c name inForeground w).2 =
        (afterSetState w jobID inForeground).push (.killpg g SIGCONT) := by
  cases hn : (numArguments c w).1 with
  | ok n =>
    have h1 : numArguments c w = (.ok n, w) := by rw [numArguments_eq, hn]
    by_cases hone : n = 1
    · subst hone
      cases hp : parseNumber (tokenAt c 0) with
      | none =>
        left
        simp [resumeSetup, bind_run, Act.bind, h1, parseNumberE, hp, throwE]
      | some jobID =>
        cases hj : w.joblist.getJob jobID with
        | none =>
          right; left
          cases hc : w.joblist.containsJob jobID <;>
            simp [resumeSetup, bind_run, Act.bind, h1, parseNumberE, hp, throwE, pure_run,
              blockSignal, getJoblist, hc, hj]
        | some job =>
          right; right
          refine ⟨jobID, job.getGroupID, ?_⟩
          rw [resumeSetup_world parseNumber c name inForeground w jobID job hn hp hj]
          cases jobIsRunning job
          · right
            rfl
          · left
            rfl
    · left
      simp [resumeSetup, bind_run, Act.bind, h1, hone, throwE]
  | throw e =>
    left
    have h1 : numArguments c w = (.throw e, w) := by rw [numArguments_eq, hn]
    simp [resumeSetup, bind_run, Act.bind, h1]
  | exit code =>
    left
    have h1 : numArguments c w = (.exit code, w) := by rw [numArguments_eq, hn]
    simp [resumeSetup, bind_run, Act.bind, h1]
  | replaced =>
    left
    have h1 : numArguments c w = (.replaced, w) := by rw [numArguments_eq, hn]
    simp [resumeSetup, bind_run, Act.bind, h1]
  | hang =>
    left
    have h1 : numArguments c w = (.hang, w) := by rw [numArguments_eq, hn]
    simp [resumeSetup, bind_run, Act.bind, h1]

theorem steps_resumeSetup {R : World → World → Prop} {A : SysCall → Prop} (T : TraceFrame R A)
    (hk : ∀ g s, A (.killpg g s))
    (hblock : ∀ w sig, R w (blockSignal sig w).2)
    (hset : ∀ (w : World) (k : Nat) (s : STSHJobState),
      R w { w with joblist := w.joblist.modifyJob k (fun j => j.setState s) })
    (parseNumber : String → Option Nat) (c : command) (name : String) (inForeground : Bool) :
    Steps R (resumeSetup parseNumber c name inForeground) := by
  intro w
  have hafter : ∀ jobID, R w (afterSetState w jobID inForeground) := fun jobID =>
    T.frame.trans _ _ _ (hblock w SIGCHLD) (hset (blockSignal SIGCHLD w).2 jobID _)
  rcases resumeSetup_cases parseNumber c name inForeground w with h | h | ⟨jobID, g, h | h⟩
  · rw [h]; exact T.frame.refl w
  · rw [h]; exact hblock w SIGCHLD
  · rw [h]; exact hafter jobID
  · rw [h]
    exact T.frame.trans _ _ _ (hafter jobID) (tf_push T _ (hk _ _) _)

theorem steps_resume {R : World → World → Prop} {A : SysCall → Prop} (T : TraceFrame R A)
    (hs : A .sigsuspend) (hw : A .waitpid) (hk : ∀ g s, A (.killpg g s)) (he : A (.exit 0))
    (hrec : ∀ (w : World) (pid : Int) (st : STSHProcessState) (job : STSHJob),
      w.joblist.getJobWithProcess pid = some job →
      R w { w with joblist :=
        (w.joblist.modifyJob job.num (fun j => j.setProcessState pid st)).synchronize job.num })
    (hblock : ∀ w sig, R w (blockSignal sig w).2)
    (hunblock : ∀ w sig, R w (unblockSignal sig w).2)
    (hset : ∀ (w : World) (k : Nat) (s : STSHJobState),
      R w { w with joblist := w.joblist.modifyJob k (fun j => j.setState s) })
    (parseNumber : String → Option Nat) (c : command) (name : String) (inForeground : Bool) :
    Steps R (resume parseNumber c name inForeground) := by
  unfold resume
  refine steps_bind T.frame (steps_resumeSetup T hk hblock hset _ _ _ _) (fun _ => ?_)
  show Steps R (if inForeground = true then waitForForeground >>= fun _ => unblockSignal SIGCHLD
    else (pure () : Act Unit) >>= fun _ => unblockSignal SIGCHLD)
  apply steps_ite
  · exact steps_bind T.frame (steps_waitForForeground T hs hw hk he hrec)
      (fun _ => fun w => hunblock w SIGCHLD)
  · exact steps_bind T.frame (steps_pure T.frame _) (fun _ => fun w => hunblock w SIGCHLD)

theorem steps_sendSignal {R : World → World → Prop} {A : SysCall → Prop} (T : TraceFrame R A)
    (hkill : ∀ g s, A (.kill g s))
    (hblock : ∀ w sig, R w (blockSignal sig w).2)
    (hunblock : ∀ w sig, R w (unblockSignal sig w).2)
    (parseNumber : String → Option Nat) (c : command) (name : String) (sig : Int) :
    Steps R (sendSignal parseNumber c name sig) := by
  unfold sendSignal
  refine steps_bind T.frame (steps_numArguments T.frame c) (fun n => ?_)
  refine steps_bind T.frame (fun w => hblock w SIGCHLD) (fun _ => ?_)
  refine steps_bind T.frame ?_ (fun process => ?_)
  · intro w
    rw [sendSignalResolve_world]
    exact T.frame.refl w
  · apply steps_ite
    · exact steps_pure T.frame _
    · apply steps_ite
      · exact steps_pure T.frame _
      · exact steps_bind T.frame (steps_kill_errchk T.frame _ _ (tf_push T _ (hkill _ _)))
          (fun _ => fun w => hunblock w SIGCHLD)

theorem steps_handleBuiltin {R : World → World → Prop} {A : SysCall → Prop} (T : TraceFrame R A)
    (hs : A .sigsuspend) (hw : A .waitpid) (hk : ∀ g s, A (.killpg g s)) (he : A (.exit 0))
    (hkill : ∀ g s, A (.kill g s)) (hprint : ∀ l, A (.printJobList l))
    (hrec : ∀ (w : World) (pid : Int) (st : STSHProcessState) (job : STSHJob),
      w.joblist.getJobWithProcess pid = some job →
      R w { w with joblist :=
        (w.joblist.modifyJob job.num (fun j => j.setProcessState pid st)).synchronize job.num })
    (hblock : ∀ w sig, R w (blockSignal sig w).2)
    (hunblock : ∀ w sig, R w (unblockSignal sig w).2)
    (hset : ∀ (w : World) (k : Nat) (s : STSHJobState),
      R w { w with joblist := w.joblist.modifyJob k (fun j => j.setState s) })
    (parseNumber : String → Option Nat) (p : pipeline) :
    Steps R (handleBuiltin parseNumber p) := by
  have hres : ∀ name fg, Steps R (do resume parseNumber p.leading name fg; pure true : Act Bool) :=
    fun name fg => steps_bind T.frame
      (steps_resume T hs hw hk he hrec hblock hunblock hset parseNumber _ name fg)
      (fun _ => steps_pure T.frame _)
  have hsig : ∀ name sig,
      Steps R (do sendSignal parseNumber p.leading name sig; pure true : Act Bool) :=
    fun name sig => steps_bind T.frame
      (steps_sendSignal T hkill hblock hunblock parseNumber _ name sig)
      (fun _ => steps_pure T.frame _)
  unfold handleBuiltin
  simp only
  split
  · exact tf_exitE T 0 he
  · exact tf_exitE T 0 he
  · exact hres _ _
  · exact hres _ _
  · exact hsig _ _
  · exact hsig _ _
  · exact hsig _ _
  · exact steps_bind T.frame (steps_getJoblist T.frame)
      (fun l => steps_bind T.frame (tf_emit T _ _ (hprint l)) (fun _ => steps_pure T.frame _))
  · exact steps_pure T.frame _

theorem act_bind_assoc {α β γ : Type} (m : Act α) (f : α → Act β) (g : β → Act γ) :
    (m >>= f) >>= g = m >>= fun a => f a >>= g := by
  funext w
  simp only [bind_run, Act.bind]
  cases m w with
  | mk r w1 => cases r <;> rfl

theorem act_pure_bind {α β : Type} (a : α) (f : α → Act β) : (pure a : Act α) >>= f = f a := rfl

theorem act_Act_pure_bind {α β : Type} (a : α) (f : α → Act β) :
    (Act.pure a : Act α) >>= f = f a := rfl

theorem act_ite_bind {α β : Type} (c : Prop) [Decidable c] (m n : Act α) (f : α → Act β) :
    (if c then m else n) >>= f = if c then m >>= f else n >>= f := by
  split <;> rfl

theorem startProcess_eq (job : Nat) (c : command) (input_fd output_fd : Int)
    (inForeground : Bool) :
    startProcess job c input_fd output_fd inForeground =
      fork_errchk >>= fun child =>
        if child = 0 then
          enterChild >>= fun _ => startProcessChild job c input_fd output_fd inForeground
        else startProcessParent job c child := by
  unfold startProcess startProcessChild startProcessParent childSetGroup childRedirect
  simp only [act_ite_bind, act_bind_assoc, act_pure_bind]
  rfl

theorem startProcess_run (job : Nat) (c : command) (input_fd output_fd : Int)
    (inForeground : Bool) (w : World) :
    startProcess job c input_fd output_fd inForeground w =
      if w.nextAnswer < 0 then (.throw .forkFailed, w.push .fork)
      else if w.nextAnswer = 0 then
        startProcessChild job c input_fd output_fd inForeground
          { w.push .fork with inChild := true }
      else startProcessParent job c w.nextAnswer (w.push .fork) := by
  rw [startProcess_eq, bind_run]
  unfold Act.bind
  rw [fork_errchk_run]
  by_cases h : w.nextAnswer < 0
  · simp [h]
  · by_cases h0 : w.nextAnswer = 0
    · simp only [h, h0, if_false, if_true]
      simp only [lt_self_iff_false, if_false, if_true]
      rfl
    · simp only [h, h0, if_false]

theorem bind_ends_right {α β : Type} (m : Act α) (f : α → Act β)
    (hm : NoHang m) (hf : ∀ a w, (f a w).1.ends) (w : World) :
    ((m >>= f) w).1.ends := by
  rw [bind_run]
  unfold Act.bind
  have h1 := hm w
  cases h : m w with
  | mk r w1 =>
    rw [h] at h1
    cases r with
    | ok a => exact hf a w1
    | throw e => trivial
    | exit c => exact h1
    | replaced => trivial
    | hang => exact h1.elim

theorem bind_ends_left {α β : Type} (m : Act α) (f : α → Act β)
    (hm : ∀ w, (m w).1.ends) (w : World) : ((m >>= f) w).1.ends := by
  rw [bind_run]
  unfold Act.bind
  have h1 := hm w
  cases h : m w with
  | mk r w1 =>
    rw [h] at h1
    cases r with
    | ok a => exact h1.elim
    | throw e => trivial
    | exit c => exact h1
    | replaced => trivial
    | hang => exact h1.elim

theorem noHang_pure {α : Type} (a : α) : NoHang (pure a : Act α) := fun _ => trivial

theorem noHang_bind {α β : Type} {m : Act α} {f : α → Act β} (hm : NoHang m)
    (hf : ∀ a, NoHang (f a)) : NoHang (m >>= f) := by
  intro w
  rw [bind_run]
  unfold Act.bind
  have h1 := hm w
  cases h : m w with
  | mk r w1 =>
    rw [h] at h1
    cases r with
    | ok a => exact hf a w1
    | throw e => trivial
    | exit c => exact h1
    | replaced => trivial
    | hang => exact h1.elim

theorem noHang_ite {α : Type} {c : Prop} [Decidable c] {m n : Act α} (hm : NoHang m)
    (hn : NoHang n) : NoHang (if c then m else n) := by
  split
  · exact hm
  · exact hn

theorem noHang_errchk {α : Type} (c : SysCall) (e : STSHException) (k : Int → Act α)
    (hk : ∀ r, NoHang (k r)) :
    NoHang (do let err ← syscall c; if err < 0 then throwE e else k err : Act α) := by
  intro w
  rw [errchk_run]
  split
  · trivial
  · exact hk _ _

theorem noHang_setpgid (a b : Int) : NoHang (setpgid_errchk a b) :=
  noHang_errchk _ _ _ (fun _ => noHang_pure _)

theorem noHang_tcsetpgrp (a b : Int) : NoHang (tcsetpgrp_errchk a b) :=
  noHang_errchk _ _ _ (fun _ => noHang_pure _)

theorem noHang_dup2 (a b : Int) : NoHang (dup2_errchk a b) :=
  noHang_errchk _ _ _ (fun _ => noHang_pure _)

theorem noHang_close (a : Int) : NoHang (close_errchk a) :=
  noHang_errchk _ _ _ (fun _ => noHang_pure _)

theorem noHang_childSetGroup (job : Nat) (input_fd : Int) (inForeground : Bool) :
    NoHang (childSetGroup job input_fd inForeground) := by
  unfold childSetGroup
  apply noHang_ite
  · refine noHang_bind (fun w => ?_) (fun _ => ?_)
    · rw [syscall_run]; trivial
    · refine noHang_bind (m := jobGroupID job) (fun _ => True.intro) (fun _ => ?_)
      exact noHang_bind (noHang_setpgid _ _)
        (fun _ => noHang_bind (noHang_tcsetpgrp _ _) (fun _ => noHang_pure _))
  · exact noHang_pure _

theorem noHang_childRedirect (fd target : Int) : NoHang (childRedirect fd target) := by
  unfold childRedirect
  apply noHang_ite
  · exact noHang_bind (noHang_dup2 _ _)
      (fun _ => noHang_bind (noHang_close _) (fun _ => noHang_pure _))
  · exact noHang_pure _

theorem startProcessChild_ends (job : Nat) (c : command) (input_fd output_fd : Int)
    (inForeground : Bool) (w : World) :
    (startProcessChild job c input_fd output_fd inForeground w).1.ends := by
  unfold startProcessChild
  refine bind_ends_right (unblockSignal SIGCHLD) _ (fun _ => True.intro) (fun _ => ?_) w
  refine bind_ends_right _ _ (noHang_childSetGroup _ _ _) (fun _ => ?_)
  refine bind_ends_right _ _ (noHang_childRedirect _ _) (fun _ => ?_)
  refine bind_ends_right _ _ (noHang_childRedirect _ _) (fun _ => ?_)
  intro w1
  refine bind_ends_left _ _ (fun w2 => ?_) w1
  unfold executeCommand
  rw [execvp_errchk_run]
  split <;> trivial

theorem createJobLoop_cons (job : Nat) (p : pipeline) (c : command) (rest : List command)
    (prev_input_fd : Int) :
    createJobLoop job p (c :: rest) prev_input_fd =
      openOutput p rest >>= fun x =>
      startOrCleanup job p c prev_input_fd x.2 >>= fun _ =>
      closeParentEnds prev_input_fd x.2 >>= fun _ =>
      createJobLoop job p rest (if rest ≠ [] then x.1.1 else prev_input_fd) := by
  rw [createJobLoop]
  unfold openOutput startOrCleanup closeParentEnds cleanupHandler
  simp only [act_ite_bind, act_bind_assoc, act_pure_bind, act_Act_pure_bind]

theorem createJob_eq (p : pipeline) :
    createJob p =
      createJobHead p >>= fun x =>
      createJobLoop x.1 p p.commands x.2.1 >>= fun _ =>
      createJobTail p x.1 x.2.1 x.2.2 := by
  unfold createJob createJobHead createJobTail printJobStarted readFromStdin
  simp only [act_ite_bind, act_bind_assoc, act_pure_bind, act_Act_pure_bind]

theorem startProcessParent_run (job : Nat) (c : command) (child : Int) (w : World) :
    startProcessParent job c child w =
      if w.nextAnswer < 0 then
        (.throw (.setpgidFailed child),
          (w.addProcess job (STSHProcess.create child c)).push
            (.setpgid child ((w.addProcess job (STSHProcess.create child c)).groupOf job)))
      else
        (.ok (),
          (w.addProcess job (STSHProcess.create child c)).push
            (.setpgid child ((w.addProcess job (STSHProcess.create child c)).groupOf job))) := by
  have h0 : startProcessParent job c child w =
      (setpgid_errchk child ((w.addProcess job (STSHProcess.create child c)).groupOf job)
        >>= fun _ => (pure () : Act Unit)) (w.addProcess job (STSHProcess.create child c)) := rfl
  rw [h0, bind_run]
  unfold Act.bind
  rw [setpgid_errchk_run]
  have hn : (w.addProcess job (STSHProcess.create child c)).nextAnswer = w.nextAnswer := rfl
  rw [hn]
  by_cases h : w.nextAnswer < 0
  · simp only [h, if_true]
  · simp only [h, if_false]
    rfl

theorem steps_startProcessParent {R : World → World → Prop} {A : SysCall → Prop}
    (T : TraceFrame R A) (hA : ∀ a b, A (.setpgid a b))
    (hadd : ∀ (w : World) (job : Nat) (q : STSHProcess), R w (w.addProcess job q))
    (job : Nat) (c : command) (child : Int) : Steps R (startProcessParent job c child) := by
  intro w
  rw [startProcessParent_run]
  split <;> exact T.frame.trans _ _ _ (hadd w job _) (tf_push T _ (hA _ _) _)

theorem steps_childSetGroup {R : World → World → Prop} {A : SysCall → Prop}
    (T : TraceFrame R A) (hg : A .getpid) (hs : ∀ a b, A (.setpgid a b))
    (ht : ∀ a b, A (.tcsetpgrp a b)) (job : Nat) (input_fd : Int) (inForeground : Bool) :
    Steps R (childSetGroup job input_fd inForeground) := by
  unfold childSetGroup
  apply steps_ite
  · refine steps_bind T.frame (steps_syscall _ (tf_push T _ hg)) (fun _ => ?_)
    refine steps_bind T.frame (fun w => T.frame.refl w) (fun _ => ?_)
    refine steps_bind T.frame (steps_setpgid_errchk T.frame _ _ (tf_push T _ (hs _ _))) (fun _ => ?_)
    exact steps_bind T.frame (steps_tcsetpgrp_errchk T.frame _ _ (tf_push T _ (ht _ _)))
      (fun _ => steps_pure T.frame _)
  · exact steps_pure T.frame _

theorem steps_childRedirect {R : World → World → Prop} {A : SysCall → Prop}
    (T : TraceFrame R A) (hd : ∀ a b, A (.dup2 a b)) (hc : ∀ a, A (.close a)) (fd target : Int) :
    Steps R (childRedirect fd target) := by
  unfold childRedirect
  apply steps_ite
  · refine steps_bind T.frame (steps_dup2_errchk T.frame _ _ (tf_push T _ (hd _ _))) (fun _ => ?_)
    exact steps_bind T.frame (steps_close_errchk T.frame _ (tf_push T _ (hc _)))
      (fun _ => steps_pure T.frame _)
  · exact steps_pure T.frame _

theorem steps_startProcessChild {R : World → World → Prop} {A : SysCall → Prop}
    (T : TraceFrame R A) (hg : A .getpid) (hs : ∀ a b, A (.setpgid a b))
    (ht : ∀ a b, A (.tcsetpgrp a b)) (hd : ∀ a b, A (.dup2 a b)) (hc : ∀ a, A (.close a))
    (hx : ∀ path, A (.execvp path)) (he : A (.exit 0))
    (hunblock : ∀ w sig, R w (unblockSignal sig w).2)
    (job : Nat) (c : command) (input_fd output_fd : Int) (inForeground : Bool) :
    Steps R (startProcessChild job c input_fd output_fd inForeground) := by
  unfold startProcessChild
  refine steps_bind T.frame (fun w => hunblock w SIGCHLD) (fun _ => ?_)
  refine steps_bind T.frame (steps_childSetGroup T hg hs ht _ _ _) (fun _ => ?_)
  refine steps_bind T.frame (steps_childRedirect T hd hc _ _) (fun _ => ?_)
  refine steps_bind T.frame (steps_childRedirect T hd hc _ _) (fun _ => ?_)
  refine steps_bind T.frame ?_ (fun _ => tf_exitE T 0 he)
  unfold executeCommand
  exact steps_execvp_errchk T.frame _ (tf_push T _ (hx _))

theorem steps_openOutput {R : World → World → Prop} {A : SysCall → Prop}
    (T : TraceFrame R A) (hp : A .pipe2) (hf : ∀ a b, A (.pipe2Fds a b))
    (ho : ∀ path, A (.openWrite path)) (p : pipeline) (rest : List command) :
    Steps R (openOutput p rest) := by
  unfold openOutput
  refine steps_bind T.frame ?_ (fun fds => steps_bind T.frame ?_ (fun _ => steps_pure T.frame _))
  · apply steps_ite
    · intro w
      rw [pipe2_errchk_run]
      split
      · exact tf_push T _ hp w
      · exact T.frame.trans _ _ _ (tf_push T _ hp w)
          (T.emit (w.push .pipe2) _ 0 (w.push .pipe2).rets.tail.tail (w.push .pipe2).deliveries
            (hf _ _))
    · exact steps_Act_pure T.frame _
  · apply steps_ite
    · exact steps_Act_pure T.frame _
    · apply steps_ite
      · exact steps_Act_pure T.frame _
      · exact steps_open_errchk T.frame _ _ (tf_push T _ (ho _))

theorem steps_cleanupHandler {R : World → World → Prop} {A : SysCall → Prop}
    (T : TraceFrame R A) (hc : ∀ a, A (.close a)) (prev_input_fd output_fd : Int)
    (e : STSHException) : Steps R (cleanupHandler prev_input_fd output_fd e) := by
  unfold cleanupHandler
  refine steps_bind T.frame (steps_close_errchk T.frame _ (tf_push T _ (hc _))) (fun _ => ?_)
  exact steps_bind T.frame (steps_close_errchk T.frame _ (tf_push T _ (hc _)))
    (fun _ => steps_throwE T.frame _)

theorem steps_closeParentEnds {R : World → World → Prop} {A : SysCall → Prop}
    (T : TraceFrame R A) (hc : ∀ a, A (.close a)) (prev_input_fd output_fd : Int) :
    Steps R (closeParentEnds prev_input_fd output_fd) := by
  unfold closeParentEnds
  refine steps_bind T.frame ?_ (fun _ => ?_)
  · apply steps_ite
    · exact steps_bind T.frame (steps_close_errchk T.frame _ (tf_push T _ (hc _)))
        (fun _ => steps_pure T.frame _)
    · exact steps_pure T.frame _
  · apply steps_ite
    · exact steps_bind T.frame (steps_close_errchk T.frame _ (tf_push T _ (hc _)))
        (fun _ => steps_pure T.frame _)
    · exact steps_pure T.frame _

theorem cleanupHandler_ends (prev_input_fd output_fd : Int) (e : STSHException) (w : World) :
    (cleanupHandler prev_input_fd output_fd e w).1.ends := by
  unfold cleanupHandler
  refine bind_ends_right _ _ (noHang_close _) (fun _ => ?_) w
  exact bind_ends_right _ _ (noHang_close _) (fun _ _ => trivial)

theorem groupIdsKept_of_eq (w w1 : World) (h : w1.joblist = w.joblist) : groupIdsKept w w1 := by
  intro j1 hj1
  rw [h] at hj1
  exact ⟨j1, hj1, rfl, rfl⟩

theorem groupIdsKept_frame : Frame groupIdsKept := by
  refine ⟨fun w => groupIdsKept_of_eq w w rfl, ?_⟩
  intro a b c hab hbc j hj
  obtain ⟨j1, hj1, hn1, hg1⟩ := hbc j hj
  obtain ⟨j2, hj2, hn2, hg2⟩ := hab j1 hj1
  exact ⟨j2, hj2, hn2.trans hn1, hg2.trans hg1⟩

theorem groupIdsKept_traceFrame : TraceFrame groupIdsKept (fun _ => True) :=
  ⟨groupIdsKept_frame, fun w _ _ _ _ _ => groupIdsKept_of_eq w _ rfl,
    fun w _ _ => groupIdsKept_of_eq w _ rfl⟩

theorem getGroupID_setProcessState (j : STSHJob) (pid : Int) (st : STSHProcessState) :
    (j.setProcessState pid st).getGroupID = j.getGroupID := by
  cases j with
  | mk num state processes =>
    cases processes with
    | nil => rfl
    | cons q qs =>
      simp only [STSHJob.setProcessState, STSHJob.getGroupID, List.map_cons]
      split <;> rfl

theorem groupIdsKept_modifyJob (w : World) (k : Nat) (f : STSHJob → STSHJob)
    (hn : ∀ j, (f j).num = j.num) (hg : ∀ j, (f j).getGroupID = j.getGroupID) :
    groupIdsKept w { w with joblist := w.joblist.modifyJob k f } := by
  intro j1 hj1
  simp only [STSHJobList.modifyJob, List.mem_map] at hj1
  obtain ⟨j, hj, hj1⟩ := hj1
  refine ⟨j, hj, ?_⟩
  subst hj1
  split
  · exact ⟨(hn j).symm, (hg j).symm⟩
  · exact ⟨rfl, rfl⟩

theorem groupIdsKept_reconcile (w : World) (pid : Int) (st : STSHProcessState) (job : STSHJob) :
    groupIdsKept w { w with joblist :=
      (w.joblist.modifyJob job.num (fun j => j.setProcessState pid st)).synchronize job.num } := by
  intro j1 hj1
  simp only [STSHJobList.synchronize] at hj1
  have hj1' := List.mem_of_mem_filter hj1
  exact groupIdsKept_modifyJob w job.num (fun j => j.setProcessState pid st) (fun _ => rfl)
    (fun j => getGroupID_setProcessState j pid st) j1 hj1'

theorem builtins_and_reconciler_keep_group_ids (parseNumber : String → Option Nat) (p : pipeline)
    (d : Delivery) (w : World) :
    groupIdsKept w (handleBuiltin parseNumber p w).2 ∧ groupIdsKept w (handleSignal d w).2 := by
  have hrec : ∀ (w : World) (pid : Int) (st : STSHProcessState) (job : STSHJob),
      w.joblist.getJobWithProcess pid = some job →
      groupIdsKept w { w with joblist :=
        (w.joblist.modifyJob job.num (fun j => j.setProcessState pid st)).synchronize job.num } :=
    fun w pid st job _ => groupIdsKept_reconcile w pid st job
  constructor
  · exact steps_handleBuiltin groupIdsKept_traceFrame trivial trivial (fun _ _ => trivial) trivial
      (fun _ _ => trivial) (fun _ => trivial) hrec
      (fun w _ => groupIdsKept_of_eq w _ rfl) (fun w _ => groupIdsKept_of_eq w _ rfl)
      (fun w k s => groupIdsKept_modifyJob w k _ (fun _ => rfl) (fun _ => rfl))
      parseNumber p w
  · exact steps_handleSignal groupIdsKept_traceFrame trivial (fun _ _ => trivial) trivial hrec d w

theorem ends_iff {α : Type} (r : Res α) :
    r.ends ↔ (∃ e, r = .throw e) ∨ r = .exit 0 ∨ r = .replaced := by
  cases r with
  | ok a => simp [Res.ends]
  | throw e => simp [Res.ends]
  | exit c =>
    simp only [Res.ends]
    constructor
    · intro h; subst h; exact Or.inr (Or.inl rfl)
    · intro h
      rcases h with ⟨e, h⟩ | h | h
      · cases h
      · cases h; rfl
      · cases h
  | replaced => simp [Res.ends]
  | hang => simp [Res.ends]

theorem inChild_traceFrame : TraceFrame (keeps (fun w => w.inChild)) (fun _ => True) :=
  ⟨keeps_frame _, fun _ _ _ _ _ _ => rfl, fun _ _ _ => rfl⟩

theorem csafe_of_steps {α : Type} {m : Act α} (h : Steps (keeps (fun w => w.inChild)) m) :
    ChildSafe m := by
  intro w hw hc
  have h1 : (m w).2.inChild = w.inChild := h w
  rw [h1, hw] at hc
  cases hc

theorem csafe_bind {α β : Type} {m : Act α} {f : α → Act β} (hm : ChildSafe m)
    (hf : ∀ a, ChildSafe (f a)) : ChildSafe (m >>= f) := by
  intro w hw
  have h1 := hm w hw
  rw [bind_run]
  unfold Act.bind
  cases h : m w with
  | mk r w1 =>
    rw [h] at h1
    cases r with
    | ok a =>
      cases hc : w1.inChild with
      | false => exact hf a w1 hc
      | true => exact (h1 hc).elim
    | throw e => exact fun _ => trivial
    | exit c => exact h1
    | replaced => exact fun _ => trivial
    | hang => exact h1

theorem csafe_tryCatchE {α : Type} {m : Act α} {h : STSHException → Act α} (hm : ChildSafe m)
    (hh : ∀ e w, (h e w).1.ends) : ChildSafe (tryCatchE m h) := by
  intro w hw
  have h1 := hm w hw
  unfold tryCatchE
  cases hmw : m w with
  | mk r w1 =>
    rw [hmw] at h1
    cases r with
    | throw e => exact fun _ => hh e w1
    | ok a => exact h1
    | exit c => exact h1
    | replaced => exact h1
    | hang => exact h1

theorem csafe_startProcess (job : Nat) (c : command) (input_fd output_fd : Int)
    (inForeground : Bool) : ChildSafe (startProcess job c input_fd output_fd inForeground) := by
  intro w hw
  rw [startProcess_run]
  by_cases h : w.nextAnswer < 0
  · simp only [h, if_true]
    intro hc
    simp [World.push, hw] at hc
  · by_cases h0 : w.nextAnswer = 0
    · simp only [h, h0, if_false, if_true]
      exact fun _ => startProcessChild_ends _ _ _ _ _ _
    · simp only [h, h0, if_false]
      intro hc
      have hk := steps_startProcessParent inChild_traceFrame (fun _ _ => trivial)
        (fun _ _ _ => rfl) job c w.nextAnswer (w.push .fork)
      have hk2 : (startProcessParent job c w.nextAnswer (w.push .fork)).2.inChild
          = (w.push .fork).inChild := hk
      rw [hk2] at hc
      simp [World.push, hw] at hc

theorem csafe_createJobLoop (job : Nat) (p : pipeline) (cmds : List command) :
    ∀ prev_input_fd, ChildSafe (createJobLoop job p cmds prev_input_fd) := by
  induction cmds with
  | nil =>
    intro prev
    exact csafe_of_steps (fun w => rfl)
  | cons c rest ih =>
    intro prev
    rw [createJobLoop_cons]
    refine csafe_bind (csafe_of_steps (steps_openOutput inChild_traceFrame trivial
      (fun _ _ => trivial) (fun _ => trivial) p rest)) (fun x => ?_)
    refine csafe_bind ?_ (fun _ => ?_)
    · exact csafe_tryCatchE (csafe_startProcess _ _ _ _ _) (cleanupHandler_ends _ _)
    · exact csafe_bind (csafe_of_steps (steps_closeParentEnds inChild_traceFrame
        (fun _ => trivial) _ _)) (fun _ => ih _)

theorem steps_createJobHead {R : World → World → Prop} {A : SysCall → Prop}
    (T : TraceFrame R A) (ho : ∀ path, A (.openRead path)) (ht : ∀ a, A (.tcgetpgrp a))
    (hblock : ∀ w sig, R w (blockSignal sig w).2)
    (haddJob : ∀ (w : World) (s : STSHJobState),
      R w { w with joblist := (w.joblist.addJob s).2 })
    (p : pipeline) : Steps R (createJobHead p) := by
  intro w
  have h0 : createJobHead p w =
      ((if readFromStdin p then Act.pure STDIN_FILENO else open_errchk p.input false)
          >>= fun pipeline_input_fd =>
        blockSignal SIGCHLD >>= fun _ =>
        (if readFromStdin p ∧ !p.background then tcgetpgrp_errchk pipeline_input_fd
          else Act.pure (-1)) >>= fun orig_pgrp =>
        (pure ((w.joblist.addJob (if p.background then .kBackground else .kForeground)).1,
          pipeline_input_fd, orig_pgrp) : Act (Nat × Int × Int)))
        { w with joblist :=
            (w.joblist.addJob (if p.background then .kBackground else .kForeground)).2 } := rfl
  rw [h0]
  refine T.frame.trans _ _ _
    (haddJob w (if p.background then .kBackground else .kForeground)) ?_
  refine steps_bind T.frame ?_ (fun fd => ?_) _
  · apply steps_ite
    · exact steps_Act_pure T.frame _
    · exact steps_open_errchk T.frame _ _ (tf_push T _ (ho _))
  · refine steps_bind T.frame (fun w => hblock w SIGCHLD) (fun _ => ?_)
    refine steps_bind T.frame ?_ (fun _ => steps_pure T.frame _)
    apply steps_ite
    · exact steps_tcgetpgrp_errchk T.frame _ (tf_push T _ (ht _))
    · exact steps_Act_pure T.frame _

theorem steps_createJobTail {R : World → World → Prop} {A : SysCall → Prop}
    (T : TraceFrame R A) (hs : A .sigsuspend) (hw : A .waitpid) (hk : ∀ g s, A (.killpg g s))
    (he : A (.exit 0)) (ht : ∀ a b, A (.tcsetpgrp a b)) (hp : ∀ n l, A (.printJobStarted n l))
    (hrec : ∀ (w : World) (pid : Int) (st : STSHProcessState) (job : STSHJob),
      w.joblist.getJobWithProcess pid = some job →
      R w { w with joblist :=
        (w.joblist.modifyJob job.num (fun j => j.setProcessState pid st)).synchronize job.num })
    (hunblock : ∀ w sig, R w (unblockSignal sig w).2)
    (p : pipeline) (job : Nat) (pipeline_input_fd orig_pgrp : Int) :
    Steps R (createJobTail p job pipeline_input_fd orig_pgrp) := by
  unfold createJobTail
  refine steps_bind T.frame ?_ (fun _ => fun w => hunblock w SIGCHLD)
  apply steps_ite
  · apply steps_ite
    · exact steps_waitForForeground T hs hw hk he hrec
    · refine steps_bind T.frame (fun w => T.frame.refl w) (fun g => ?_)
      refine steps_bind T.frame
        (steps_tcsetpgrp_errchk T.frame _ _ (tf_push T _ (ht _ _))) (fun _ => ?_)
      refine steps_bind T.frame (steps_waitForForeground T hs hw hk he hrec) (fun _ => ?_)
      exact steps_bind T.frame (steps_tcsetpgrp_errchk T.frame _ _ (tf_push T _ (ht _ _)))
        (fun _ => steps_pure T.frame _)
  · unfold printJobStarted
    exact steps_bind T.frame (steps_getJoblist T.frame) (fun jl => tf_emit T _ _ (hp _ _))

theorem csafe_createJob (p : pipeline) : ChildSafe (createJob p) := by
  rw [createJob_eq]
  refine csafe_bind (csafe_of_steps (steps_createJobHead inChild_traceFrame (fun _ => trivial)
    (fun _ => trivial) (fun _ _ => rfl) (fun _ _ => rfl) p)) (fun x => ?_)
  refine csafe_bind (csafe_createJobLoop _ _ _ _) (fun _ => ?_)
  exact csafe_of_steps (steps_createJobTail inChild_traceFrame trivial trivial
    (fun _ _ => trivial) trivial (fun _ _ => trivial) (fun _ _ => trivial)
    (fun _ _ _ _ _ => rfl) (fun _ _ => rfl) p _ _ _)

theorem csafe_handleBuiltin (parseNumber : String → Option Nat) (p : pipeline) :
    Steps (keeps (fun w => w.inChild)) (handleBuiltin parseNumber p) :=
  steps_handleBuiltin inChild_traceFrame trivial trivial (fun _ _ => trivial) trivial
    (fun _ _ => trivial) (fun _ => trivial) (fun _ _ _ _ _ => rfl) (fun _ _ => rfl)
    (fun _ _ => rfl) (fun _ _ _ => rfl) parseNumber p

theorem main_catch_child (body : Act Unit) (w : World)
    (h1 : (body w).2.inChild = true → (body w).1.ends)
    (hc : (tryCatchE body (fun e => do
          emit (.printError e) 0
          if (← (fun w => (.ok w.inChild, w) : Act Bool)) then exitE 0 else pure ()) w).2.inChild
        = true) :
    (tryCatchE body (fun e => do
          emit (.printError e) 0
          if (← (fun w => (.ok w.inChild, w) : Act Bool)) then exitE 0 else pure ()) w).1
        = .exit 0 ∨
    (tryCatchE body (fun e => do
          emit (.printError e) 0
          if (← (fun w => (.ok w.inChild, w) : Act Bool)) then exitE 0 else pure ()) w).1
        = .replaced := by
  revert h1 hc
  unfold tryCatchE
  cases hb : body w with
  | mk r w1 =>
    intro h1 hc
    cases r with
    | throw e =>
      cases hi : w1.inChild with
      | true =>
        left
        simp [bind_run, Act.bind, emit, hi, exitE]
      | false =>
        simp [bind_run, Act.bind, emit, hi, pure_run] at hc
    | ok a => exact (h1 hc).elim
    | exit c =>
      left
      have := h1 hc
      simp only [Res.ends] at this
      subst this
      rfl
    | replaced => exact Or.inr rfl
    | hang => exact (h1 hc).elim

theorem mainStep_child (parseNumber : String → Option Nat) (p : pipeline) (w : World)
    (hw : w.inChild = false) (hc : (mainStep parseNumber p w).2.inChild = true) :
    (mainStep parseNumber p w).1 = .exit 0 ∨ (mainStep parseNumber p w).1 = .replaced := by
  have hbody : ChildSafe (handleBuiltin parseNumber p >>= fun builtin =>
      if !builtin then createJob p else (pure () : Act Unit)) := by
    refine csafe_bind (csafe_of_steps (csafe_handleBuiltin parseNumber p)) (fun b => ?_)
    split
    · exact csafe_createJob p
    · exact csafe_of_steps (fun _ => rfl)
  exact main_catch_child _ w (hbody w hw) hc

/-- C18 (as stated, refuted): the child forked for `nosuch`, whose `execvp` fails.
`startProcess` does not end the child: it throws, in the child. The exception
passes the catch block of `createJob`, which closes the two descriptors, and
reaches the catch in `main`, which prints it and calls `exit(0)`. -/
theorem child_exec_failure_propagates :
    (startProcess 1 (mkCommand "nosuch" []) 0 1 true
        { initialWorld with rets := [0, 77, 0, 0, -1] }).1
      = .throw (.commandNotFound "nosuch") ∧
    (startProcess 1 (mkCommand "nosuch" []) 0 1 true
        { initialWorld with rets := [0, 77, 0, 0, -1] }).2.inChild = true ∧
    (mainStep decimalNumber (mkLine "nosuch" [])
        { initialWorld with rets := [50, 0, 77, 0, 0, -1, 0, 0] }).2.trace.map (fun e => e.call)
      = [.sigprocmaskBlock SIGCHLD, .tcgetpgrp 0, .fork, .sigprocmaskUnblock SIGCHLD, .getpid,
         .setpgid 77 77, .tcsetpgrp 0 77, .execvp "nosuch", .close 0, .close 1,
         .printError (.commandNotFound "nosuch"), .exit 0] := by
  refine ⟨?_, ?_, ?_⟩ <;> decide!

/-- C18 (amended): while running as the forked child, `startProcess` and `createJob`
never return normally: they throw, or the process has ended with `exit(0)`, or
the program has been replaced by `execvp`. The round of the loop of `main` in
which the child was forked ends, in the child, with `exit(0)` (called in the
catch of `main` for a failure) or with the program replaced: the child never
goes back to reading lines. -/
theorem child_failure_ends_in_main (parseNumber : String → Option Nat) (p : pipeline)
    (job : Nat) (c : command) (input_fd output_fd : Int) (inForeground : Bool) (w : World)
    (hw : w.inChild = false) :
    ((startProcess job c input_fd output_fd inForeground w).2.inChild = true →
      (∃ e, (startProcess job c input_fd output_fd inForeground w).1 = .throw e) ∨
      (startProcess job c input_fd output_fd inForeground w).1 = .exit 0 ∨
      (startProcess job c input_fd output_fd inForeground w).1 = .replaced) ∧
    ((createJob p w).2.inChild = true →
      (∃ e, (createJob p w).1 = .throw e) ∨ (createJob p w).1 = .exit 0 ∨
      (createJob p w).1 = .replaced) ∧
    ((mainStep parseNumber p w).2.inChild = true →
      (mainStep parseNumber p w).1 = .exit 0 ∨ (mainStep parseNumber p w).1 = .replaced) :=
  ⟨fun h => (ends_iff _).mp (csafe_startProcess job c input_fd output_fd inForeground w hw h),
   fun h => (ends_iff _).mp (csafe_createJob p w hw h),
   mainStep_child parseNumber p w hw⟩

theorem child_failure_ends_in_main_witness :
    ({ initialWorld with rets := [50, 0, 77, 0, 0, -1, 0, 0] } : World).inChild = false ∧
    ((mainStep decimalNumber (mkLine "nosuch" [])
        { initialWorld with rets := [50, 0, 77, 0, 0, -1, 0, 0] }).1 = .exit 0 ∨
     (mainStep decimalNumber (mkLine "nosuch" [])
        { initialWorld with rets := [50, 0, 77, 0, 0, -1, 0, 0] }).1 = .replaced) :=
  ⟨rfl, (child_failure_ends_in_main decimalNumber (mkLine "nosuch" []) 1
    (mkCommand "nosuch" []) 0 1 true { initialWorld with rets := [50, 0, 77, 0, 0, -1, 0, 0] }
    rfl).2.2 (by decide!)⟩

theorem bind_ok {α β : Type} (m : Act α) (f : α → Act β) (w w1 : World) (b : β)
    (h : (m >>= f) w = (.ok b, w1)) : ∃ a w0, m w = (.ok a, w0) ∧ f a w0 = (.ok b, w1) := by
  rw [bind_run] at h
  unfold Act.bind at h
  cases hm : m w with
  | mk r w0 =>
    rw [hm] at h
    cases r with
    | ok a => exact ⟨a, w0, rfl, h⟩
    | throw e => simp at h
    | exit c => simp at h
    | replaced => simp at h
    | hang => simp at h

theorem openOutput_ok (p : pipeline) (rest : List command) (w w1 : World) (x : (Int × Int) × Int)
    (h : openOutput p rest w = (.ok x, w1)) :
    w1.joblist = w.joblist ∧ w1.blocked = w.blocked ∧ w1.inChild = w.inChild ∧
    ∃ a : Int, 0 ≤ a ∧ (rest ≠ [] → x.2 = x.1.2) ∧
      (rest = [] → p.output.length = 0 → x.2 = STDOUT_FILENO) ∧
      (rest = [] → p.output.length ≠ 0 → 0 ≤ x.2) ∧
      w1.trace = w.trace ++ openEvents p rest a x.1.1 x.1.2 x.2 := by
  unfold openOutput at h
  by_cases hr : rest ≠ []
  · simp only [hr, if_true, ne_eq, not_false_eq_true] at h
    obtain ⟨fds, w0, h1, h2⟩ := bind_ok _ _ _ _ _ h
    rw [pipe2_errchk_run] at h1
    have h3 : (x, w1) = ((fds, fds.2), w0) := by
      have : (Res.ok x, w1) = (Res.ok (fds, fds.2), w0) := h2.symm.trans rfl
      simpa using this
    by_cases hlt : w.nextAnswer < 0
    · simp [hlt] at h1
    · simp only [hlt, if_false, Prod.mk.injEq, Res.ok.injEq] at h1
      obtain ⟨hfds, hw0⟩ := h1
      simp only [Prod.mk.injEq] at h3
      obtain ⟨hx, hw1⟩ := h3
      subst hw1 hx
      subst hw0
      refine ⟨rfl, rfl, rfl, w.nextAnswer, not_lt.mp hlt, fun _ => rfl,
        fun h0 => absurd h0 hr, fun h0 => absurd h0 hr, ?_⟩
      simp [openEvents, hr, World.push, ← hfds]
  · have hr' : rest = [] := by simpa using hr
    subst hr'
    simp only [ne_eq, not_true_eq_false, if_false] at h
    by_cases ho : p.output.length = 0
    · simp only [ho, if_true] at h
      have : (Res.ok x, w1) = (Res.ok (((0 : Int), (0 : Int)), STDOUT_FILENO), w) := h.symm.trans rfl
      simp only [Prod.mk.injEq, Res.ok.injEq] at this
      obtain ⟨hx, hw1⟩ := this
      subst hw1 hx
      refine ⟨rfl, rfl, rfl, 0, le_refl _, fun h0 => absurd rfl h0, fun _ _ => rfl,
        fun _ h0 => absurd ho h0, ?_⟩
      simp [openEvents, ho]
    · simp only [ho, if_false] at h
      have h1 : (open_errchk p.output true >>= fun output_fd =>
          (pure (((0 : Int), (0 : Int)), output_fd) : Act ((Int × Int) × Int))) w = (.ok x, w1) := h
      obtain ⟨fd, w0, h2, h3⟩ := bind_ok _ _ _ _ _ h1
      rw [open_errchk_run] at h2
      have h4 : (Res.ok x, w1) = (Res.ok (((0 : Int), (0 : Int)), fd), w0) := h3.symm.trans rfl
      simp only [Prod.mk.injEq, Res.ok.injEq] at h4
      obtain ⟨hx, hw1⟩ := h4
      by_cases hlt : w.nextAnswer < 0
      · simp [hlt] at h2
      · simp only [hlt, if_false, Prod.mk.injEq, Res.ok.injEq, if_true] at h2
        obtain ⟨hfd, hw0⟩ := h2
        subst hw1 hx
        subst hw0 hfd
        refine ⟨rfl, rfl, rfl, 0, le_refl _, fun h0 => absurd rfl h0, fun _ h0 => absurd h0 ho,
          fun _ _ => not_lt.mp hlt, ?_⟩
        simp [openEvents, ho, World.push]

theorem ends_not_ok {α : Type} (r : Res α) (a : α) (h : r.ends) : r ≠ .ok a := by
  intro h1
  subst h1
  exact h

theorem startOrCleanup_ok (job : Nat) (p : pipeline) (c : command) (prev out : Int)
    (w w2 : World) (h : startOrCleanup job p c prev out w = (.ok (), w2)) :
    ∃ pid b : Int, 0 < pid ∧ 0 ≤ b ∧
      w2.joblist = w.joblist.modifyJob job (fun j => j.addProcess (STSHProcess.create pid c)) ∧
      w2.blocked = w.blocked ∧ w2.inChild = w.inChild ∧
      w2.trace = w.trace ++
        [{ call := .fork, ret := pid },
         { call := .setpgid pid ((w.addProcess job (STSHProcess.create pid c)).groupOf job),
           ret := b }] := by
  unfold startOrCleanup tryCatchE at h
  rw [startProcess_run] at h
  by_cases hlt : w.nextAnswer < 0
  · simp only [hlt, if_true] at h
    have := cleanupHandler_ends prev out .forkFailed (w.push .fork)
    rw [h] at this
    exact this.elim
  · by_cases h0 : w.nextAnswer = 0
    · simp only [hlt, h0, if_false, if_true] at h
      have hc := startProcessChild_ends job c prev out (!p.background)
        { w.push .fork with inChild := true }
      revert h hc
      simp only [h0, lt_self_iff_false, if_false, if_true]
      cases startProcessChild job c prev out (!p.background)
          { w.push .fork with inChild := true } with
      | mk r w1 =>
        intro h hc
        cases r with
        | ok a => exact hc.elim
        | throw e =>
          have := cleanupHandler_ends prev out e w1
          simp only at h
          rw [h] at this
          exact this.elim
        | exit code => simp at h
        | replaced => simp at h
        | hang => simp at h
    · simp only [hlt, h0, if_false] at h
      rw [startProcessParent_run] at h
      by_cases hs : (w.push .fork).nextAnswer < 0
      · simp only [hs, if_true] at h
        have := cleanupHandler_ends prev out (.setpgidFailed w.nextAnswer)
          (((w.push .fork).addProcess job (STSHProcess.create w.nextAnswer c)).push
            (.setpgid w.nextAnswer
              (((w.push .fork).addProcess job
                (STSHProcess.create w.nextAnswer c)).groupOf job)))
        rw [h] at this
        exact this.elim
      · simp only [hs, if_false, Prod.mk.injEq, true_and] at h
        refine ⟨w.nextAnswer, (w.push .fork).nextAnswer,
          lt_of_le_of_ne (not_lt.mp hlt) (fun h1 => h0 h1.symm), not_lt.mp hs, ?_, ?_, ?_, ?_⟩
        · rw [← h]; rfl
        · rw [← h]; rfl
        · rw [← h]; rfl
        · rw [← h]
          simp [World.push, World.addProcess, World.groupOf, World.nextAnswer]

theorem close_errchk_ok (fd : Int) (w w1 : World) (a : Int)
    (h : close_errchk fd w = (.ok a, w1)) : 0 ≤ a ∧ a = w.nextAnswer ∧ w1 = w.push (.close fd) := by
  rw [close_errchk_run] at h
  by_cases hlt : w.nextAnswer < 0
  · simp [hlt] at h
  · simp only [hlt, if_false, Prod.mk.injEq, Res.ok.injEq] at h
    exact ⟨h.1 ▸ not_lt.mp hlt, h.1.symm, h.2.symm⟩

theorem closeParentEnds_ok (prev out : Int) (w w3 : World)
    (h : closeParentEnds prev out w = (.ok (), w3)) :
    w3.joblist = w.joblist ∧ w3.blocked = w.blocked ∧ w3.inChild = w.inChild ∧
    ∃ c1 c2 : Int, 0 ≤ c1 ∧ 0 ≤ c2 ∧ w3.trace = w.trace ++ closeEvents prev out c1 c2 := by
  unfold closeParentEnds at h
  obtain ⟨_, w1, h1, h2⟩ := bind_ok _ _ _ _ _ h
  have first : w1.joblist = w.joblist ∧ w1.blocked = w.blocked ∧ w1.inChild = w.inChild ∧
      ∃ c1 : Int, 0 ≤ c1 ∧ w1.trace = w.trace ++
        (if prev ≠ STDIN_FILENO then [{ call := .close prev, ret := c1 }] else []) := by
    by_cases hp : prev ≠ STDIN_FILENO
    · simp only [hp, if_true, ne_eq, not_false_eq_true] at h1 ⊢
      obtain ⟨a, w0, h3, h4⟩ := bind_ok _ _ _ _ _ h1
      obtain ⟨ha, _, hw0⟩ := close_errchk_ok _ _ _ _ h3
      have : w1 = w0 := by
        have : (Res.ok (), w1) = (Res.ok (), w0) := h4.symm.trans rfl
        simpa using this
      subst this
      subst hw0
      exact ⟨rfl, rfl, rfl, w.nextAnswer, by rwa [← ‹a = w.nextAnswer›], rfl⟩
    · simp only [hp, if_false] at h1 ⊢
      have : w1 = w := by
        have : (Res.ok (), w1) = (Res.ok (), w) := h1.symm.trans rfl
        simpa using this
      subst this
      exact ⟨rfl, rfl, rfl, 0, le_refl _, by simp⟩
  have second : w3.joblist = w1.joblist ∧ w3.blocked = w1.blocked ∧ w3.inChild = w1.inChild ∧
      ∃ c2 : Int, 0 ≤ c2 ∧ w3.trace = w1.trace ++
        (if out ≠ STDOUT_FILENO then [{ call := .close out, ret := c2 }] else []) := by
    by_cases hp : out ≠ STDOUT_FILENO
    · simp only [hp, if_true, ne_eq, not_false_eq_true] at h2 ⊢
      obtain ⟨a, w0, h3, h4⟩ := bind_ok _ _ _ _ _ h2
      obtain ⟨ha, _, hw0⟩ := close_errchk_ok _ _ _ _ h3
      have : w3 = w0 := by
        have : (Res.ok (), w3) = (Res.ok (), w0) := h4.symm.trans rfl
        simpa using this
      subst this
      subst hw0
      exact ⟨rfl, rfl, rfl, w1.nextAnswer, by rwa [← ‹a = w1.nextAnswer›], rfl⟩
    · simp only [hp, if_false] at h2 ⊢
      have : w3 = w1 := by
        have : (Res.ok (), w3) = (Res.ok (), w1) := h2.symm.trans rfl
        simpa using this
      subst this
      exact ⟨rfl, rfl, rfl, 0, le_refl _, by simp⟩
  obtain ⟨a1, a2, a3, c1, hc1, ht1⟩ := first
  obtain ⟨b1, b2, b3, c2, hc2, ht2⟩ := second
  refine ⟨b1.trans a1, b2.trans a2, b3.trans a3, c1, c2, hc1, hc2, ?_⟩
  rw [ht2, ht1, closeEvents, List.append_assoc]

theorem createJobLoop_ok_step (job : Nat) (p : pipeline) (c : command) (rest : List command)
    (prev : Int) (w w1 : World)
    (h : createJobLoop job p (c :: rest) prev w = (.ok (), w1)) :
    ∃ (out next pid : Int) (w3 : World), IterOk job p c rest prev w w3 out next pid ∧
      createJobLoop job p rest next w3 = (.ok (), w1) := by
  rw [createJobLoop_cons] at h
  obtain ⟨x, wa, h1, h2⟩ := bind_ok _ _ _ _ _ h
  obtain ⟨_, wb, h3, h4⟩ := bind_ok _ _ _ _ _ h2
  obtain ⟨_, wc, h5, h6⟩ := bind_ok _ _ _ _ _ h4
  obtain ⟨ja, ba, ia, a, ha, hx1, hx2, hx3, hta⟩ := openOutput_ok _ _ _ _ _ h1
  obtain ⟨pid, b, hpid, hb, jb, bb, ib, htb⟩ := startOrCleanup_ok _ _ _ _ _ _ _ h3
  obtain ⟨jc, bc, ic, c1, c2, hc1, hc2, htc⟩ := closeParentEnds_ok _ _ _ _ h5
  refine ⟨x.2, if rest ≠ [] then x.1.1 else prev, pid, wc, ?_, h6⟩
  have hg : (wa.addProcess job (STSHProcess.create pid c)).groupOf job =
      (w.addProcess job (STSHProcess.create pid c)).groupOf job := by
    simp [World.addProcess, World.groupOf, ja]
  refine ⟨hpid, ?_, bc.trans (bb.trans ba), ic.trans (ib.trans ia), ?_, ?_⟩
  · rw [jc, jb, ja]
  · constructor
    · by_cases hr : rest ≠ []
      · exact Or.inl hr
      · exact Or.inr (hx2 (by simpa using hr))
    · intro hr
      simp [hr]
  · refine ⟨a, b, c1, c2, x.1.1, x.1.2, ha, hb, hc1, hc2, ?_, hx3, ?_⟩
    · intro hr
      exact ⟨hx1 hr, by simp [hr]⟩
    · rw [htc, htb, hta, hg]
      simp only [List.append_assoc]

theorem modifyJob_modifyJob (l : STSHJobList) (k : Nat) (f g : STSHJob → STSHJob)
    (hf : ∀ j, (f j).num = j.num) :
    (l.modifyJob k f).modifyJob k g = l.modifyJob k (fun j => g (f j)) := by
  simp only [STSHJobList.modifyJob, List.map_map]
  congr 1
  apply List.map_congr_left
  intro j _
  by_cases h : j.num = k
  · simp [h, hf]
  · simp [h]

theorem modifyJob_self (l : STSHJobList) (k : Nat) (f : STSHJob → STSHJob) (hf : ∀ j, f j = j) :
    l.modifyJob k f = l := by
  cases l with
  | mk jobs =>
    simp only [STSHJobList.modifyJob, hf, ite_self, List.map_id']

theorem openEvents_loopCalls (p : pipeline) (rest : List command) (a rd wr out : Int) :
    ∀ e ∈ openEvents p rest a rd wr out, isLoopCall e.call = true := by
  intro e he
  unfold openEvents at he
  split at he
  · simp at he
    rcases he with h | h <;> subst h <;> rfl
  · split at he
    · simp at he
    · simp at he
      subst he
      rfl

theorem closeEvents_loopCalls (prev out c1 c2 : Int) :
    ∀ e ∈ closeEvents prev out c1 c2, isLoopCall e.call = true := by
  intro e he
  unfold closeEvents at he
  simp only [List.mem_append] at he
  rcases he with h | h
  · split at h
    · simp at h; subst h; rfl
    · simp at h
  · split at h
    · simp at h; subst h; rfl
    · simp at h

theorem forkedPids_append (t u : List Event) : forkedPids (t ++ u) = forkedPids t ++ forkedPids u := by
  simp [forkedPids]

theorem setpgidCalls_append (t u : List Event) :
    setpgidCalls (t ++ u) = setpgidCalls t ++ setpgidCalls u := by
  simp [setpgidCalls]

theorem forkedPids_openEvents (p : pipeline) (rest : List command) (a rd wr out : Int) :
    forkedPids (openEvents p rest a rd wr out) = [] := by
  unfold openEvents forkedPids
  split
  · rfl
  · split <;> rfl

theorem forkedPids_closeEvents (prev out c1 c2 : Int) :
    forkedPids (closeEvents prev out c1 c2) = [] := by
  unfold closeEvents forkedPids
  split <;> split <;> rfl

theorem setpgidCalls_openEvents (p : pipeline) (rest : List command) (a rd wr out : Int) :
    setpgidCalls (openEvents p rest a rd wr out) = [] := by
  unfold openEvents setpgidCalls
  split
  · rfl
  · split <;> rfl

theorem setpgidCalls_closeEvents (prev out c1 c2 : Int) :
    setpgidCalls (closeEvents prev out c1 c2) = [] := by
  unfold closeEvents setpgidCalls
  split <;> split <;> rfl

theorem getGroupID_append (j : STSHJob) (ps : List STSHProcess) (q : STSHProcess)
    (zs : List STSHProcess) (h : j.processes = ps ++ [q]) :
    ({ j with processes := j.processes ++ zs } : STSHJob).getGroupID = j.getGroupID := by
  unfold STSHJob.getGroupID
  rw [h]
  cases ps <;> rfl

/-- What a run of the loop of `createJob` that returns normally has done: for the
commands `cmds`, started for the job `job` present in the registry as `j0`. -/
theorem createJobLoop_ok (job : Nat) (p : pipeline) (cmds : List command) :
    ∀ (prev : Int) (w w1 : World) (j0 : STSHJob), w.joblist.getJob job = some j0 →
      createJobLoop job p cmds prev w = (.ok (), w1) →
      ∃ (pids : List Int) (delta : List Event),
        pids.length = cmds.length ∧ (∀ x ∈ pids, 0 < x) ∧
        w1.joblist = w.joblist.modifyJob job (fun j =>
          { j with processes := j.processes ++ List.zipWith STSHProcess.create pids cmds }) ∧
        w1.joblist.getJob job =
          some { j0 with processes := j0.processes ++ List.zipWith STSHProcess.create pids cmds } ∧
        w1.blocked = w.blocked ∧ w1.inChild = w.inChild ∧
        w1.trace = w.trace ++ delta ∧
        forkedPids delta = pids ∧
        setpgidCalls delta = pids.map (fun x => (x, w1.groupOf job)) ∧
        (∀ e ∈ delta, isLoopCall e.call = true) ∧
        (delta.filter (fun e => e.call == .fork)).length = cmds.length := by
  induction cmds with
  | nil =>
    intro prev w w1 j0 hj h
    have hw : w1 = w := by
      have : (Res.ok (), w1) = (Res.ok (), w) := h.symm.trans rfl
      simpa using this
    subst hw
    refine ⟨[], [], rfl, by simp, ?_, ?_, rfl, rfl, by simp, rfl, rfl, by simp, rfl⟩
    · rw [modifyJob_self]
      intro j
      simp
    · rw [hj]
      simp
  | cons c rest ih =>
    intro prev w w1 j0 hj h
    obtain ⟨out, next, pid, w3, hit, hrest⟩ := createJobLoop_ok_step _ _ _ _ _ _ _ h
    have hadd : ∀ j : STSHJob, (j.addProcess (STSHProcess.create pid c)).num = j.num := fun _ => rfl
    have hj3 : w3.joblist.getJob job = some (j0.addProcess (STSHProcess.create pid c)) := by
      rw [hit.joblist, getJob_modifyJob_same _ _ _ hadd, hj]
      rfl
    obtain ⟨pids, delta, hlen, hpos, hjl, hget, hb, hi, htr, hfork, hset, hcalls, hcount⟩ :=
      ih next w3 w1 _ hj3 hrest
    obtain ⟨a, b, c1, c2, rd, wr, ha, hb2, hc1, hc2, _, _, ht3⟩ := hit.trace
    have hget' : w1.joblist.getJob job = some
        { j0 with processes := j0.processes ++ List.zipWith STSHProcess.create (pid :: pids) (c :: rest) } := by
      rw [hget]
      simp [STSHJob.addProcess, List.append_assoc]
    have hgroup : (w.addProcess job (STSHProcess.create pid c)).groupOf job = w1.groupOf job := by
      unfold World.groupOf
      rw [hget]
      have h1 : (w.addProcess job (STSHProcess.create pid c)).joblist.getJob job
          = some (j0.addProcess (STSHProcess.create pid c)) := by
        simp only [World.addProcess]
        rw [getJob_modifyJob_same _ _ _ hadd, hj]
        rfl
      rw [h1]
      simp only [Option.map_some', Option.getD_some]
      exact (getGroupID_append (j0.addProcess (STSHProcess.create pid c)) j0.processes
        (STSHProcess.create pid c) _ rfl).symm
    refine ⟨pid :: pids, openEvents p rest a rd wr out ++
        [{ call := .fork, ret := pid },
         { call := .setpgid pid ((w.addProcess job (STSHProcess.create pid c)).groupOf job),
           ret := b }] ++ closeEvents prev out c1 c2 ++ delta, ?_, ?_, ?_, hget', ?_, ?_, ?_, ?_, ?_, ?_, ?_⟩
    · simp [hlen]
    · intro x hx
      rcases List.mem_cons.mp hx with h1 | h1
      · rw [h1]; exact hit.pid_pos
      · exact hpos x h1
    · rw [hjl, hit.joblist, modifyJob_modifyJob _ _ _ _ hadd]
      congr 1
      funext j
      simp [STSHJob.addProcess, List.append_assoc]
    · rw [hb, hit.blocked]
    · rw [hi, hit.inChild]
    · rw [htr, ht3]
      simp only [List.append_assoc]
    · simp only [forkedPids_append, forkedPids_openEvents, forkedPids_closeEvents, hfork]
      simp [forkedPids, hit.pid_pos]
    · simp only [setpgidCalls_append, setpgidCalls_openEvents, setpgidCalls_closeEvents, hset,
        hgroup]
      simp [setpgidCalls]
    · intro e he
      simp only [List.mem_append, List.mem_cons, List.mem_singleton, List.not_mem_nil,
        or_false] at he
      rcases he with ((h1 | h1 | h1) | h1) | h1
      · exact openEvents_loopCalls _ _ _ _ _ _ e h1
      · subst h1; rfl
      · subst h1; rfl
      · exact closeEvents_loopCalls _ _ _ _ e h1
      · exact hcalls e h1
    · have ho : (openEvents p rest a rd wr out).filter (fun e => e.call == .fork) = [] := by
        unfold openEvents
        split
        · rfl
        · split <;> rfl
      have hc : (closeEvents prev out c1 c2).filter (fun e => e.call == .fork) = [] := by
        unfold closeEvents
        split <;> split <;> rfl
      simp only [List.filter_append, List.length_append, hcount, ho, hc]
      simp [List.filter_cons]
      omega

theorem createJob_start_tail (p : pipeline) :
    createJob p = createJobStart p >>= fun x => createJobTail p x.1 x.2.1 x.2.2 := by
  rw [createJob_eq]
  unfold createJobStart
  simp only [act_bind_assoc, act_pure_bind]

theorem errchk_ok {α : Type} (m : Act α) (c : SysCall) (e : STSHException) (w w1 : World)
    (k : Int → α) (a : α)
    (hrun : m w = if w.nextAnswer < 0 then (.throw e, w.push c) else (.ok (k w.nextAnswer), w.push c))
    (h : m w = (.ok a, w1)) : 0 ≤ w.nextAnswer ∧ a = k w.nextAnswer ∧ w1 = w.push c := by
  rw [hrun] at h
  by_cases hlt : w.nextAnswer < 0
  · simp [hlt] at h
  · simp only [hlt, if_false, Prod.mk.injEq, Res.ok.injEq] at h
    exact ⟨not_lt.mp hlt, h.1.symm, h.2.symm⟩

theorem open_errchk_ok (path : String) (b : Bool) (w w1 : World) (a : Int)
    (h : open_errchk path b w = (.ok a, w1)) :
    0 ≤ a ∧ a = w.nextAnswer ∧ w1 = w.push (if b then .openWrite path else .openRead path) := by
  obtain ⟨h1, h2, h3⟩ := errchk_ok _ _ _ w w1 (fun x => x) a (open_errchk_run path b w) h
  exact ⟨h2 ▸ h1, h2, h3⟩

theorem tcgetpgrp_errchk_ok (fd : Int) (w w1 : World) (a : Int)
    (h : tcgetpgrp_errchk fd w = (.ok a, w1)) :
    0 ≤ a ∧ a = w.nextAnswer ∧ w1 = w.push (.tcgetpgrp fd) := by
  obtain ⟨h1, h2, h3⟩ := errchk_ok _ _ _ w w1 (fun x => x) a (tcgetpgrp_errchk_run fd w) h
  exact ⟨h2 ▸ h1, h2, h3⟩

theorem tcsetpgrp_errchk_ok (fd g : Int) (w w1 : World) (a : Int)
    (h : tcsetpgrp_errchk fd g w = (.ok a, w1)) :
    0 ≤ a ∧ a = w.nextAnswer ∧ w1 = w.push (.tcsetpgrp fd g) := by
  obtain ⟨h1, h2, h3⟩ := errchk_ok _ _ _ w w1 (fun x => x) a (tcsetpgrp_errchk_run fd g w) h
  exact ⟨h2 ▸ h1, h2, h3⟩

theorem ok_eq {α : Type} {a b : α} {w w1 : World} (h : ((Res.ok a : Res α), w) = (.ok b, w1)) :
    a = b ∧ w = w1 := by
  simpa using h

/-- The first part of `createJob` when it gets through: the job is added under the
next free id, then the input file is opened, then SIGCHLD is blocked, then the
owner of the terminal is looked up. -/
theorem createJobHead_ok (p : pipeline) (w w1 : World) (x : Nat × Int × Int)
    (h : createJobHead p w = (.ok x, w1)) :
    x.1 = w.joblist.nextNum ∧
    w1.joblist = (w.joblist.addJob (placementOf p)).2 ∧
    w1.blocked = true ∧ w1.inChild = w.inChild ∧
    (readFromStdin p = true → x.2.1 = STDIN_FILENO) ∧
    (readFromStdin p = false → 0 ≤ x.2.1) ∧
    (readFromStdin p = true → p.background = false → 0 ≤ x.2.2) ∧
    w1.trace = w.trace ++ headEvents p x.2.1 x.2.2 := by
  unfold createJobHead at h
  obtain ⟨jl, w2, h1, h⟩ := bind_ok _ _ _ _ _ h
  obtain ⟨hjl, hw2⟩ := ok_eq (h1.symm.trans rfl : (Res.ok jl, w2) = (Res.ok w.joblist, w)).symm
  subst hw2
  obtain ⟨u, w3, h2, h⟩ := bind_ok _ _ _ _ _ h
  have hw3 : w3 = { w with joblist := (jl.addJob (placementOf p)).2 } :=
    ((ok_eq (h2.symm.trans rfl :
      (Res.ok u, w3) = (Res.ok (), { w with joblist := (jl.addJob (placementOf p)).2 }))).2)
  obtain ⟨fd, w4, h3, h⟩ := bind_ok _ _ _ _ _ h
  obtain ⟨u2, w5, h4, h⟩ := bind_ok _ _ _ _ _ h
  obtain ⟨orig, w6, h5, h⟩ := bind_ok _ _ _ _ _ h
  obtain ⟨hx, hw1⟩ := ok_eq (h.symm.trans rfl :
    (Res.ok x, w1) = (Res.ok ((jl.addJob (if p.background then .kBackground else .kForeground)).1,
      fd, orig), w6))
  have hw5 : w5.joblist = w4.joblist ∧ w5.blocked = true ∧ w5.inChild = w4.inChild ∧
      w5.trace = w4.trace ++ [{ call := .sigprocmaskBlock SIGCHLD, ret := 0 }] := by
    have h6 := (ok_eq (h4.symm.trans rfl : (Res.ok u2, w5) = (Res.ok (), (blockSignal SIGCHLD w4).2))).2
    rw [h6]
    exact ⟨rfl, rfl, rfl, rfl⟩
  subst hw1 hx hjl
  clear h
  obtain ⟨hj5, hb5, hi5, ht5⟩ := hw5
  have h34 : w4.joblist = w3.joblist ∧ w4.inChild = w3.inChild ∧
      (readFromStdin p = true → fd = STDIN_FILENO) ∧ (readFromStdin p = false → 0 ≤ fd) ∧
      w4.trace = w3.trace ++
        (if readFromStdin p then [] else [{ call := .openRead p.input, ret := fd }]) := by
    cases hr : readFromStdin p
    · simp only [hr, if_false, Bool.false_eq_true] at h3
      obtain ⟨ha, hb, hc⟩ := open_errchk_ok _ _ _ _ _ h3
      subst hc
      refine ⟨rfl, rfl, fun h0 => by simp at h0, fun _ => ha, ?_⟩
      simp [World.push, hb]
    · simp only [hr, if_true] at h3
      obtain ⟨ha, hb⟩ := ok_eq (h3.symm.trans rfl : (Res.ok fd, w4) = (Res.ok STDIN_FILENO, w3))
      subst hb
      exact ⟨rfl, rfl, fun _ => ha, fun h0 => by simp at h0, by simp⟩
  have h56 : w1.joblist = w5.joblist ∧ w1.inChild = w5.inChild ∧ w1.blocked = w5.blocked ∧
      (readFromStdin p = true → p.background = false → 0 ≤ orig) ∧
      w1.trace = w5.trace ++
        (if readFromStdin p ∧ !p.background then [{ call := .tcgetpgrp fd, ret := orig }] else []) := by
    by_cases hc : readFromStdin p = true ∧ (!p.background) = true
    · simp only [hc, and_self, if_true] at h5
      obtain ⟨ha, hb, hc2⟩ := tcgetpgrp_errchk_ok _ _ _ _ h5
      subst hc2
      refine ⟨rfl, rfl, rfl, fun _ _ => ha, ?_⟩
      simp [World.push, hb, hc]
    · simp only [hc, if_false] at h5
      obtain ⟨ha, hb⟩ := ok_eq (h5.symm.trans rfl : (Res.ok orig, w1) = (Res.ok (-1), w5))
      subst hb
      refine ⟨rfl, rfl, rfl, fun h1 h2 => absurd ⟨h1, by simp [h2]⟩ hc, ?_⟩
      simp only [hc, if_false, List.append_nil]
  obtain ⟨hj4, hi4, hs4, hf4, ht4⟩ := h34
  obtain ⟨hj6, hi6, hb6, ho6, ht6⟩ := h56
  refine ⟨rfl, ?_, ?_, ?_, hs4, hf4, ho6, ?_⟩
  · rw [hj6, hj5, hj4, hw3]
  · rw [hb6, hb5]
  · rw [hi6, hi5, hi4, hw3]
  · rw [ht6, ht5, ht4, hw3]
    simp only [headEvents, List.append_assoc]

theorem num_lt_nextNum (l : STSHJobList) (j : STSHJob) (h : j ∈ l.jobs) : j.num < l.nextNum := by
  unfold STSHJobList.nextNum
  have key : ∀ (js : List STSHJob), j ∈ js → j.num ≤ (js.map (fun j => j.num)).foldr max 0 := by
    intro js
    induction js with
    | nil => intro h0; simp at h0
    | cons a t ih =>
      intro h0
      simp only [List.map_cons, List.foldr_cons]
      rcases List.mem_cons.mp h0 with h1 | h1
      · subst h1
        exact le_max_left _ _
      · exact le_trans (ih h1) (le_max_right _ _)
  exact Nat.lt_succ_of_le (key _ h)

theorem getJob_append_new (js : List STSHJob) (j : STSHJob) (h : ∀ a ∈ js, a.num ≠ j.num) :
    STSHJobList.getJob { jobs := js ++ [j] } j.num = some j := by
  unfold STSHJobList.getJob
  induction js with
  | nil => simp [List.find?_cons]
  | cons a t ih =>
    have h1 : (a.num == j.num) = false := by simpa using h a (List.mem_cons_self _ _)
    simp only [List.cons_append, List.find?_cons, h1]
    exact ih (fun b hb => h b (List.mem_cons_of_mem _ hb))

theorem modifyJob_append_new (js : List STSHJob) (j : STSHJob) (f : STSHJob → STSHJob)
    (h : ∀ a ∈ js, a.num ≠ j.num) :
    STSHJobList.modifyJob { jobs := js ++ [j] } j.num f = { jobs := js ++ [f j] } := by
  unfold STSHJobList.modifyJob
  simp only [List.map_append, List.map_cons, List.map_nil, if_true, STSHJobList.mk.injEq]
  congr 1
  conv_rhs => rw [← List.map_id js]
  apply List.map_congr_left
  intro a ha
  simp [h a ha]

theorem getGroupID_startedJob (p : pipeline) (num : Nat) (pids : List Int)
    (h : pids.length = p.commands.length) : (startedJob p num pids).getGroupID = pids.headD 0 := by
  unfold STSHJob.getGroupID startedJob
  cases pids with
  | nil => rfl
  | cons a t =>
    cases hc : p.commands with
    | nil => rw [hc] at h; simp at h
    | cons c cs => rfl

theorem createJobStart_ok (p : pipeline) (w w1 : World) (x : Nat × Int × Int)
    (h : createJobStart p w = (.ok x, w1)) : ∃ pids delta, StartOk p w w1 x pids delta := by
  unfold createJobStart at h
  obtain ⟨y, w2, h1, h⟩ := bind_ok _ _ _ _ _ h
  obtain ⟨u, w3, h2, h⟩ := bind_ok _ _ _ _ _ h
  obtain ⟨hx, hw⟩ := ok_eq (h.symm.trans rfl : (Res.ok x, w1) = (Res.ok y, w3))
  subst hw hx
  obtain ⟨hnum, hjl, hb, hi, hs, hin, ho, ht⟩ := createJobHead_ok p w w2 x h1
  have hfresh : ∀ a ∈ w.joblist.jobs, a.num ≠ x.1 := fun a ha => by
    rw [hnum]
    exact Nat.ne_of_lt (num_lt_nextNum _ a ha)
  have hj2 : w2.joblist = { jobs := w.joblist.jobs ++ [startedJob p x.1 []] } := by
    rw [hjl, hnum]
    rfl
  have hget2 : w2.joblist.getJob x.1 = some (startedJob p x.1 []) := by
    rw [hj2]
    exact getJob_append_new _ (startedJob p x.1 []) hfresh
  obtain ⟨pids, delta, hlen, hpos, hjl1, hget1, hb1, hi1, ht1, hfork, hset, hcalls, hcount⟩ :=
    createJobLoop_ok x.1 p p.commands x.2.1 w2 w1 _ hget2 h2
  have hget : w1.joblist.getJob x.1 = some (startedJob p x.1 pids) := by
    rw [hget1]
    simp [startedJob]
  refine ⟨pids, delta, hnum, hlen, hpos, ?_, hget, hb1.trans hb, hi1.trans hi, hs, hin, ho, ?_,
    hfork, ?_, hcalls, hcount⟩
  · rw [hjl1, hj2]
    have := modifyJob_append_new w.joblist.jobs (startedJob p x.1 [])
      (fun j => { j with processes := j.processes ++ List.zipWith STSHProcess.create pids p.commands })
      hfresh
    rw [show (startedJob p x.1 []).num = x.1 from rfl] at this
    rw [this]
    simp [startedJob]
  · rw [ht1, ht, List.append_assoc]
  · rw [hset]
    unfold World.groupOf
    rw [hget]
    simp only [Option.map_some', Option.getD_some, getGroupID_startedJob p x.1 pids hlen]

theorem run_eq_of_fst {α : Type} (m : Act α) (w : World) (a : α) (h : (m w).1 = .ok a) :
    m w = (.ok a, (m w).2) := Prod.ext h rfl

theorem pids_zipWith_create (pids : List Int) :
    ∀ cmds : List command, pids.length = cmds.length →
      (List.zipWith STSHProcess.create pids cmds).map (fun q => q.pid) = pids := by
  induction pids with
  | nil => intro cmds _; rfl
  | cons a t ih =>
    intro cmds h
    cases cmds with
    | nil => simp at h
    | cons c cs =>
      simp only [List.zipWith_cons_cons, List.map_cons, List.cons.injEq]
      exact ⟨rfl, ih cs (by simpa using h)⟩

theorem forkedPids_headEvents (p : pipeline) (a b : Int) : forkedPids (headEvents p a b) = [] := by
  unfold headEvents forkedPids
  split <;> split <;> rfl

theorem setpgidCalls_headEvents (p : pipeline) (a b : Int) :
    setpgidCalls (headEvents p a b) = [] := by
  unfold headEvents setpgidCalls
  split <;> split <;> rfl

/-- C16: when `createJob` has built a job (its loop has run through), the group id
of the job is the pid of the first process forked for it, the processes of the
job are the forked ones in order, and the parent has put every one of them, the
later ones included, into that group with `setpgid(pid, groupId)`. No builtin
(fg, bg, slay, halt, cont) and no run of a signal handler, the reconciler
included, changes the group id of a job of the registry. -/
theorem job_group_id_is_first_pid_and_stays (parseNumber : String → Option Nat) (p q : pipeline)
    (d : Delivery) (w w2 : World) (x : Nat × Int × Int) (h : (createJobStart p w).1 = .ok x) :
    (∃ (job : STSHJob) (pids : List Int) (events : List Event),
      (createJobStart p w).2.trace = w.trace ++ events ∧
      forkedPids events = pids ∧
      (createJobStart p w).2.joblist.getJob x.1 = some job ∧
      job.processes.map (fun q => q.pid) = pids ∧
      job.getGroupID = pids.headD 0 ∧
      setpgidCalls events = pids.map (fun pid => (pid, job.getGroupID))) ∧
    groupIdsKept w2 (handleBuiltin parseNumber q w2).2 ∧
    groupIdsKept w2 (handleSignal d w2).2 := by
  obtain ⟨pids, delta, s⟩ := createJobStart_ok p w _ x (run_eq_of_fst _ _ _ h)
  have hg := getGroupID_startedJob p x.1 pids s.length
  refine ⟨⟨startedJob p x.1 pids, pids, headEvents p x.2.1 x.2.2 ++ delta, s.trace, ?_, s.getJob,
    pids_zipWith_create pids p.commands s.length, hg, ?_⟩,
    builtins_and_reconciler_keep_group_ids parseNumber q d w2⟩
  · rw [forkedPids_append, forkedPids_headEvents, s.forks, List.nil_append]
  · rw [setpgidCalls_append, setpgidCalls_headEvents, s.groups, List.nil_append, hg]

theorem job_group_id_is_first_pid_and_stays_witness :
    (createJobStart threeStage threeStageWorld).1 = .ok (1, 0, -1) ∧
    (∃ (job : STSHJob) (pids : List Int) (events : List Event),
      (createJobStart threeStage threeStageWorld).2.trace = threeStageWorld.trace ++ events ∧
      forkedPids events = pids ∧
      (createJobStart threeStage threeStageWorld).2.joblist.getJob 1 = some job ∧
      job.processes.map (fun q => q.pid) = pids ∧
      job.getGroupID = pids.headD 0 ∧
      setpgidCalls events = pids.map (fun pid => (pid, job.getGroupID))) :=
  ⟨by decide!, (job_group_id_is_first_pid_and_stays decimalNumber threeStage (mkLine "fg" ["1"])
    { sig := SIGCHLD, children := [(100, .exited 0)] } threeStageWorld threeStageWorld (1, 0, -1)
    (by decide!)).1⟩

theorem traceExt_frame (A : SysCall → Bool) : Frame (TraceExt A) where
  refl := fun w => ⟨rfl, rfl, [], by simp, by simp⟩
  trans := by
    rintro a b c ⟨h1, h2, d1, h3, h4⟩ ⟨h5, h6, d2, h7, h8⟩
    refine ⟨h5.trans h1, h6.trans h2, d1 ++ d2, by rw [h7, h3, List.append_assoc], ?_⟩
    intro e he
    rcases List.mem_append.mp he with h | h
    · exact h4 e h
    · exact h8 e h

theorem traceExt_traceFrame (A : SysCall → Bool) :
    TraceFrame (TraceExt A) (fun c => A c = true) where
  frame := traceExt_frame A
  emit := by
    intro w c r rs ds hc
    refine ⟨rfl, rfl, [{ call := c, ret := r }], rfl, ?_⟩
    intro e he
    rw [List.mem_singleton.mp he]
    exact hc
  skip := fun w rs ds => ⟨rfl, rfl, [], by simp, by simp⟩

theorem traceExt_of_eq (A : SysCall → Bool) (w w1 : World) (hb : w1.blocked = w.blocked)
    (hi : w1.inChild = w.inChild) (ht : w1.trace = w.trace) : TraceExt A w w1 :=
  ⟨hb, hi, [], by simp [ht], by simp⟩

theorem waitForForeground_ext (w : World) : TraceExt isWaitCall w (waitForForeground w).2 :=
  steps_waitForForeground (traceExt_traceFrame isWaitCall) rfl rfl (fun _ _ => rfl) rfl
    (fun w _ _ _ _ => traceExt_of_eq _ w _ rfl rfl rfl) w

theorem waitLoop_ok (ds : List Delivery) :
    ∀ (w w1 : World) (u : Unit), waitLoop ds w = (.ok u, w1) →
      w1.joblist.hasForegroundJob = false := by
  induction ds with
  | nil =>
    intro w w1 u h
    unfold waitLoop at h
    by_cases hf : w.joblist.hasForegroundJob = true
    · simp [hf] at h
    · simp only [hf, if_false, Bool.false_eq_true] at h
      obtain ⟨_, hw⟩ := ok_eq h
      rw [← hw]
      simpa using hf
  | cons d rest ih =>
    intro w w1 u h
    unfold waitLoop at h
    by_cases hf : w.joblist.hasForegroundJob = true
    · simp only [hf, if_true] at h
      obtain ⟨_, w2, _, h2⟩ := bind_ok _ _ _ _ _ h
      obtain ⟨_, w3, _, h3⟩ := bind_ok _ _ _ _ _ h2
      exact ih _ _ _ h3
    · simp only [hf, if_false, Bool.false_eq_true] at h
      obtain ⟨_, hw⟩ := ok_eq h
      rw [← hw]
      simpa using hf

theorem waitForForeground_ok (w w1 : World) (u : Unit) (h : waitForForeground w = (.ok u, w1)) :
    w1.joblist.hasForegroundJob = false ∧ TraceExt isWaitCall w w1 := by
  refine ⟨waitLoop_ok _ _ _ _ h, ?_⟩
  have := waitForForeground_ext w
  rw [h] at this
  exact this

theorem jobGroupID_run (job : Nat) (w : World) : jobGroupID job w = (.ok (w.groupOf job), w) := rfl

theorem terminalOwner_restored (t : List Event) (fd pgrp r : Int) (c : SysCall) (r2 : Int)
    (hr : 0 ≤ r) (hc : ∀ a b, c ≠ .tcsetpgrp a b) :
    terminalOwner (t ++ [{ call := .tcsetpgrp fd pgrp, ret := r }, { call := c, ret := r2 }])
      = some pgrp := by
  unfold terminalOwner
  have h2 : (match c with
      | .tcsetpgrp _ g => if 0 ≤ r2 then some g else none
      | _ => (none : Option Int)) = none := by
    cases c <;> first | rfl | exact absurd rfl (hc _ _)
  simp only [List.filterMap_append, List.filterMap_cons, List.filterMap_nil, hr, if_true, h2]
  simp

/-- C17: a run of `createJob` for a foreground pipeline that reads the terminal, in
which every system call succeeds and which returns: the shell asks for the owner
`orig` of the terminal, starts the processes, hands the terminal to the group of
the job (the pid of the first process), waits (only `sigsuspend` and the calls
of the signal handlers happen meanwhile), and then gives the terminal back to
`orig`. On return the registry has no foreground job and the terminal belongs
to `orig` again. -/
theorem createJob_hands_terminal_over_and_back (p : pipeline) (w : World)
    (hfg : p.background = false) (hin : readFromStdin p = true)
    (hok : (createJob p w).1 = .ok ()) :
    ∃ (orig g a b : Int) (startEvents waitEvents : List Event),
      (createJob p w).2.trace = w.trace ++
        ([{ call := .sigprocmaskBlock SIGCHLD, ret := 0 },
          { call := .tcgetpgrp STDIN_FILENO, ret := orig }] ++ startEvents ++
         [{ call := .tcsetpgrp STDIN_FILENO g, ret := a }] ++ waitEvents ++
         [{ call := .tcsetpgrp STDIN_FILENO orig, ret := b },
          { call := .sigprocmaskUnblock SIGCHLD, ret := 0 }]) ∧
      0 ≤ orig ∧ 0 ≤ a ∧ 0 ≤ b ∧
      g = (forkedPids startEvents).headD 0 ∧
      (∀ e ∈ startEvents, isLoopCall e.call = true) ∧
      (∀ e ∈ waitEvents, isWaitCall e.call = true) ∧
      (createJob p w).2.joblist.hasForegroundJob = false ∧
      terminalOwner (createJob p w).2.trace = some orig := by
  have hp := run_eq_of_fst _ _ _ hok
  generalize (createJob p w).2 = wf at hp ⊢
  rw [createJob_start_tail] at hp
  obtain ⟨x, w1, hstart, htail⟩ := bind_ok _ _ _ _ _ hp
  obtain ⟨pids, delta, s⟩ := createJobStart_ok p w w1 x hstart
  unfold createJobTail at htail
  simp only [hfg, hin, Bool.not_false, Bool.not_true, if_true, if_false, Bool.false_eq_true]
    at htail
  obtain ⟨_, w5, hA, hunb⟩ := bind_ok _ _ _ _ _ htail
  obtain ⟨g, w1', hg, hA⟩ := bind_ok _ _ _ _ _ hA
  obtain ⟨hg1, hg2⟩ := ok_eq ((jobGroupID_run x.1 w1).symm.trans hg)
  subst hg2
  obtain ⟨a, w2, ha, hA⟩ := bind_ok _ _ _ _ _ hA
  obtain ⟨_, w3, hwait, hA⟩ := bind_ok _ _ _ _ _ hA
  obtain ⟨b, w4, hb, hA⟩ := bind_ok _ _ _ _ _ hA
  obtain ⟨_, hw5⟩ := ok_eq (hA.symm.trans rfl : (Res.ok _, w5) = (Res.ok (), w4))
  obtain ⟨ha0, ha1, ha2⟩ := tcsetpgrp_errchk_ok _ _ _ _ _ ha
  obtain ⟨hb0, hb1, hb2⟩ := tcsetpgrp_errchk_ok _ _ _ _ _ hb
  obtain ⟨hnofg, _, _, dw, hdw, hwcalls⟩ := waitForForeground_ok _ _ _ hwait
  obtain ⟨_, hwf⟩ := ok_eq (hunb.symm.trans rfl :
    (Res.ok _, wf) = (Res.ok (), (unblockSignal SIGCHLD w5).2))
  have hx1 : x.2.1 = STDIN_FILENO := s.stdin hin
  have hgroup : g = pids.headD 0 := by
    rw [← hg1]
    unfold World.groupOf
    rw [s.getJob]
    exact getGroupID_startedJob p x.1 pids s.length
  have hhead : headEvents p x.2.1 x.2.2 = [{ call := .sigprocmaskBlock SIGCHLD, ret := 0 },
      { call := .tcgetpgrp STDIN_FILENO, ret := x.2.2 }] := by
    simp [headEvents, hin, hfg, hx1]
  rw [hx1] at hhead
  have htrace : wf.trace = w.trace ++
      ([{ call := .sigprocmaskBlock SIGCHLD, ret := 0 },
        { call := .tcgetpgrp STDIN_FILENO, ret := x.2.2 }] ++ delta ++
       [{ call := .tcsetpgrp STDIN_FILENO g, ret := a }] ++ dw ++
       [{ call := .tcsetpgrp STDIN_FILENO x.2.2, ret := b },
        { call := .sigprocmaskUnblock SIGCHLD, ret := 0 }]) := by
    rw [hwf, hw5, hb2]
    simp only [unblockSignal, World.push, hdw, ha2, s.trace, hhead, hx1, ← ha1, ← hb1]
    simp only [List.append_assoc, List.cons_append, List.nil_append]
  refine ⟨x.2.2, g, a, b, delta, dw, htrace, s.orig hin hfg, ha0, hb0, ?_, s.calls, hwcalls, ?_, ?_⟩
  · rw [s.forks]
    exact hgroup
  · rw [hwf, hw5, hb2]
    exact hnofg
  · rw [htrace]
    simp only [← List.append_assoc]
    exact terminalOwner_restored _ _ _ _ _ _ hb0 (fun _ _ => by simp)

theorem createJob_hands_terminal_over_and_back_witness :
    (mkLine "ls" []).background = false ∧ readFromStdin (mkLine "ls" []) = true ∧
    (createJob (mkLine "ls" []) oneChildWorld).1 = .ok () ∧
    ∃ (orig g a b : Int) (startEvents waitEvents : List Event),
      (createJob (mkLine "ls" []) oneChildWorld).2.trace = oneChildWorld.trace ++
        ([{ call := .sigprocmaskBlock SIGCHLD, ret := 0 },
          { call := .tcgetpgrp STDIN_FILENO, ret := orig }] ++ startEvents ++
         [{ call := .tcsetpgrp STDIN_FILENO g, ret := a }] ++ waitEvents ++
         [{ call := .tcsetpgrp STDIN_FILENO orig, ret := b },
          { call := .sigprocmaskUnblock SIGCHLD, ret := 0 }]) ∧
      0 ≤ orig ∧ 0 ≤ a ∧ 0 ≤ b ∧
      g = (forkedPids startEvents).headD 0 ∧
      (∀ e ∈ startEvents, isLoopCall e.call = true) ∧
      (∀ e ∈ waitEvents, isWaitCall e.call = true) ∧
      (createJob (mkLine "ls" []) oneChildWorld).2.joblist.hasForegroundJob = false ∧
      terminalOwner (createJob (mkLine "ls" []) oneChildWorld).2.trace = some orig :=
  ⟨rfl, by decide, by decide!,
    createJob_hands_terminal_over_and_back (mkLine "ls" []) oneChildWorld rfl (by decide)
      (by decide!)⟩

theorem inShell_frame {R : World → World → Prop} (F : Frame R)
    (hk : ∀ w w1, R w w1 → w1.inChild = w.inChild) : Frame (InShell R) where
  refl := fun w => Or.inr (F.refl w)
  trans := by
    intro a b c hab hbc
    rcases hbc with h | h
    · exact Or.inl h
    · rcases hab with h1 | h1
      · exact Or.inl ((hk _ _ h).trans h1)
      · exact Or.inr (F.trans _ _ _ h1 h)

theorem inShell_traceFrame {R : World → World → Prop} {A : SysCall → Prop} (T : TraceFrame R A)
    (hk : ∀ w w1, R w w1 → w1.inChild = w.inChild) : TraceFrame (InShell R) A where
  frame := inShell_frame T.frame hk
  emit := fun w c r rs ds hc => Or.inr (T.emit w c r rs ds hc)
  skip := fun w rs ds => Or.inr (T.skip w rs ds)

theorem startProcessChild_inChild (job : Nat) (c : command) (input_fd output_fd : Int)
    (inForeground : Bool) (w : World) :
    (startProcessChild job c input_fd output_fd inForeground w).2.inChild = w.inChild :=
  steps_startProcessChild inChild_traceFrame trivial (fun _ _ => trivial) (fun _ _ => trivial)
    (fun _ _ => trivial) (fun _ => trivial) (fun _ => trivial) trivial (fun _ _ => rfl)
    job c input_fd output_fd inForeground w

/-- What holds of every run of `startProcess` that stays in the shell process. -/
theorem inShell_startProcess {R : World → World → Prop} {A : SysCall → Prop}
    (T : TraceFrame R A) (hfork : A .fork) (hset : ∀ a b, A (.setpgid a b))
    (hadd : ∀ (w : World) (job : Nat) (q : STSHProcess), R w (w.addProcess job q))
    (job : Nat) (c : command) (input_fd output_fd : Int) (inForeground : Bool) :
    Steps (InShell R) (startProcess job c input_fd output_fd inForeground) := by
  intro w
  rw [startProcess_run]
  by_cases h : w.nextAnswer < 0
  · simp only [h, if_true]
    exact Or.inr (tf_push T _ hfork w)
  · by_cases h0 : w.nextAnswer = 0
    · simp only [h, h0, if_false, if_true, lt_self_iff_false]
      left
      rw [startProcessChild_inChild]
    · simp only [h, h0, if_false]
      exact Or.inr (T.frame.trans _ _ _ (tf_push T _ hfork w)
        (steps_startProcessParent T hset hadd job c _ _))

/-- What holds of every run of the loop of `createJob` that stays in the shell
process. -/
theorem inShell_createJobLoop {R : World → World → Prop} {A : SysCall → Prop}
    (T : TraceFrame R A) (hk : ∀ w w1, R w w1 → w1.inChild = w.inChild)
    (hp : A .pipe2) (hf : ∀ a b, A (.pipe2Fds a b)) (ho : ∀ path, A (.openWrite path))
    (hfork : A .fork) (hset : ∀ a b, A (.setpgid a b)) (hc : ∀ a, A (.close a))
    (hadd : ∀ (w : World) (job : Nat) (q : STSHProcess), R w (w.addProcess job q))
    (job : Nat) (p : pipeline) (cmds : List command) :
    ∀ prev, Steps (InShell R) (createJobLoop job p cmds prev) := by
  have T2 := inShell_traceFrame T hk
  induction cmds with
  | nil =>
    intro prev w
    exact Or.inr (T.frame.refl w)
  | cons c rest ih =>
    intro prev
    rw [createJobLoop_cons]
    refine steps_bind T2.frame (steps_openOutput T2 hp hf ho p rest) (fun x => ?_)
    refine steps_bind T2.frame ?_ (fun _ => ?_)
    · exact steps_tryCatchE T2.frame (inShell_startProcess T hfork hset hadd _ _ _ _ _)
        (fun e => steps_cleanupHandler T2 hc _ _ e)
    · exact steps_bind T2.frame (steps_closeParentEnds T2 hc _ _) (fun _ => ih _)

theorem bind_cases {α β : Type} (m : Act α) (f : α → Act β) (w : World) :
    (∃ a w1, m w = (.ok a, w1) ∧ (m >>= f) w = f a w1) ∨
    ((∀ a, (m w).1 ≠ .ok a) ∧ ((m >>= f) w).2 = (m w).2 ∧ ∀ b, ((m >>= f) w).1 ≠ .ok b) := by
  rw [bind_run]
  unfold Act.bind
  cases h : m w with
  | mk r w1 =>
    cases r with
    | ok a => exact Or.inl ⟨a, w1, rfl, rfl⟩
    | throw e => exact Or.inr ⟨fun a => by simp, rfl, fun b => by simp⟩
    | exit c => exact Or.inr ⟨fun a => by simp, rfl, fun b => by simp⟩
    | replaced => exact Or.inr ⟨fun a => by simp, rfl, fun b => by simp⟩
    | hang => exact Or.inr ⟨fun a => by simp, rfl, fun b => by simp⟩

theorem createJobTail_wait (p : pipeline) (job : Nat) (pipeline_input_fd orig_pgrp : Int) :
    createJobTail p job pipeline_input_fd orig_pgrp =
      createJobWait p job pipeline_input_fd orig_pgrp >>= fun _ => unblockSignal SIGCHLD := rfl

theorem steps_createJobWait {R : World → World → Prop} {A : SysCall → Prop}
    (T : TraceFrame R A) (hs : A .sigsuspend) (hw : A .waitpid) (hk : ∀ g s, A (.killpg g s))
    (he : A (.exit 0)) (ht : ∀ a b, A (.tcsetpgrp a b)) (hp : ∀ n l, A (.printJobStarted n l))
    (hrec : ∀ (w : World) (pid : Int) (st : STSHProcessState) (job : STSHJob),
      w.joblist.getJobWithProcess pid = some job →
      R w { w with joblist :=
        (w.joblist.modifyJob job.num (fun j => j.setProcessState pid st)).synchronize job.num })
    (p : pipeline) (job : Nat) (pipeline_input_fd orig_pgrp : Int) :
    Steps R (createJobWait p job pipeline_input_fd orig_pgrp) := by
  unfold createJobWait
  apply steps_ite
  · apply steps_ite
    · exact steps_waitForForeground T hs hw hk he hrec
    · refine steps_bind T.frame (fun w => T.frame.refl w) (fun g => ?_)
      refine steps_bind T.frame
        (steps_tcsetpgrp_errchk T.frame _ _ (tf_push T _ (ht _ _))) (fun _ => ?_)
      refine steps_bind T.frame (steps_waitForForeground T hs hw hk he hrec) (fun _ => ?_)
      exact steps_bind T.frame (steps_tcsetpgrp_errchk T.frame _ _ (tf_push T _ (ht _ _)))
        (fun _ => steps_pure T.frame _)
  · unfold printJobStarted
    exact steps_bind T.frame (steps_getJoblist T.frame) (fun jl => tf_emit T _ _ (hp _ _))

theorem createJobHead_phases (p : pipeline) (w : World) :
    createJobHead p w =
      (openInput p >>= fun fd => blockSignal SIGCHLD >>= fun _ => lookupOwner p fd >>= fun orig =>
        (pure ((w.joblist.addJob (placementOf p)).1, fd, orig) : Act (Nat × Int × Int)))
        { w with joblist := (w.joblist.addJob (placementOf p)).2 } := rfl

theorem maskScan_append (d1 d2 : List Event) :
    ∀ ph, maskScan ph (d1 ++ d2) = (maskScan ph d1).bind (fun ph1 => maskScan ph1 d2) := by
  induction d1 with
  | nil => intro ph; rfl
  | cons e t ih =>
    intro ph
    simp only [List.cons_append, maskScan]
    cases maskStep ph e.call with
    | none => rfl
    | some ph1 => exact ih ph1

theorem maskScan_before_quiet (d : List Event) (h : ∀ e ∈ d, isQuietCall e.call = true) :
    maskScan .before d = some .before := by
  induction d with
  | nil => rfl
  | cons e t ih =>
    have he := h e (List.mem_cons_self _ _)
    have hstep : maskStep .before e.call = some .before := by
      cases hc : e.call <;> rw [hc] at he <;> first | rfl | exact absurd he (by simp [isQuietCall, isMaskCall])
    simp only [maskScan, hstep, Option.some_bind]
    exact ih (fun a ha => h a (List.mem_cons_of_mem _ ha))

theorem maskScan_blocked_kept (d : List Event) (h : ∀ e ∈ d, (!isMaskCall e.call) = true) :
    maskScan .blocked d = some .blocked := by
  induction d with
  | nil => rfl
  | cons e t ih =>
    have he := h e (List.mem_cons_self _ _)
    have hstep : maskStep .blocked e.call = some .blocked := by
      cases hc : e.call <;> rw [hc] at he <;> first | rfl | exact absurd he (by simp [isQuietCall, isMaskCall])
    simp only [maskScan, hstep, Option.some_bind]
    exact ih (fun a ha => h a (List.mem_cons_of_mem _ ha))

theorem steps_openInput {R : World → World → Prop} {A : SysCall → Prop} (T : TraceFrame R A)
    (ho : ∀ path, A (.openRead path)) (p : pipeline) : Steps R (openInput p) := by
  unfold openInput
  apply steps_ite
  · exact steps_Act_pure T.frame _
  · exact steps_open_errchk T.frame _ _ (tf_push T _ (ho _))

theorem steps_lookupOwner {R : World → World → Prop} {A : SysCall → Prop} (T : TraceFrame R A)
    (ht : ∀ a, A (.tcgetpgrp a)) (p : pipeline) (fd : Int) : Steps R (lookupOwner p fd) := by
  unfold lookupOwner
  apply steps_ite
  · exact steps_tcgetpgrp_errchk T.frame _ (tf_push T _ (ht _))
  · exact steps_Act_pure T.frame _

theorem traceExt_blocked (a b : World) (h : TraceExt notMaskCall a b) :
    b.blocked = a.blocked ∧ b.inChild = a.inChild ∧
      ∃ d, b.trace = a.trace ++ d ∧ maskScan .blocked d = some .blocked := by
  obtain ⟨h1, h2, d, h3, h4⟩ := h
  exact ⟨h1, h2, d, h3, maskScan_blocked_kept d h4⟩

/-- The first part of `createJob` on every path: it ends before SIGCHLD is blocked,
without a fork and with a failure, or with SIGCHLD blocked and no fork before
the block. -/
theorem createJobHead_mask (p : pipeline) (w : World) :
    (createJobHead p w).2.inChild = w.inChild ∧
    ∃ d, (createJobHead p w).2.trace = w.trace ++ d ∧
      ((maskScan .before d = some .before ∧ ∀ x, (createJobHead p w).1 ≠ .ok x) ∨
       (maskScan .before d = some .blocked ∧ (createJobHead p w).2.blocked = true)) := by
  rw [createJobHead_phases]
  generalize hw0 : ({ w with joblist := (w.joblist.addJob (placementOf p)).2 } : World) = w0
  have ht0 : w0.trace = w.trace := by rw [← hw0]
  have hi0 : w0.inChild = w.inChild := by rw [← hw0]
  have hopen := steps_openInput (traceExt_traceFrame isQuietCall) (fun _ => rfl) p w0
  rcases bind_cases (openInput p) (fun fd => blockSignal SIGCHLD >>= fun _ =>
      lookupOwner p fd >>= fun orig =>
      (pure ((w.joblist.addJob (placementOf p)).1, fd, orig) : Act (Nat × Int × Int))) w0
    with ⟨fd, w1, h1, heq⟩ | ⟨_, hw, hres⟩
  · rw [heq]
    rw [h1] at hopen
    obtain ⟨_, hi1, d1, ht1, hq1⟩ := hopen
    have hl := steps_bind (traceExt_frame notMaskCall)
      (steps_lookupOwner (traceExt_traceFrame notMaskCall) (fun _ => rfl) p fd)
      (fun orig => steps_pure (traceExt_frame notMaskCall)
        ((w.joblist.addJob (placementOf p)).1, fd, orig)) (blockSignal SIGCHLD w1).2
    obtain ⟨hb2, hi2, d2, ht2, hs2⟩ := traceExt_blocked _ _ hl
    refine ⟨?_, d1 ++ [{ call := .sigprocmaskBlock SIGCHLD, ret := 0 }] ++ d2, ?_, Or.inr ⟨?_, ?_⟩⟩
    · exact (hi2.trans hi1).trans hi0
    · refine ht2.trans ?_
      show (w1.trace ++ [{ call := .sigprocmaskBlock SIGCHLD, ret := 0 }]) ++ d2 = _
      rw [ht1, ht0]
      simp only [List.append_assoc]
    · rw [maskScan_append, maskScan_append, maskScan_before_quiet d1 hq1]
      simp only [Option.some_bind, maskScan, maskStep, if_true]
      exact hs2
    · exact hb2.trans rfl
  · rw [hw]
    obtain ⟨_, hi1, d1, ht1, hq1⟩ := hopen
    exact ⟨hi1.trans hi0, d1, by rw [ht1, ht0], Or.inl ⟨maskScan_before_quiet d1 hq1, hres⟩⟩

theorem noFork_frame : Frame NoFork where
  refl := fun w => ⟨rfl, rfl, [], by simp, rfl⟩
  trans := by
    rintro a b c ⟨h1, h2, d1, h3, h4⟩ ⟨h5, h6, d2, h7, h8⟩
    refine ⟨h5.trans h1, h6.trans h2, d1 ++ d2, by rw [h7, h3, List.append_assoc], ?_⟩
    rw [forkedPids_append, h4, h8]
    rfl

theorem noFork_traceFrame : TraceFrame NoFork (fun c => c ≠ .fork) where
  frame := noFork_frame
  emit := by
    intro w c r rs ds hc
    refine ⟨rfl, rfl, [{ call := c, ret := r }], rfl, ?_⟩
    simp [forkedPids, hc]
  skip := fun w rs ds => ⟨rfl, rfl, [], by simp, rfl⟩

theorem cleanupHandler_noFork (prev out : Int) (e : STSHException) (w : World) :
    NoFork w (cleanupHandler prev out e w).2 ∧ ∀ u, (cleanupHandler prev out e w).1 ≠ .ok u :=
  ⟨steps_cleanupHandler noFork_traceFrame (fun _ => by simp) prev out e w,
   fun u => ends_not_ok _ u (cleanupHandler_ends prev out e w)⟩

theorem cleanupHandler_inChild (prev out : Int) (e : STSHException) (w : World) :
    (cleanupHandler prev out e w).2.inChild = w.inChild :=
  steps_cleanupHandler inChild_traceFrame (fun _ => trivial) prev out e w

/-- Every run of the try block of the loop of `createJob`, with its catch block,
that stays in the shell: either no fork has succeeded, the registry is as it
was and the block has not returned, or one fork has succeeded and the process
is recorded in the job. -/
theorem startOrCleanup_records (job : Nat) (p : pipeline) (c : command) (prev out : Int)
    (w : World) (hshell : (startOrCleanup job p c prev out w).2.inChild = false) :
    (startOrCleanup job p c prev out w).2.inChild = w.inChild ∧
    ∃ d, (startOrCleanup job p c prev out w).2.trace = w.trace ++ d ∧
      ((forkedPids d = [] ∧ (startOrCleanup job p c prev out w).2.joblist = w.joblist ∧
          ∀ u, (startOrCleanup job p c prev out w).1 ≠ .ok u) ∨
       (∃ pid, forkedPids d = [pid] ∧ 0 < pid ∧
          (startOrCleanup job p c prev out w).2.joblist =
            w.joblist.modifyJob job (fun j => j.addProcess (STSHProcess.create pid c)))) := by
  have key : ∀ r, startOrCleanup job p c prev out w = r → r.2.inChild = false →
      r.2.inChild = w.inChild ∧ ∃ d, r.2.trace = w.trace ++ d ∧
        ((forkedPids d = [] ∧ r.2.joblist = w.joblist ∧ ∀ u, r.1 ≠ .ok u) ∨
         (∃ pid, forkedPids d = [pid] ∧ 0 < pid ∧ r.2.joblist =
            w.joblist.modifyJob job (fun j => j.addProcess (STSHProcess.create pid c)))) := by
    intro r hr hs
    unfold startOrCleanup tryCatchE at hr
    rw [startProcess_run] at hr
    by_cases hlt : w.nextAnswer < 0
    · simp only [hlt, if_true] at hr
      subst hr
      obtain ⟨⟨hj, hi, d2, ht, hf⟩, hne⟩ := cleanupHandler_noFork prev out .forkFailed (w.push .fork)
      refine ⟨hi, [{ call := .fork, ret := w.nextAnswer }] ++ d2, ?_, Or.inl ⟨?_, hj, hne⟩⟩
      · rw [ht]
        simp [World.push]
      · rw [forkedPids_append, hf]
        simp [forkedPids, not_lt.mpr (le_of_lt hlt)]
    · by_cases h0 : w.nextAnswer = 0
      · exfalso
        simp only [hlt, h0, if_false, if_true, lt_self_iff_false] at hr
        have hch := startProcessChild_inChild job c prev out (!p.background)
          { w.push .fork with inChild := true }
        revert hr hch
        cases startProcessChild job c prev out (!p.background)
          { w.push .fork with inChild := true } with
        | mk r1 w1 =>
          intro hr hch
          cases r1 with
          | throw e =>
            simp only at hr
            subst hr
            rw [cleanupHandler_inChild] at hs
            simp only at hch
            rw [hch] at hs
            simp at hs
          | ok a => simp only at hr; subst hr; simp only at hch hs; rw [hch] at hs; simp at hs
          | exit a => simp only at hr; subst hr; simp only at hch hs; rw [hch] at hs; simp at hs
          | replaced => simp only at hr; subst hr; simp only at hch hs; rw [hch] at hs; simp at hs
          | hang => simp only at hr; subst hr; simp only at hch hs; rw [hch] at hs; simp at hs
      · simp only [hlt, h0, if_false] at hr
        rw [startProcessParent_run] at hr
        have hpos : 0 < w.nextAnswer := lt_of_le_of_ne (not_lt.mp hlt) (Ne.symm h0)
        by_cases hs2 : (w.push .fork).nextAnswer < 0
        · simp only [hs2, if_true] at hr
          subst hr
          obtain ⟨⟨hj, hi, d2, ht, hf⟩, _⟩ := cleanupHandler_noFork prev out
            (.setpgidFailed w.nextAnswer)
            (((w.push .fork).addProcess job (STSHProcess.create w.nextAnswer c)).push
              (.setpgid w.nextAnswer
                (((w.push .fork).addProcess job (STSHProcess.create w.nextAnswer c)).groupOf job)))
          refine ⟨hi, [{ call := .fork, ret := w.nextAnswer },
            { call := .setpgid w.nextAnswer
                (((w.push .fork).addProcess job (STSHProcess.create w.nextAnswer c)).groupOf job),
              ret := (w.push .fork).nextAnswer }] ++ d2, ?_, Or.inr ⟨w.nextAnswer, ?_, hpos, ?_⟩⟩
          · rw [ht]
            simp [World.push, World.addProcess, World.nextAnswer]
          · rw [forkedPids_append, hf]
            simp [forkedPids, hpos]
          · rw [hj]
            rfl
        · simp only [hs2, if_false] at hr
          subst hr
          refine ⟨rfl, [{ call := .fork, ret := w.nextAnswer },
            { call := .setpgid w.nextAnswer
                (((w.push .fork).addProcess job (STSHProcess.create w.nextAnswer c)).groupOf job),
              ret := (w.push .fork).nextAnswer }], ?_, Or.inr ⟨w.nextAnswer, ?_, hpos, rfl⟩⟩
          · simp [World.push, World.addProcess, World.nextAnswer]
          · simp [forkedPids, hpos]
  exact key _ rfl hshell

theorem recorded_of_noFork (job : Nat) (cmds : List command) (w w1 : World) (h : NoFork w w1) :
    Recorded job cmds w w1 := by
  obtain ⟨hj, hi, d, ht, hf⟩ := h
  refine ⟨hi, d, ht, by simp [hf], ?_⟩
  rw [hj, hf, modifyJob_self]
  intro j
  simp

theorem noFork_recorded (job : Nat) (cmds : List command) (a b c : World) (h : NoFork a b)
    (h2 : Recorded job cmds b c) : Recorded job cmds a c := by
  obtain ⟨hj, hi, d, ht, hf⟩ := h
  obtain ⟨hi2, d2, ht2, hl2, hj2⟩ := h2
  refine ⟨hi2.trans hi, d ++ d2, by rw [ht2, ht, List.append_assoc], ?_, ?_⟩
  · rw [forkedPids_append, hf]
    exact hl2
  · rw [forkedPids_append, hf, hj2, hj]
    rfl

theorem oneFork_noFork (job : Nat) (c : command) (a b c1 : World) (h : OneFork job c a b)
    (h2 : NoFork b c1) : OneFork job c a c1 := by
  obtain ⟨hi, d, pid, ht, hf, hj⟩ := h
  obtain ⟨hj2, hi2, d2, ht2, hf2⟩ := h2
  refine ⟨hi2.trans hi, d ++ d2, pid, by rw [ht2, ht, List.append_assoc], ?_, hj2.trans hj⟩
  rw [forkedPids_append, hf, hf2]
  rfl

theorem recorded_of_oneFork (job : Nat) (c : command) (rest : List command) (w w1 : World)
    (h : OneFork job c w w1) : Recorded job (c :: rest) w w1 := by
  obtain ⟨hi, d, pid, ht, hf, hj⟩ := h
  refine ⟨hi, d, ht, by simp [hf], ?_⟩
  rw [hj, hf]
  rfl

theorem oneFork_recorded (job : Nat) (c : command) (rest : List command) (a b c1 : World)
    (h : OneFork job c a b) (h2 : Recorded job rest b c1) : Recorded job (c :: rest) a c1 := by
  obtain ⟨hi, d, pid, ht, hf, hj⟩ := h
  obtain ⟨hi2, d2, ht2, hl2, hj2⟩ := h2
  refine ⟨hi2.trans hi, d ++ d2, by rw [ht2, ht, List.append_assoc], ?_, ?_⟩
  · rw [forkedPids_append, hf]
    simpa using hl2
  · rw [forkedPids_append, hf, hj2, hj]
    rw [modifyJob_modifyJob a.joblist job (fun j => j.addProcess (STSHProcess.create pid c)) _
      (fun _ => rfl)]
    congr 1
    funext j
    simp [STSHJob.addProcess, List.append_assoc]

theorem steps_bind2 {α β : Type} {Rok Rfail R : World → World → Prop}
    (R2 : World → World → Prop) {m : Act α} {f : α → Act β}
    (hok : ∀ w a w1, m w = (.ok a, w1) → Rok w w1)
    (hfail : ∀ w, (∀ a, (m w).1 ≠ .ok a) → Rfail w (m w).2)
    (hf : ∀ a, Steps R2 (f a))
    (hcomp : ∀ a b c, Rok a b → R2 b c → R a c) (hlift : ∀ a b, Rfail a b → R a b) :
    Steps R (m >>= f) := by
  intro w
  rcases bind_cases m f w with ⟨a, w1, h1, heq⟩ | ⟨hno, hw, _⟩
  · rw [heq]
    exact hcomp _ _ _ (hok w a w1 h1) (hf a w1)
  · rw [hw]
    exact hlift _ _ (hfail w hno)

theorem steps_both {α : Type} {R : World → World → Prop} {m : Act α} (h : Steps R m) :
    (∀ w a w1, m w = (.ok a, w1) → R w w1) ∧ (∀ w, (∀ a, (m w).1 ≠ .ok a) → R w (m w).2) := by
  refine ⟨fun w a w1 hm => ?_, fun w _ => h w⟩
  have := h w
  rw [hm] at this
  exact this

theorem startOrCleanup_steps (job : Nat) (p : pipeline) (c : command) (prev out : Int) :
    (∀ w a w1, startOrCleanup job p c prev out w = (.ok a, w1) → InShell (OneFork job c) w w1) ∧
    (∀ w, (∀ a, (startOrCleanup job p c prev out w).1 ≠ .ok a) →
      InShell (fun a b => NoFork a b ∨ OneFork job c a b) w
        (startOrCleanup job p c prev out w).2) := by
  have key : ∀ w, (startOrCleanup job p c prev out w).2.inChild = true ∨
      ((∀ a, (startOrCleanup job p c prev out w).1 ≠ .ok a) ∧
        NoFork w (startOrCleanup job p c prev out w).2) ∨
      OneFork job c w (startOrCleanup job p c prev out w).2 := by
    intro w
    by_cases hs : (startOrCleanup job p c prev out w).2.inChild = true
    · exact Or.inl hs
    · right
      have hs' : (startOrCleanup job p c prev out w).2.inChild = false := by simpa using hs
      obtain ⟨hi, d, ht, h | ⟨pid, hf, _, hj⟩⟩ := startOrCleanup_records job p c prev out w hs'
      · exact Or.inl ⟨h.2.2, h.2.1, hi, d, ht, h.1⟩
      · exact Or.inr ⟨hi, d, pid, ht, hf, hj⟩
  constructor
  · intro w a w1 h
    rcases key w with h1 | h1 | h1
    · rw [h] at h1
      exact Or.inl h1
    · exact absurd (by rw [h]) (h1.1 a)
    · rw [h] at h1
      exact Or.inr h1
  · intro w _
    rcases key w with h1 | h1 | h1
    · exact Or.inl h1
    · exact Or.inr (Or.inl h1.2)
    · exact Or.inr (Or.inr h1)

/-- Every run of the loop of `createJob` that stays in the shell has recorded in
the job one process for each fork that succeeded, in the order of the
commands. -/
theorem createJobLoop_records (job : Nat) (p : pipeline) (cmds : List command) :
    ∀ prev, Steps (InShell (Recorded job cmds)) (createJobLoop job p cmds prev) := by
  induction cmds with
  | nil =>
    intro prev w
    exact Or.inr (recorded_of_noFork job [] w _ (noFork_frame.refl w))
  | cons c rest ih =>
    intro prev
    rw [createJobLoop_cons]
    have hopen := steps_both (steps_openOutput noFork_traceFrame (by simp) (fun _ _ => by simp)
      (fun _ => by simp) p rest)
    refine steps_bind2 (InShell (Recorded job (c :: rest))) hopen.1 hopen.2 (fun x => ?_)
      ?_ (fun a b h => Or.inr (recorded_of_noFork job _ a b h))
    · have hstart := startOrCleanup_steps job p c prev x.2
      refine steps_bind2 (InShell (Recorded job rest)) hstart.1 hstart.2 (fun _ => ?_) ?_ ?_
      · have hclose := steps_both (steps_closeParentEnds noFork_traceFrame (fun _ => by simp)
          prev x.2)
        refine steps_bind2 _ hclose.1 hclose.2 (fun _ => ih _) ?_
          (fun a b h => Or.inr (recorded_of_noFork job _ a b h))
        intro a b c1 h1 h2
        rcases h2 with h2 | h2
        · exact Or.inl h2
        · exact Or.inr (noFork_recorded job rest a b c1 h1 h2)
      · intro a b c1 h1 h2
        rcases h2 with h2 | h2
        · exact Or.inl h2
        · rcases h1 with h1 | h1
          · exact Or.inl (h2.1.trans h1)
          · exact Or.inr (oneFork_recorded job c rest a b c1 h1 h2)
      · intro a b h
        rcases h with h | h | h
        · exact Or.inl h
        · exact Or.inr (recorded_of_noFork job _ a b h)
        · exact Or.inr (recorded_of_oneFork job c rest a b h)
    · intro a b c1 h1 h2
      rcases h2 with h2 | h2
      · exact Or.inl h2
      · exact Or.inr (noFork_recorded job _ a b c1 h1 h2)

theorem createJobHead_noFork (p : pipeline) (w : World) :
    NoFork { w with joblist := (w.joblist.addJob (placementOf p)).2 } (createJobHead p w).2 := by
  rw [createJobHead_phases]
  refine steps_bind noFork_frame (steps_openInput noFork_traceFrame (fun _ => by simp) p)
    (fun fd => ?_) _
  refine steps_bind noFork_frame (fun w => ?_) (fun _ => ?_)
  · exact ⟨rfl, rfl, [{ call := .sigprocmaskBlock SIGCHLD, ret := 0 }], rfl, rfl⟩
  · exact steps_bind noFork_frame (steps_lookupOwner noFork_traceFrame (fun _ => by simp) p fd)
      (fun _ => steps_pure noFork_frame _)

theorem bind_pure_world {α β : Type} (m : Act α) (b : β) (w : World) :
    ((m >>= fun _ => (pure b : Act β)) w).2 = (m w).2 := by
  rcases bind_cases m (fun _ => (pure b : Act β)) w with ⟨a, w1, h1, heq⟩ | ⟨_, hw, _⟩
  · rw [heq, h1]
    rfl
  · exact hw

/-- Every run of lines 446-480 of `createJob` that stays in the shell: the registry
has got one more job, under the next free id, and this job holds one process for
each fork that succeeded, in the order of the commands. -/
theorem createJobStart_records (p : pipeline) (w : World)
    (hshell : (createJobStart p w).2.inChild = false) :
    ∃ d : List Event, (createJobStart p w).2.trace = w.trace ++ d ∧
      (forkedPids d).length ≤ p.commands.length ∧
      (createJobStart p w).2.joblist =
        { jobs := w.joblist.jobs ++ [startedJob p w.joblist.nextNum (forkedPids d)] } := by
  have hfresh : ∀ a ∈ w.joblist.jobs, a.num ≠ (startedJob p w.joblist.nextNum []).num :=
    fun a ha => Nat.ne_of_lt (num_lt_nextNum _ a ha)
  have hhead := createJobHead_noFork p w
  revert hshell
  unfold createJobStart
  rcases bind_cases (createJobHead p) (fun x => createJobLoop x.1 p p.commands x.2.1 >>= fun _ =>
      (pure x : Act (Nat × Int × Int))) w with ⟨x, w1, h1, heq⟩ | ⟨_, hw, _⟩
  · rw [heq, bind_pure_world]
    intro hshell
    have hnum := (createJobHead_ok p w w1 x h1).1
    rw [h1] at hhead
    rcases createJobLoop_records x.1 p p.commands x.2.1 w1 with h | h
    · rw [h] at hshell
      simp at hshell
    · obtain ⟨hj, _, d1, ht1, hf1⟩ := hhead
      obtain ⟨_, d2, ht2, hl2, hj2⟩ := h
      refine ⟨d1 ++ d2, ?_, ?_, ?_⟩
      · rw [ht2, ht1, List.append_assoc]
      · rw [forkedPids_append, hf1]
        exact hl2
      · rw [forkedPids_append, hf1, hj2, hj, hnum]
        have := modifyJob_append_new w.joblist.jobs (startedJob p w.joblist.nextNum [])
          (fun j => { j with processes := j.processes ++ List.zipWith STSHProcess.create (forkedPids d2) p.commands })
          hfresh
        exact this.trans (by simp [startedJob])
  · rw [hw]
    intro _
    obtain ⟨hj, _, d1, ht1, hf1⟩ := hhead
    exact ⟨d1, ht1, by simp [hf1], by rw [hj, hf1]; rfl⟩

theorem cmds_zipWith_create (pids : List Int) :
    ∀ cmds : List command, pids.length = cmds.length →
      (List.zipWith STSHProcess.create pids cmds).map (fun q => q.cmd) = cmds := by
  induction pids with
  | nil =>
    intro cmds h
    cases cmds with
    | nil => rfl
    | cons c cs => simp at h
  | cons a t ih =>
    intro cmds h
    cases cmds with
    | nil => simp at h
    | cons c cs =>
      simp only [List.zipWith_cons_cons, List.map_cons, List.cons.injEq]
      exact ⟨rfl, ih cs (by simpa using h)⟩

/-- C15: in every run of `createJob` up to the end of its loop (lines 446-480) that
stays in the shell process, the job registered under the new id holds exactly
one process for each fork that succeeded, paired in order with the commands of
the pipeline. When every fork succeeds, that is all N of them, the job holds
exactly N processes, the i-th with the pid of the i-th fork and the i-th
command of the pipeline; this is the case whenever the loop runs through. -/
theorem createJob_records_forked_processes (p : pipeline) (w : World)
    (hshell : (createJobStart p w).2.inChild = false) :
    ∃ (d : List Event) (job : STSHJob),
      (createJobStart p w).2.trace = w.trace ++ d ∧
      (createJobStart p w).2.joblist.getJob w.joblist.nextNum = some job ∧
      job.processes = List.zipWith STSHProcess.create (forkedPids d) p.commands ∧
      ((forkedPids d).length = p.commands.length →
        job.processes.length = p.commands.length ∧
        job.processes.map (fun q => q.pid) = forkedPids d ∧
        job.processes.map (fun q => q.cmd) = p.commands) ∧
      (∀ x, (createJobStart p w).1 = .ok x →
        x.1 = w.joblist.nextNum ∧ (forkedPids d).length = p.commands.length) := by
  obtain ⟨d, ht, hl, hj⟩ := createJobStart_records p w hshell
  have hfresh : ∀ a ∈ w.joblist.jobs,
      a.num ≠ (startedJob p w.joblist.nextNum (forkedPids d)).num :=
    fun a ha => Nat.ne_of_lt (num_lt_nextNum _ a ha)
  refine ⟨d, startedJob p w.joblist.nextNum (forkedPids d), ht, ?_, rfl, ?_, ?_⟩
  · rw [hj]
    exact getJob_append_new _ _ hfresh
  · intro hlen
    refine ⟨?_, pids_zipWith_create _ _ hlen, cmds_zipWith_create _ _ hlen⟩
    simp [startedJob, hlen]
  · intro x hx
    obtain ⟨pids, delta, s⟩ := createJobStart_ok p w _ x (run_eq_of_fst _ _ _ hx)
    have hd : d = headEvents p x.2.1 x.2.2 ++ delta :=
      List.append_cancel_left (ht.symm.trans s.trace)
    refine ⟨s.num, ?_⟩
    rw [hd, forkedPids_append, forkedPids_headEvents, List.nil_append, s.forks, s.length]

theorem createJob_records_forked_processes_witness :
    (createJobStart threeStage threeStageWorld).2.inChild = false ∧
    ∃ (d : List Event) (job : STSHJob),
      (createJobStart threeStage threeStageWorld).2.trace = threeStageWorld.trace ++ d ∧
      (createJobStart threeStage threeStageWorld).2.joblist.getJob
        threeStageWorld.joblist.nextNum = some job ∧
      job.processes = List.zipWith STSHProcess.create (forkedPids d) threeStage.commands ∧
      ((forkedPids d).length = threeStage.commands.length →
        job.processes.length = threeStage.commands.length ∧
        job.processes.map (fun q => q.pid) = forkedPids d ∧
        job.processes.map (fun q => q.cmd) = threeStage.commands) ∧
      (∀ x, (createJobStart threeStage threeStageWorld).1 = .ok x →
        x.1 = threeStageWorld.joblist.nextNum ∧
        (forkedPids d).length = threeStage.commands.length) :=
  ⟨by decide!, createJob_records_forked_processes threeStage threeStageWorld (by decide!)⟩

theorem createJobLoop_mask (job : Nat) (p : pipeline) (cmds : List command) (prev : Int)
    (w : World) :
    InShell (TraceExt notMaskCall) w (createJobLoop job p cmds prev w).2 :=
  inShell_createJobLoop (traceExt_traceFrame notMaskCall) (fun _ _ h => h.2.1) rfl
    (fun _ _ => rfl) (fun _ => rfl) rfl (fun _ _ => rfl) (fun _ => rfl)
    (fun w _ _ => traceExt_of_eq _ w _ rfl rfl rfl) job p cmds prev w

theorem createJobWait_quiet (p : pipeline) (job : Nat) (fd orig : Int) (w : World) :
    TraceExt isQuietCall w (createJobWait p job fd orig w).2 :=
  steps_createJobWait (traceExt_traceFrame isQuietCall) rfl rfl (fun _ _ => rfl) rfl
    (fun _ _ => rfl) (fun _ _ => rfl) (fun w _ _ _ _ => traceExt_of_eq _ w _ rfl rfl rfl)
    p job fd orig w

theorem forkedPids_quiet (d : List Event) (h : ∀ e ∈ d, isQuietCall e.call = true) :
    forkedPids d = [] := by
  unfold forkedPids
  rw [List.map_eq_nil_iff, List.filter_eq_nil_iff]
  intro e he
  have := h e he
  cases hc : e.call <;> rw [hc] at this <;> simp [isQuietCall] at this ⊢

theorem traceExt_quiet (a b : World) (h : TraceExt isQuietCall a b) :
    b.blocked = a.blocked ∧ b.inChild = a.inChild ∧
      ∃ d, b.trace = a.trace ++ d ∧ maskScan .blocked d = some .blocked ∧ forkedPids d = [] := by
  obtain ⟨h1, h2, d, h3, h4⟩ := h
  refine ⟨h1, h2, d, h3, maskScan_blocked_kept d (fun e he => ?_), forkedPids_quiet d h4⟩
  have := h4 e he
  simp only [isQuietCall, Bool.and_eq_true] at this
  exact this.1

/-- Every run of lines 446-480 of `createJob` that stays in the shell keeps the
discipline on the mask: no fork before SIGCHLD is blocked and no change of the
mask after that. A run that gets to the end of the loop has SIGCHLD blocked. -/
theorem createJobStart_mask (p : pipeline) (w : World)
    (hshell : (createJobStart p w).2.inChild = false) :
    ∃ (d : List Event) (ph : MaskPhase), (createJobStart p w).2.trace = w.trace ++ d ∧
      maskScan .before d = some ph ∧ ph ≠ .done ∧
      (∀ x, (createJobStart p w).1 = .ok x →
        ph = .blocked ∧ (createJobStart p w).2.blocked = true) := by
  obtain ⟨_, d1, ht1, hd1⟩ := createJobHead_mask p w
  revert hshell
  unfold createJobStart
  rcases bind_cases (createJobHead p) (fun x => createJobLoop x.1 p p.commands x.2.1 >>= fun _ =>
      (pure x : Act (Nat × Int × Int))) w with ⟨x, w1, h1, heq⟩ | ⟨_, hw, hne⟩
  · rw [heq, bind_pure_world]
    intro hshell
    rw [h1] at ht1 hd1
    rcases hd1 with hd1 | hd1
    · exact absurd rfl (hd1.2 x)
    · rcases createJobLoop_mask x.1 p p.commands x.2.1 w1 with h | h
      · rw [h] at hshell
        simp at hshell
      · obtain ⟨hb2, _, d2, ht2, hs2⟩ := traceExt_blocked _ _ h
        refine ⟨d1 ++ d2, .blocked, ?_, ?_, by simp, fun _ _ => ⟨rfl, hb2.trans hd1.2⟩⟩
        · rw [ht2]
          show w1.trace ++ d2 = _
          rw [show w1.trace = w.trace ++ d1 from ht1, List.append_assoc]
        · rw [maskScan_append, hd1.1]
          exact hs2
  · rw [hw]
    intro _
    rcases hd1 with hd1 | hd1
    · exact ⟨d1, .before, ht1, hd1.1, by simp, fun x hx => absurd hx (hne x)⟩
    · exact ⟨d1, .blocked, ht1, hd1.1, by simp, fun x hx => absurd hx (hne x)⟩

theorem unblockSignal_run (w : World) :
    unblockSignal SIGCHLD w = (.ok (), (unblockSignal SIGCHLD w).2) := rfl

/-- A run of `createJob` that ends in the shell has got there through a run of
lines 446-480 that ends in the shell; what follows the loop changes the mask
only by the final unblock, which is reached exactly by the runs that return. -/
theorem createJob_tail_mask (p : pipeline) (w : World)
    (hshell : (createJob p w).2.inChild = false) :
    (createJobStart p w).2.inChild = false ∧
    ∃ d2 : List Event, (createJob p w).2.trace = (createJobStart p w).2.trace ++ d2 ∧
      forkedPids d2 = [] ∧
      (((∀ x, (createJobStart p w).1 ≠ .ok x) ∧ d2 = [] ∧ (createJob p w).1 ≠ .ok ()) ∨
       ((∃ x, (createJobStart p w).1 = .ok x) ∧
        ((maskScan .blocked d2 = some .blocked ∧ (createJob p w).1 ≠ .ok ()) ∨
         (maskScan .blocked d2 = some .done ∧ (createJob p w).1 = .ok () ∧
          (createJob p w).2.blocked = false)))) := by
  revert hshell
  rw [createJob_start_tail]
  rcases bind_cases (createJobStart p) (fun x => createJobTail p x.1 x.2.1 x.2.2) w
    with ⟨x, w1, h1, heq⟩ | ⟨hno, hw, hne⟩
  · rw [heq, h1, createJobTail_wait]
    have hwait := createJobWait_quiet p x.1 x.2.1 x.2.2 w1
    rcases bind_cases (createJobWait p x.1 x.2.1 x.2.2) (fun _ => unblockSignal SIGCHLD) w1
      with ⟨u, w2, h2, heq2⟩ | ⟨_, hw2, hne2⟩
    · rw [heq2, unblockSignal_run]
      rw [h2] at hwait
      obtain ⟨_, hi2, d2, ht2, hs2, hf2⟩ := traceExt_quiet _ _ hwait
      intro hshell
      refine ⟨hshell.symm ▸ hi2.symm, d2 ++ [{ call := .sigprocmaskUnblock SIGCHLD, ret := 0 }], ?_,
        ?_, Or.inr ⟨⟨x, rfl⟩, Or.inr ⟨?_, rfl, rfl⟩⟩⟩
      · show w2.trace ++ [{ call := .sigprocmaskUnblock SIGCHLD, ret := 0 }] = _
        rw [show w2.trace = w1.trace ++ d2 from ht2, List.append_assoc]
      · rw [forkedPids_append, hf2]
        rfl
      · rw [maskScan_append, hs2]
        rfl
    · rw [hw2]
      obtain ⟨_, hi2, d2, ht2, hs2, hf2⟩ := traceExt_quiet _ _ hwait
      intro hshell
      refine ⟨hshell.symm ▸ hi2.symm, d2, ht2, hf2, Or.inr ⟨⟨x, rfl⟩, Or.inl ⟨hs2, ?_⟩⟩⟩
      intro hok
      have h3 := hne2 ()
      generalize (createJobWait p x.1 x.2.1 x.2.2 >>= fun _ => unblockSignal SIGCHLD) w1 = r at hok h3
      exact h3 (by rw [← hok])
  · rw [hw]
    intro hshell
    refine ⟨hshell, [], by simp, rfl, Or.inl ⟨hno, rfl, ?_⟩⟩
    exact hne ()

/-- C19 (counterexample): for `cat < missing.txt` with the file missing, `createJob`
adds job 1 to the registry although SIGCHLD is not blocked when it starts, is
never blocked during the run (the only system call is the `open` that fails)
and is not blocked when it ends: the job is created before the signal is
blocked. -/
theorem job_added_before_sigchld_is_blocked :
    ({ initialWorld with rets := [-1] } : World).blocked = false ∧
    ({ initialWorld with rets := [-1] } : World).joblist.containsJob 1 = false ∧
    (createJob catMissing { initialWorld with rets := [-1] }).2.joblist.containsJob 1 = true ∧
    (createJob catMissing { initialWorld with rets := [-1] }).2.trace
      = [{ call := .openRead "missing.txt", ret := -1 }] ∧
    (createJob catMissing { initialWorld with rets := [-1] }).2.blocked = false := by
  refine ⟨rfl, rfl, ?_, ?_, ?_⟩ <;> decide!

/-- C19 (amended): in every run of `createJob` that ends in the shell process, the
changes made to the registry up to the end of the loop are the new job and,
in this job, one process for each fork that succeeded, and no fork happens
later. The calls of the run keep the discipline of `maskScan`: no fork comes
before SIGCHLD is blocked, once blocked the mask is not changed again (the
`sigsuspend` of the foreground wait apart, which restores it) until SIGCHLD is
unblocked, and that unblock is the last call, made exactly by the runs that
return. So every process is recorded while SIGCHLD is blocked. -/
theorem createJob_forks_while_sigchld_blocked (p : pipeline) (w : World)
    (hshell : (createJob p w).2.inChild = false) :
    ∃ (d1 d2 : List Event) (ph : MaskPhase),
      (createJobStart p w).2.trace = w.trace ++ d1 ∧
      (createJob p w).2.trace = w.trace ++ (d1 ++ d2) ∧
      (createJobStart p w).2.joblist =
        { jobs := w.joblist.jobs ++ [startedJob p w.joblist.nextNum (forkedPids d1)] } ∧
      forkedPids d2 = [] ∧
      maskScan .before (d1 ++ d2) = some ph ∧
      (ph = .done ↔ (createJob p w).1 = .ok ()) ∧
      ((createJob p w).1 = .ok () → (createJob p w).2.blocked = false) := by
  obtain ⟨hs1, d2, ht2, hf2, hcases⟩ := createJob_tail_mask p w hshell
  obtain ⟨d1, ph1, ht1, hscan1, hnd, hok1⟩ := createJobStart_mask p w hs1
  obtain ⟨d1', ht1', _, hj1⟩ := createJobStart_records p w hs1
  have hd : d1' = d1 := List.append_cancel_left (ht1'.symm.trans ht1)
  rw [hd] at hj1
  have htr : (createJob p w).2.trace = w.trace ++ (d1 ++ d2) := by
    rw [ht2, ht1, List.append_assoc]
  rcases hcases with ⟨_, hd2, hne⟩ | ⟨⟨x, hx⟩, h | h⟩
  · refine ⟨d1, d2, ph1, ht1, htr, hj1, hf2, ?_, ⟨fun h => absurd h hnd, fun h => absurd h hne⟩,
      fun h => absurd h hne⟩
    rw [hd2, List.append_nil]
    exact hscan1
  · refine ⟨d1, d2, .blocked, ht1, htr, hj1, hf2, ?_, ⟨fun h => by simp at h, fun h0 => absurd h0 h.2⟩,
      fun h0 => absurd h0 h.2⟩
    rw [maskScan_append, hscan1, (hok1 x hx).1]
    exact h.1
  · refine ⟨d1, d2, .done, ht1, htr, hj1, hf2, ?_, ⟨fun _ => h.2.1, fun _ => rfl⟩, fun _ => h.2.2⟩
    rw [maskScan_append, hscan1, (hok1 x hx).1]
    exact h.1

theorem createJob_forks_while_sigchld_blocked_witness :
    (createJob (mkLine "ls" []) oneChildWorld).2.inChild = false ∧
    ∃ (d1 d2 : List Event) (ph : MaskPhase),
      (createJobStart (mkLine "ls" []) oneChildWorld).2.trace = oneChildWorld.trace ++ d1 ∧
      (createJob (mkLine "ls" []) oneChildWorld).2.trace = oneChildWorld.trace ++ (d1 ++ d2) ∧
      (createJobStart (mkLine "ls" []) oneChildWorld).2.joblist =
        { jobs := oneChildWorld.joblist.jobs ++
            [startedJob (mkLine "ls" []) oneChildWorld.joblist.nextNum (forkedPids d1)] } ∧
      forkedPids d2 = [] ∧
      maskScan .before (d1 ++ d2) = some ph ∧
      (ph = .done ↔ (createJob (mkLine "ls" []) oneChildWorld).1 = .ok ()) ∧
      ((createJob (mkLine "ls" []) oneChildWorld).1 = .ok () →
        (createJob (mkLine "ls" []) oneChildWorld).2.blocked = false) :=
  ⟨by decide!, createJob_forks_while_sigchld_blocked (mkLine "ls" []) oneChildWorld (by decide!)⟩

theorem openedFds_append (t u : List Event) : openedFds (t ++ u) = openedFds t ++ openedFds u := by
  simp [openedFds]

theorem closedFds_append (t u : List Event) : closedFds (t ++ u) = closedFds t ++ closedFds u := by
  simp [closedFds]

theorem openedFds_closeEvents (prev out c1 c2 : Int) :
    openedFds (closeEvents prev out c1 c2) = [] := by
  unfold closeEvents openedFds
  split <;> split <;> rfl

theorem closedFds_openEvents (p : pipeline) (rest : List command) (a rd wr out : Int) :
    closedFds (openEvents p rest a rd wr out) = [] := by
  unfold openEvents closedFds
  split
  · rfl
  · split <;> rfl

theorem closedFds_closeEvents (prev out c1 c2 : Int) (h1 : 0 ≤ c1) (h2 : 0 ≤ c2) :
    closedFds (closeEvents prev out c1 c2) =
      pendingInput prev ++ (if out = STDOUT_FILENO then [] else [out]) := by
  unfold closeEvents closedFds pendingInput
  by_cases hp : prev = STDIN_FILENO <;> by_cases ho : out = STDOUT_FILENO <;> simp [hp, ho, h1, h2]

theorem openedFds_openEvents (p : pipeline) (rest : List command) (a rd wr out : Int)
    (h : rest = [] → p.output.length ≠ 0 → 0 ≤ out) :
    openedFds (openEvents p rest a rd wr out) =
      if rest ≠ [] then [rd, wr] else if p.output.length = 0 then [] else [out] := by
  unfold openEvents openedFds
  by_cases hr : rest = []
  · by_cases ho : p.output.length = 0
    · simp [hr, ho]
    · simp [hr, ho, h hr ho]
  · simp [hr]

/-- The ledger of the descriptors over a run of the loop of `createJob` that
returns, for at least one command: with the descriptors handed out different
from the standard ones, the descriptors closed are the input descriptor held
at the start and the descriptors opened meanwhile, each once. -/
theorem createJobLoop_ledger (job : Nat) (p : pipeline) (cmds : List command) :
    ∀ (prev : Int) (w w1 : World), cmds ≠ [] →
      createJobLoop job p cmds prev w = (.ok (), w1) →
      ∃ d : List Event, w1.trace = w.trace ++ d ∧
        (openedFds d).length =
          2 * (cmds.length - 1) + (if p.output.length = 0 then 0 else 1) ∧
        ((∀ fd ∈ openedFds d, fd ≠ STDIN_FILENO ∧ fd ≠ STDOUT_FILENO) →
          (closedFds d).Perm (pendingInput prev ++ openedFds d)) := by
  induction cmds with
  | nil => intro _ _ _ h; exact absurd rfl h
  | cons c rest ih =>
    intro prev w w1 _ h
    obtain ⟨out, next, pid, w3, hit, hrest⟩ := createJobLoop_ok_step _ _ _ _ _ _ _ h
    obtain ⟨a, b, c1, c2, rd, wr, ha, hb, hc1, hc2, hpipe, hout, ht3⟩ := hit.trace
    have hiter : openedFds (openEvents p rest a rd wr out ++
        [{ call := .fork, ret := pid },
         { call := .setpgid pid ((w.addProcess job (STSHProcess.create pid c)).groupOf job),
           ret := b }] ++ closeEvents prev out c1 c2) =
        if rest ≠ [] then [rd, wr] else if p.output.length = 0 then [] else [out] := by
      rw [openedFds_append, openedFds_append, openedFds_closeEvents,
        openedFds_openEvents p rest a rd wr out hout]
      simp [openedFds]
    have hiterc : closedFds (openEvents p rest a rd wr out ++
        [{ call := .fork, ret := pid },
         { call := .setpgid pid ((w.addProcess job (STSHProcess.create pid c)).groupOf job),
           ret := b }] ++ closeEvents prev out c1 c2) =
        pendingInput prev ++ (if out = STDOUT_FILENO then [] else [out]) := by
      rw [closedFds_append, closedFds_append, closedFds_openEvents,
        closedFds_closeEvents prev out c1 c2 hc1 hc2]
      simp [closedFds]
    generalize openEvents p rest a rd wr out ++
        [{ call := .fork, ret := pid },
         { call := .setpgid pid ((w.addProcess job (STSHProcess.create pid c)).groupOf job),
           ret := b }] ++ closeEvents prev out c1 c2 = it at ht3 hiter hiterc
    by_cases hr : rest = []
    · subst hr
      have hw1 : w1 = w3 := (ok_eq (hrest.symm.trans rfl : (Res.ok (), w1) = (Res.ok (), w3))).2
      subst hw1
      refine ⟨it, ht3, ?_, ?_⟩
      · rw [hiter]
        by_cases ho : p.output.length = 0 <;> simp [ho]
      · intro hfresh
        rw [hiterc]
        rw [hiter] at hfresh ⊢
        by_cases ho : p.output.length = 0
        · have h1 : out = STDOUT_FILENO := by
            rcases hit.wiring.1 with h | h
            · exact absurd rfl h
            · exact h ho
          simp [ho, h1]
        · have h1 : out ≠ STDOUT_FILENO := by
            have := hfresh out (by simp [ho])
            exact this.2
          simp [ho, h1]
    · obtain ⟨d2, ht2, hl2, hp2⟩ := ih next w3 w1 hr hrest
      obtain ⟨hwr, hrd⟩ := hpipe hr
      subst hwr hrd
      refine ⟨it ++ d2, by rw [ht2, ht3, List.append_assoc], ?_, ?_⟩
      · rw [openedFds_append, hiter, List.length_append, hl2]
        have : 0 < rest.length := List.length_pos.mpr hr
        simp only [hr, ne_eq, not_false_eq_true, if_true, List.length_cons, List.length_nil,
          Nat.add_sub_cancel]
        omega
      · intro hfresh
        rw [openedFds_append, hiter] at hfresh ⊢
        rw [closedFds_append, hiterc]
        simp only [hr, ne_eq, not_false_eq_true, if_true] at hfresh ⊢
        have hn : next ≠ STDIN_FILENO := (hfresh next (by simp)).1
        have ho : out ≠ STDOUT_FILENO := (hfresh out (by simp)).2
        have hp3 := hp2 (fun fd hfd => hfresh fd (by simp [hfd]))
        simp only [pendingInput, hn, if_false] at hp3
        simp only [ho, if_false]
        refine (List.Perm.append_left _ hp3).trans ?_
        simp only [List.append_assoc]
        refine List.Perm.append_left _ ?_
        simp only [List.singleton_append, List.cons_append, List.nil_append]
        exact List.Perm.swap _ _ _

theorem openedFds_headEvents (p : pipeline) (fd orig : Int) (h : readFromStdin p = false → 0 ≤ fd) :
    openedFds (headEvents p fd orig) = if readFromStdin p then [] else [fd] := by
  unfold headEvents openedFds
  cases hr : readFromStdin p
  · simp [h hr]
  · simp

theorem closedFds_headEvents (p : pipeline) (fd orig : Int) :
    closedFds (headEvents p fd orig) = [] := by
  unfold headEvents closedFds
  split <;> split <;> rfl

/-- C13: a run of `createJob` up to the end of its loop in which every system call
succeeds, for a pipeline of at least one command. The environment hands out
descriptors other than the standard input and output of the shell, which are
open. Then the descriptors closed in the shell are, each once, exactly the
descriptors opened (the input file, the output file and the two ends of each of
the N-1 pipes), and the standard input and output are not closed. -/
theorem createJob_closes_what_it_opened (p : pipeline) (w : World) (x : Nat × Int × Int)
    (d : List Event) (hne : p.commands ≠ []) (hok : (createJobStart p w).1 = .ok x)
    (htrace : (createJobStart p w).2.trace = w.trace ++ d)
    (hfresh : ∀ fd ∈ openedFds d, fd ≠ STDIN_FILENO ∧ fd ≠ STDOUT_FILENO) :
    (closedFds d).Perm (openedFds d) ∧
    STDIN_FILENO ∉ closedFds d ∧ STDOUT_FILENO ∉ closedFds d ∧
    (openedFds d).length = (if readFromStdin p then 0 else 1) + 2 * (p.commands.length - 1) +
      (if p.output.length = 0 then 0 else 1) := by
  have hp := run_eq_of_fst _ _ _ hok
  generalize (createJobStart p w).2 = wf at hp htrace
  unfold createJobStart at hp
  obtain ⟨y, w1, h1, hp⟩ := bind_ok _ _ _ _ _ hp
  obtain ⟨_, w2, h2, hp⟩ := bind_ok _ _ _ _ _ hp
  obtain ⟨hy, hw2⟩ := ok_eq (hp.symm.trans rfl : (Res.ok x, wf) = (Res.ok y, w2))
  subst hy hw2
  obtain ⟨_, _, _, _, hs, hin, _, ht1⟩ := createJobHead_ok p w w1 x h1
  obtain ⟨d2, ht2, hl2, hp2⟩ := createJobLoop_ledger x.1 p p.commands x.2.1 w1 wf hne h2
  have hd : d = headEvents p x.2.1 x.2.2 ++ d2 := by
    have h0 : w.trace ++ d = w.trace ++ (headEvents p x.2.1 x.2.2 ++ d2) := by
      rw [← htrace, ht2, ht1, List.append_assoc]
    exact List.append_cancel_left h0
  subst hd
  rw [openedFds_append, openedFds_headEvents p x.2.1 x.2.2 hin] at hfresh ⊢
  rw [closedFds_append, closedFds_headEvents, List.nil_append]
  have hpend : pendingInput x.2.1 = if readFromStdin p then [] else [x.2.1] := by
    unfold pendingInput
    cases hr : readFromStdin p
    · have := (hfresh x.2.1 (by simp [hr])).1
      simp [this]
    · simp [hs hr]
  have hperm := hp2 (fun fd hfd => hfresh fd (List.mem_append_right _ hfd))
  rw [hpend] at hperm
  refine ⟨hperm, ?_, ?_, ?_⟩
  · intro h0
    exact (hfresh _ (hperm.subset h0)).1 rfl
  · intro h0
    exact (hfresh _ (hperm.subset h0)).2 rfl
  · rw [List.length_append, hl2]
    cases readFromStdin p <;> simp
    omega

theorem createJob_closes_what_it_opened_witness :
    sortWc.commands ≠ [] ∧
    (createJobStart sortWc sortWcWorld).1 = .ok (1, 3, -1) ∧
    (∀ fd ∈ openedFds (createJobStart sortWc sortWcWorld).2.trace,
      fd ≠ STDIN_FILENO ∧ fd ≠ STDOUT_FILENO) ∧
    (closedFds (createJobStart sortWc sortWcWorld).2.trace).Perm
      (openedFds (createJobStart sortWc sortWcWorld).2.trace) ∧
    openedFds (createJobStart sortWc sortWcWorld).2.trace = [3, 4, 5, 3] :=
  ⟨by decide, by decide!, by decide!,
    (createJob_closes_what_it_opened sortWc sortWcWorld (1, 3, -1)
      (createJobStart sortWc sortWcWorld).2.trace (by decide) (by decide!)
      (List.nil_append _).symm (by decide!)).1,
    by decide!⟩

theorem iterOk_of_parts (job : Nat) (p : pipeline) (c : command) (rest : List command)
    (prev : Int) (w wa wb wc : World) (x : (Int × Int) × Int)
    (h1 : openOutput p rest w = (.ok x, wa))
    (h3 : startOrCleanup job p c prev x.2 wa = (.ok (), wb))
    (h5 : closeParentEnds prev x.2 wb = (.ok (), wc)) :
    ∃ pid, IterOk job p c rest prev w wc x.2 (if rest ≠ [] then x.1.1 else prev) pid ∧
      (rest ≠ [] → x.2 = x.1.2) := by
  obtain ⟨ja, ba, ia, a, ha, hx1, hx2, hx3, hta⟩ := openOutput_ok _ _ _ _ _ h1
  obtain ⟨pid, b, hpid, hb, jb, bb, ib, htb⟩ := startOrCleanup_ok _ _ _ _ _ _ _ h3
  obtain ⟨jc, bc, ic, c1, c2, hc1, hc2, htc⟩ := closeParentEnds_ok _ _ _ _ h5
  have hg : (wa.addProcess job (STSHProcess.create pid c)).groupOf job =
      (w.addProcess job (STSHProcess.create pid c)).groupOf job := by
    simp [World.addProcess, World.groupOf, ja]
  refine ⟨pid, ⟨hpid, ?_, bc.trans (bb.trans ba), ic.trans (ib.trans ia), ?_, ?_⟩, hx1⟩
  · rw [jc, jb, ja]
  · constructor
    · by_cases hr : rest ≠ []
      · exact Or.inl hr
      · exact Or.inr (hx2 (by simpa using hr))
    · intro hr
      simp [hr]
  · refine ⟨a, b, c1, c2, x.1.1, x.1.2, ha, hb, hc1, hc2, ?_, hx3, ?_⟩
    · intro hr
      exact ⟨hx1 hr, by simp [hr]⟩
    · rw [htc, htb, hta, hg]
      simp only [List.append_assoc]

theorem pipeFds_append (t u : List Event) : pipeFds (t ++ u) = pipeFds t ++ pipeFds u := by
  simp [pipeFds]

theorem pipeFds_openEvents (p : pipeline) (rest : List command) (a rd wr out : Int) :
    pipeFds (openEvents p rest a rd wr out) = if rest ≠ [] then [(rd, wr)] else [] := by
  unfold openEvents pipeFds
  by_cases hr : rest = []
  · by_cases ho : p.output.length = 0 <;> simp [hr, ho]
  · simp [hr]

theorem pipeFds_closeEvents (prev out c1 c2 : Int) : pipeFds (closeEvents prev out c1 c2) = [] := by
  unfold closeEvents pipeFds
  split <;> split <;> rfl

theorem pipeFds_headEvents (p : pipeline) (a b : Int) : pipeFds (headEvents p a b) = [] := by
  unfold headEvents pipeFds
  split <;> split <;> rfl

theorem reconciler_effect_witness :
    (0 : Int) < 100 ∧
    ∃ w1 : World,
      updateJobList [(100, .exited 0)]
          (worldWithJob [sampleProcess 100 .kRunning, sampleProcess 101 .kRunning] []) =
        updateJobList [] w1 ∧
      w1.joblist.jobs.map (fun j => (j.num, j.state, j.processes)) =
        [(1, .kBackground, [sampleProcess 100 .kTerminated, sampleProcess 101 .kRunning])] ∧
      (∀ k, k ≠ 1 → w1.joblist.getJob k =
        (worldWithJob [sampleProcess 100 .kRunning, sampleProcess 101 .kRunning] []).joblist.getJob k) := by
  refine ⟨by decide, ?_⟩
  obtain ⟨w1, h1, _, _, h4⟩ := reconciler_effect 100 (.exited 0) []
    (worldWithJob [sampleProcess 100 .kRunning, sampleProcess 101 .kRunning] []) (by decide)
  have h5 := h4 .kTerminated
    (STSHJob.mk 1 .kBackground [sampleProcess 100 .kRunning, sampleProcess 101 .kRunning])
    rfl (by decide!)
  refine ⟨w1, h1, ?_, h5.2.2⟩
  rw [h5.1]
  decide!

/-- C26 (code defect): `resume` and `sendSignal` block SIGCHLD and unblock it only at
the end of their normal path. Called with SIGCHLD unblocked, `fg 7` without a
job 7 raises `No such job` and leaves SIGCHLD blocked; `halt 100` for a process
that is Stopped returns early, and `slay 55` for an unknown pid raises, both
with SIGCHLD left blocked. The full path of `slay 100` unblocks it again. -/
theorem builtin_exit_paths_leave_sigchld_blocked :
    initialWorld.blocked = false ∧
    (handleBuiltin decimalNumber (mkLine "fg" ["7"]) initialWorld).1
      = .throw (.noSuchJob "fg" 7) ∧
    (handleBuiltin decimalNumber (mkLine "fg" ["7"]) initialWorld).2.blocked = true ∧
    (worldWithJob [sampleProcess 100 .kStopped] []).blocked = false ∧
    (handleBuiltin decimalNumber (mkLine "halt" ["100"])
      (worldWithJob [sampleProcess 100 .kStopped] [])).1 = .ok true ∧
    (handleBuiltin decimalNumber (mkLine "halt" ["100"])
      (worldWithJob [sampleProcess 100 .kStopped] [])).2.blocked = true ∧
    (handleBuiltin decimalNumber (mkLine "slay" ["55"])
      (worldWithJob [sampleProcess 100 .kStopped] [])).1 = .throw (.noProcessWithPid 55) ∧
    (handleBuiltin decimalNumber (mkLine "slay" ["55"])
      (worldWithJob [sampleProcess 100 .kStopped] [])).2.blocked = true ∧
    (handleBuiltin decimalNumber (mkLine "slay" ["100"])
      (worldWithJob [sampleProcess 100 .kStopped] [])).2.blocked = false := by
  refine ⟨rfl, ?_, ?_, rfl, ?_, ?_, ?_, ?_, ?_⟩ <;> decide!

/-! ## What the forked child does with the descriptors it is handed -/

theorem bind_replaced {α β : Type} (m : Act α) (f : α → Act β) (w : World)
    (h : ((m >>= f) w).1 = .replaced) :
    (m w).1 = .replaced ∨ ∃ a w0, m w = (.ok a, w0) ∧ (m >>= f) w = f a w0 := by
  rw [bind_run] at h ⊢
  unfold Act.bind at h ⊢
  rcases hm : m w with ⟨r, w0⟩
  rw [hm] at h
  cases r with
  | ok a => exact Or.inr ⟨a, w0, rfl, rfl⟩
  | throw e => exact absurd h (by simp)
  | exit c => exact absurd h (by simp)
  | replaced => exact Or.inl rfl
  | hang => exact absurd h (by simp)

theorem bind_replaced_left {α β : Type} (m : Act α) (f : α → Act β) (w : World)
    (h : (m w).1 = .replaced) : (m >>= f) w = (.replaced, (m w).2) := by
  rw [bind_run]
  unfold Act.bind
  rcases hm : m w with ⟨r, w0⟩
  rw [hm] at h
  simp only at h
  subst h
  rfl

theorem noExec_pure {α : Type} (a : α) : NoExec (pure a : Act α) := fun _ h => by
  cases h

theorem noExec_Act_pure {α : Type} (a : α) : NoExec (Act.pure a : Act α) := fun _ h => by
  cases h

theorem noExec_throwE {α : Type} (e : STSHException) : NoExec (throwE e : Act α) := fun _ h => by
  cases h

theorem noExec_bind {α β : Type} {m : Act α} {f : α → Act β} (hm : NoExec m)
    (hf : ∀ a, NoExec (f a)) : NoExec (m >>= f) := by
  intro w h
  rcases bind_replaced m f w h with h1 | ⟨a, w0, _, h2⟩
  · exact hm w h1
  · rw [h2] at h
    exact hf a w0 h

theorem noExec_ite {α : Type} {c : Prop} [Decidable c] {m n : Act α} (hm : NoExec m)
    (hn : NoExec n) : NoExec (if c then m else n) := by
  split
  · exact hm
  · exact hn

theorem noExec_close (fd : Int) : NoExec (close_errchk fd) := by
  intro w
  rw [close_errchk_run]
  split <;> simp

theorem noExec_dup2 (a b : Int) : NoExec (dup2_errchk a b) := by
  intro w
  rw [dup2_errchk_run]
  split <;> simp

theorem noExec_open (path : String) (b : Bool) : NoExec (open_errchk path b) := by
  intro w
  rw [open_errchk_run]
  split <;> simp

theorem noExec_setpgid (a b : Int) : NoExec (setpgid_errchk a b) := by
  intro w
  rw [setpgid_errchk_run]
  split <;> simp

theorem noExec_tcsetpgrp (a b : Int) : NoExec (tcsetpgrp_errchk a b) := by
  intro w
  rw [tcsetpgrp_errchk_run]
  split <;> simp

theorem noExec_tcgetpgrp (a : Int) : NoExec (tcgetpgrp_errchk a) := by
  intro w
  rw [tcgetpgrp_errchk_run]
  split <;> simp

theorem noExec_pipe2 : NoExec pipe2_errchk := by
  intro w
  rw [pipe2_errchk_run]
  split <;> simp

theorem noExec_syscall (c : SysCall) : NoExec (syscall c) := by
  intro w
  rw [syscall_run]
  simp

theorem noExec_jobGroupID (job : Nat) : NoExec (jobGroupID job) := fun _ h => by
  cases h

theorem noExec_childSetGroup (job : Nat) (input_fd : Int) (inForeground : Bool) :
    NoExec (childSetGroup job input_fd inForeground) := by
  unfold childSetGroup
  refine noExec_ite ?_ (noExec_pure _)
  refine noExec_bind (noExec_syscall _) (fun _ => ?_)
  refine noExec_bind (noExec_jobGroupID _) (fun _ => ?_)
  refine noExec_bind (noExec_setpgid _ _) (fun _ => ?_)
  exact noExec_bind (noExec_tcsetpgrp _ _) (fun _ => noExec_pure _)

theorem noExec_childRedirect (fd target : Int) : NoExec (childRedirect fd target) := by
  unfold childRedirect
  refine noExec_ite ?_ (noExec_pure _)
  refine noExec_bind (noExec_dup2 _ _) (fun _ => ?_)
  exact noExec_bind (noExec_close _) (fun _ => noExec_pure _)

theorem noExec_openOutput (p : pipeline) (rest : List command) : NoExec (openOutput p rest) := by
  unfold openOutput
  refine noExec_bind (noExec_ite noExec_pipe2 (noExec_Act_pure _)) (fun _ => ?_)
  refine noExec_bind ?_ (fun _ => noExec_pure _)
  exact noExec_ite (noExec_Act_pure _) (noExec_ite (noExec_Act_pure _) (noExec_open _ _))

theorem noExec_closeParentEnds (prev out : Int) : NoExec (closeParentEnds prev out) := by
  unfold closeParentEnds
  refine noExec_bind ?_ (fun _ => ?_)
  · exact noExec_ite (noExec_bind (noExec_close _) (fun _ => noExec_pure _)) (noExec_pure _)
  · exact noExec_ite (noExec_bind (noExec_close _) (fun _ => noExec_pure _)) (noExec_pure _)

theorem noExec_cleanupHandler (prev out : Int) (e : STSHException) :
    NoExec (cleanupHandler prev out e) := by
  unfold cleanupHandler
  refine noExec_bind (noExec_close _) (fun _ => ?_)
  exact noExec_bind (noExec_close _) (fun _ => noExec_throwE _)

theorem noExec_startProcessParent (job : Nat) (c : command) (child : Int) :
    NoExec (startProcessParent job c child) := by
  intro w
  rw [startProcessParent_run]
  split <;> simp

theorem noExec_createJobHead (p : pipeline) : NoExec (createJobHead p) := by
  unfold createJobHead
  refine noExec_bind (fun _ h => by cases h) (fun _ => ?_)
  refine noExec_bind (fun _ h => by cases h) (fun _ => ?_)
  refine noExec_bind (noExec_ite (noExec_Act_pure _) (noExec_open _ _)) (fun _ => ?_)
  refine noExec_bind (fun _ h => by cases h) (fun _ => ?_)
  refine noExec_bind (noExec_ite (noExec_tcgetpgrp _) (noExec_Act_pure _)) (fun _ => ?_)
  exact noExec_pure _

theorem dup2_errchk_ok (a b : Int) (w w1 : World) (r : Int)
    (h : dup2_errchk a b w = (.ok r, w1)) : 0 ≤ r ∧ r = w.nextAnswer ∧ w1 = w.push (.dup2 a b) := by
  obtain ⟨h1, h2, h3⟩ := errchk_ok (dup2_errchk a b) (.dup2 a b) .dup2Failed w w1 (fun r => r) r
    (dup2_errchk_run a b w) h
  exact ⟨h2 ▸ h1, h2, h3⟩

theorem childRedirect_ok (fd target : Int) (w w1 : World)
    (h : childRedirect fd target w = (.ok (), w1)) :
    w1.joblist = w.joblist ∧ w1.blocked = w.blocked ∧ w1.inChild = w.inChild ∧
    ∃ a b : Int, 0 ≤ a ∧ 0 ≤ b ∧ w1.trace = w.trace ++ redirectEvents fd target a b := by
  unfold childRedirect at h
  by_cases hfd : fd ≠ target
  · rw [if_pos hfd] at h
    obtain ⟨r1, w2, h1, h2⟩ := bind_ok _ _ _ _ _ h
    obtain ⟨r2, w3, h3, h4⟩ := bind_ok _ _ _ _ _ h2
    obtain ⟨ha, ha2, hw2⟩ := dup2_errchk_ok _ _ _ _ _ h1
    obtain ⟨hb, hb2, hw3⟩ := close_errchk_ok _ _ _ _ h3
    have hw1 : w3 = w1 := (ok_eq h4).2
    subst hw1 hw3 hw2
    refine ⟨rfl, rfl, rfl, r1, r2, ha, hb, ?_⟩
    simp [redirectEvents, hfd, World.push, ha2, hb2]
  · rw [if_neg hfd] at h
    have hw1 : w = w1 := (ok_eq h).2
    subst hw1
    exact ⟨rfl, rfl, rfl, 0, 0, le_refl _, le_refl _, by simp [redirectEvents, hfd]⟩

theorem childSetGroup_ext (job : Nat) (input_fd : Int) (inForeground : Bool) (w : World) :
    TraceExt isGroupCall w (childSetGroup job input_fd inForeground w).2 :=
  steps_childSetGroup (traceExt_traceFrame isGroupCall) rfl (fun _ _ => rfl) (fun _ _ => rfl)
    job input_fd inForeground w

/-- A child of `startProcess` that gets to run its program has put `input_fd` in
the place of its standard input and `output_fd` in the place of its standard
output before. -/
theorem startProcessChild_replaced (job : Nat) (c : command) (input_fd output_fd : Int)
    (inForeground : Bool) (w : World)
    (h : (startProcessChild job c input_fd output_fd inForeground w).1 = .replaced) :
    (startProcessChild job c input_fd output_fd inForeground w).2.inChild = w.inChild ∧
    ∃ (grp : List Event) (a1 b1 a2 b2 r : Int),
      (startProcessChild job c input_fd output_fd inForeground w).2.trace = w.trace ++
        ([{ call := .sigprocmaskUnblock SIGCHLD, ret := 0 }] ++ grp ++
          redirectEvents input_fd STDIN_FILENO a1 b1 ++
          redirectEvents output_fd STDOUT_FILENO a2 b2 ++
          [{ call := .execvp c.command, ret := r }]) ∧
      (∀ e ∈ grp, isGroupCall e.call = true) ∧
      0 ≤ a1 ∧ 0 ≤ b1 ∧ 0 ≤ a2 ∧ 0 ≤ b2 ∧ 0 ≤ r := by
  refine ⟨startProcessChild_inChild _ _ _ _ _ w, ?_⟩
  unfold startProcessChild at h ⊢
  rcases bind_replaced _ _ w h with h1 | ⟨u, w0, hm0, hw0⟩
  · exact absurd h1 (by simp [unblockSignal])
  rw [hw0] at h ⊢
  have ht0 : w0.trace = w.trace ++ [{ call := .sigprocmaskUnblock SIGCHLD, ret := 0 }] := by
    have : w0 = (unblockSignal SIGCHLD w).2 := by rw [hm0]
    rw [this]
    rfl
  rcases bind_replaced _ _ w0 h with h1 | ⟨u1, w1, hm1, hw1⟩
  · exact absurd h1 (noExec_childSetGroup _ _ _ w0)
  rw [hw1] at h ⊢
  obtain ⟨_, _, grp, ht1, hgrp⟩ : TraceExt isGroupCall w0 w1 := by
    have := childSetGroup_ext job input_fd inForeground w0
    rw [hm1] at this
    exact this
  rcases bind_replaced _ _ w1 h with h1 | ⟨u2, w2, hm2, hw2⟩
  · exact absurd h1 (noExec_childRedirect _ _ w1)
  rw [hw2] at h ⊢
  obtain ⟨_, _, _, a1, b1, ha1, hb1, ht2⟩ := childRedirect_ok _ _ _ _ hm2
  rcases bind_replaced _ _ w2 h with h1 | ⟨u3, w3, hm3, hw3⟩
  · exact absurd h1 (noExec_childRedirect _ _ w2)
  rw [hw3] at h ⊢
  obtain ⟨_, _, _, a2, b2, ha2, hb2, ht3⟩ := childRedirect_ok _ _ _ _ hm3
  have hx := execvp_errchk_run c.command w3
  rcases bind_replaced _ _ w3 h with h1 | ⟨u4, w4, hm4, hw4⟩
  · rw [bind_replaced_left _ _ w3 h1]
    unfold executeCommand at h1 ⊢
    rw [hx] at h1 ⊢
    by_cases hneg : w3.nextAnswer < 0
    · rw [if_pos hneg] at h1
      exact absurd h1 (by simp)
    · rw [if_neg hneg]
      refine ⟨grp, a1, b1, a2, b2, w3.nextAnswer, ?_, hgrp, ha1, hb1, ha2, hb2, not_lt.mp hneg⟩
      simp only [World.push, ht3, ht2, ht1, ht0, List.append_assoc]
  · unfold executeCommand at hm4
    rw [hx] at hm4
    split at hm4 <;> exact absurd hm4 (by simp)

theorem tryCatchE_replaced {α : Type} (body : Act α) (handler : STSHException → Act α)
    (hh : ∀ e, NoExec (handler e)) (w : World) (h : (tryCatchE body handler w).1 = .replaced) :
    (body w).1 = .replaced ∧ tryCatchE body handler w = body w := by
  unfold tryCatchE at h ⊢
  rcases hb : body w with ⟨r, w1⟩
  rw [hb] at h
  cases r with
  | throw e => exact absurd h (hh e w1)
  | ok a => exact absurd h (by simp)
  | exit c => exact absurd h (by simp)
  | hang => exact absurd h (by simp)
  | replaced => exact ⟨rfl, rfl⟩

theorem startOrCleanup_replaced (job : Nat) (p : pipeline) (c : command) (prev out : Int)
    (w : World) (h : (startOrCleanup job p c prev out w).1 = .replaced) :
    w.nextAnswer = 0 ∧
    startOrCleanup job p c prev out w =
      startProcessChild job c prev out (!p.background) { w.push .fork with inChild := true } := by
  unfold startOrCleanup at h ⊢
  obtain ⟨h1, h2⟩ := tryCatchE_replaced _ _ (noExec_cleanupHandler prev out) w h
  rw [h2]
  rw [startProcess_run] at h1 ⊢
  by_cases hneg : w.nextAnswer < 0
  · rw [if_pos hneg] at h1
    exact absurd h1 (by simp)
  · rw [if_neg hneg] at h1 ⊢
    by_cases hz : w.nextAnswer = 0
    · rw [if_pos hz]
      exact ⟨hz, rfl⟩
    · rw [if_neg hz] at h1
      exact absurd h1 (noExec_startProcessParent _ _ _ _)

theorem forks_openEvents (p : pipeline) (rest : List command) (a rd wr out : Int) :
    (openEvents p rest a rd wr out).filter (fun e => e.call == .fork) = [] := by
  unfold openEvents
  split
  · rfl
  · split <;> rfl

theorem forks_closeEvents (prev out c1 c2 : Int) :
    (closeEvents prev out c1 c2).filter (fun e => e.call == .fork) = [] := by
  unfold closeEvents
  split <;> split <;> rfl

/-- A run of the loop of `createJob` that ends with a child running its program:
the child is the one forked for the command of some index `i`, after `i` forks
that returned to the shell and `i` pipes; it has put in the place of its
standard input the descriptor the loop started with (`i = 0`) or the read end
of the pipe created last before its own iteration, and in the place of its
standard output the write end of the pipe created in its iteration or, for the
last command, the output of the pipeline. -/
theorem createJobLoop_replaced (job : Nat) (p : pipeline) (cmds : List command) :
    ∀ (prev : Int) (w : World), (createJobLoop job p cmds prev w).1 = .replaced →
      (createJobLoop job p cmds prev w).2.inChild = true ∧
      ∃ (i : Nat) (c : command) (inp outp : Int) (pre grp : List Event)
        (a rd wr out a1 b1 a2 b2 r : Int),
        cmds[i]? = some c ∧
        (createJobLoop job p cmds prev w).2.trace = w.trace ++
          (pre ++ openEvents p (cmds.drop (i + 1)) a rd wr out ++
            childEvents c inp outp grp a1 b1 a2 b2 r) ∧
        (pre.filter (fun e => e.call == .fork)).length = i ∧
        (forkedPids pre).length = i ∧
        (pipeFds pre).length = i ∧
        (∀ e ∈ pre, isLoopCall e.call = true) ∧
        (prev :: (pipeFds pre).map (fun f => f.1))[i]? = some inp ∧
        (i + 1 < cmds.length → outp = wr) ∧
        (i + 1 = cmds.length → outp = out ∧ (p.output.length = 0 → out = STDOUT_FILENO) ∧
          (p.output.length ≠ 0 → 0 ≤ out)) ∧
        (∀ e ∈ grp, isGroupCall e.call = true) ∧
        0 ≤ a ∧ 0 ≤ a1 ∧ 0 ≤ b1 ∧ 0 ≤ a2 ∧ 0 ≤ b2 ∧ 0 ≤ r := by
  induction cmds with
  | nil =>
    intro prev w h
    exact absurd h (by simp [createJobLoop, Act.pure])
  | cons c rest ih =>
    intro prev w h
    rw [createJobLoop_cons] at h ⊢
    rcases bind_replaced _ _ w h with h1 | ⟨x, wa, hm1, hw1⟩
    · exact absurd h1 (noExec_openOutput _ _ w)
    rw [hw1] at h ⊢
    obtain ⟨_, _, hia, a, ha, hx1, hx2, hx3, hta⟩ := openOutput_ok _ _ _ _ _ hm1
    rcases bind_replaced _ _ wa h with h2 | ⟨u, wb, hm2, hw2⟩
    · -- the child of this iteration
      rw [bind_replaced_left _ _ wa h2]
      obtain ⟨hz, hrun⟩ := startOrCleanup_replaced _ _ _ _ _ _ h2
      rw [hrun] at h2 ⊢
      obtain ⟨hin, grp, a1, b1, a2, b2, r, htr, hgrp, ha1, hb1, ha2, hb2, hr⟩ :=
        startProcessChild_replaced _ _ _ _ _ _ h2
      refine ⟨hin, 0, c, prev, x.2, [], grp, a, x.1.1, x.1.2, x.2, a1, b1, a2, b2, r,
        List.getElem?_cons_zero, ?_, rfl, rfl, rfl, ?_, rfl, ?_, ?_, hgrp, ha, ha1, hb1, ha2, hb2, hr⟩
      · rw [htr]
        simp only [World.push, hta, hz, childEvents, List.nil_append, List.drop_succ_cons,
          List.drop_zero, List.append_assoc, List.cons_append, List.singleton_append]
      · intro e he
        exact absurd he (List.not_mem_nil _)
      · intro hlt
        apply hx1
        intro hnil
        simp [hnil] at hlt
      · intro heq
        have hnil : rest = [] := by
          simp only [List.length_cons] at heq
          exact List.length_eq_zero.mp (by omega)
        exact ⟨rfl, hx2 hnil, hx3 hnil⟩
    · -- a child of a later iteration
      rw [hw2] at h ⊢
      rcases bind_replaced _ _ wb h with h3 | ⟨u2, wc, hm3, hw3⟩
      · exact absurd h3 (noExec_closeParentEnds _ _ wb)
      rw [hw3] at h ⊢
      obtain ⟨pid, hit, _⟩ := iterOk_of_parts job p c rest prev w wa wb wc x hm1 hm2 hm3
      obtain ⟨a0, b0, c1, c2, rd0, wr0, _, _, _, _, hrw, _, htc⟩ := hit.trace
      obtain ⟨hin, i, c', inp, outp, pre, grp, a', rd, wr, out, a1, b1, a2, b2, r, hc, htr, hfk,
        hfp, hpf, hlc, hinp, ho1, ho2, hgrp, ha', ha1, hb1, ha2, hb2, hr⟩ := ih _ wc h
      have hne : rest ≠ [] := by
        intro hnil
        rw [hnil] at hc
        simp at hc
      obtain ⟨_, hnext⟩ := hrw hne
      refine ⟨hin, i + 1, c', inp, outp,
        (openEvents p rest a0 rd0 wr0 x.2 ++
          [{ call := .fork, ret := pid },
           { call := .setpgid pid ((w.addProcess job (STSHProcess.create pid c)).groupOf job),
             ret := b0 }] ++ closeEvents prev x.2 c1 c2) ++ pre,
        grp, a', rd, wr, out, a1, b1, a2, b2, r, ?_, ?_, ?_, ?_, ?_, ?_, ?_, ?_, ?_, hgrp, ha',
        ha1, hb1, ha2, hb2, hr⟩
      · simpa using hc
      · rw [htr, htc]
        simp only [List.drop_succ_cons, List.append_assoc]
      · simp only [List.filter_append, List.length_append, forks_openEvents,
          forks_closeEvents, hfk]
        simp [List.filter_cons]
        omega
      · simp only [forkedPids_append, forkedPids_openEvents, forkedPids_closeEvents,
          List.length_append, hfp]
        have : forkedPids [{ call := .fork, ret := pid },
            { call := .setpgid pid ((w.addProcess job (STSHProcess.create pid c)).groupOf job),
              ret := b0 }] = [pid] := by
          simp [forkedPids, hit.pid_pos]
        rw [this]
        simp
        omega
      · simp only [pipeFds_append, pipeFds_openEvents, pipeFds_closeEvents, List.length_append,
          hpf, if_pos hne]
        simp [pipeFds]
        omega
      · intro e he
        rcases List.mem_append.mp he with h1 | h1
        · rcases List.mem_append.mp h1 with h2 | h2
          · rcases List.mem_append.mp h2 with h3 | h3
            · exact openEvents_loopCalls _ _ _ _ _ _ e h3
            · simp only [List.mem_cons, List.mem_singleton, List.not_mem_nil, or_false] at h3
              rcases h3 with h4 | h4 <;> (subst h4; rfl)
          · exact closeEvents_loopCalls _ _ _ _ e h2
        · exact hlc e h1
      · simp only [pipeFds_append, pipeFds_openEvents, pipeFds_closeEvents, if_pos hne,
          List.map_append, List.getElem?_cons_succ]
        have hpf0 : pipeFds [{ call := .fork, ret := pid },
            { call := .setpgid pid ((w.addProcess job (STSHProcess.create pid c)).groupOf job),
              ret := b0 }] = [] := by
          simp [pipeFds]
        rw [hpf0]
        simp only [List.map_cons, List.map_nil, List.append_nil, List.nil_append,
          List.singleton_append]
        rw [if_pos hne] at hinp hnext
        rw [← hnext]
        exact hinp
      · intro hlt
        apply ho1
        simp only [List.length_cons] at hlt
        omega
      · intro heq
        apply ho2
        simp only [List.length_cons] at heq
        omega

/-! ## Claim C12: the descriptors each command is started with -/

/-- Claim C12: take a run of `createJob` in which, after every system call so far
has succeeded, a `fork` returns 0, and follow the child until it runs its
program; the run is stated on lines 446-480 (`createJobStart`) and is the same
run of `createJob`. The child is the one of the command of some index `i`,
forked after `i` forks that returned a pid to the shell and after `i` pipes.
Before running the program of command `i` it has put `inp` in the place of its
standard input and `outp` in the place of its standard output (by `dup2` and
`close`; nothing is done for a descriptor that is the standard one already),
where `inp` is, for `i = 0`, the standard input when no input redirection is
given and the descriptor returned by opening the input file otherwise, and for
`i > 0` the read end of the pipe created in iteration `i - 1`; and `outp` is,
for `i < N - 1`, the write end of the pipe created in iteration `i` just before
the `fork`, and for `i = N - 1` the standard output when no output redirection
is given and the descriptor returned by opening the output file otherwise. -/
theorem createJob_wires_pipeline (p : pipeline) (w : World)
    (hrun : (createJobStart p w).1 = .replaced) :
    createJob p w = (.replaced, (createJobStart p w).2) ∧
    (createJobStart p w).2.inChild = true ∧
    ∃ (i : Nat) (c : command) (input orig inp outp : Int) (pre grp : List Event)
      (a rd wr out a1 b1 a2 b2 r : Int),
      p.commands[i]? = some c ∧
      (createJobStart p w).2.trace = w.trace ++
        (headEvents p input orig ++ pre ++ openEvents p (p.commands.drop (i + 1)) a rd wr out ++
          childEvents c inp outp grp a1 b1 a2 b2 r) ∧
      (readFromStdin p = true → input = STDIN_FILENO) ∧
      (readFromStdin p = false → 0 ≤ input) ∧
      (pre.filter (fun e => e.call == .fork)).length = i ∧
      (forkedPids pre).length = i ∧
      (pipeFds pre).length = i ∧
      (∀ e ∈ pre, isLoopCall e.call = true) ∧
      (input :: (pipeFds pre).map (fun f => f.1))[i]? = some inp ∧
      (i + 1 < p.commands.length → outp = wr) ∧
      (i + 1 = p.commands.length → outp = out ∧ (p.output.length = 0 → out = STDOUT_FILENO) ∧
        (p.output.length ≠ 0 → 0 ≤ out)) ∧
      (∀ e ∈ grp, isGroupCall e.call = true) ∧
      0 ≤ a ∧ 0 ≤ a1 ∧ 0 ≤ b1 ∧ 0 ≤ a2 ∧ 0 ≤ b2 ∧ 0 ≤ r := by
  refine ⟨?_, ?_⟩
  · rw [createJob_start_tail]
    exact bind_replaced_left _ _ w hrun
  unfold createJobStart at hrun ⊢
  rcases bind_replaced _ _ w hrun with h1 | ⟨x, w0, hm0, hw0⟩
  · exact absurd h1 (noExec_createJobHead p w)
  rw [hw0] at hrun ⊢
  obtain ⟨_, _, _, _, hstdin, hinput, _, ht0⟩ := createJobHead_ok p w w0 x hm0
  rcases bind_replaced _ _ w0 hrun with h2 | ⟨u, w1, hm1, hw1⟩
  · rw [bind_replaced_left _ _ w0 h2]
    obtain ⟨hin, i, c, inp, outp, pre, grp, a, rd, wr, out, a1, b1, a2, b2, r, hc, htr, hfk, hfp,
      hpf, hlc, hinp, ho1, ho2, hgrp, ha, ha1, hb1, ha2, hb2, hr⟩ :=
      createJobLoop_replaced x.1 p p.commands x.2.1 w0 h2
    refine ⟨hin, i, c, x.2.1, x.2.2, inp, outp, pre, grp, a, rd, wr, out, a1, b1, a2, b2, r, hc,
      ?_, hstdin, hinput, hfk, hfp, hpf, hlc, hinp, ho1, ho2, hgrp, ha, ha1, hb1, ha2, hb2, hr⟩
    rw [htr, ht0]
    simp only [List.append_assoc]
  · rw [hw1] at hrun
    exact absurd hrun (by simp [pure_run])

/-- Instance of claim C12 on `sort < in.txt | wc > out.txt &`, with `in.txt` opened
as descriptor 3, the pipe as (4, 5) and `out.txt` as descriptor 3: the child
of `sort` reads descriptor 3 and writes the write end 5, the child of `wc`
reads the read end 4 and writes descriptor 3; and on `ls` in the foreground,
whose child keeps the terminal as its input and output. -/
theorem createJob_wires_pipeline_witness :
    (createJobStart sortWc sortWcFirstChild).1 = .replaced ∧
    (createJobStart sortWc sortWcSecondChild).1 = .replaced ∧
    (createJobStart (mkLine "ls" []) lsChild).1 = .replaced ∧
    createJob sortWc sortWcFirstChild =
      (.replaced, (createJobStart sortWc sortWcFirstChild).2) ∧
    createJob sortWc sortWcSecondChild =
      (.replaced, (createJobStart sortWc sortWcSecondChild).2) ∧
    createJob (mkLine "ls" []) lsChild =
      (.replaced, (createJobStart (mkLine "ls" []) lsChild).2) ∧
    (createJob sortWc sortWcFirstChild).2.trace.map (fun e => e.call) =
      [.openRead "in.txt", .sigprocmaskBlock SIGCHLD, .pipe2, .pipe2Fds 4 5, .fork,
        .sigprocmaskUnblock SIGCHLD, .dup2 3 0, .close 3, .dup2 5 1, .close 5, .execvp "sort"] ∧
    (createJob sortWc sortWcSecondChild).2.trace.map (fun e => e.call) =
      [.openRead "in.txt", .sigprocmaskBlock SIGCHLD, .pipe2, .pipe2Fds 4 5, .fork,
        .setpgid 100 100, .close 3, .close 5, .openWrite "out.txt", .fork,
        .sigprocmaskUnblock SIGCHLD, .dup2 4 0, .close 4, .dup2 3 1, .close 3, .execvp "wc"] ∧
    (createJob (mkLine "ls" []) lsChild).2.trace.map (fun e => e.call) =
      [.sigprocmaskBlock SIGCHLD, .tcgetpgrp 0, .fork, .sigprocmaskUnblock SIGCHLD, .getpid,
        .setpgid 100 100, .tcsetpgrp 0 100, .execvp "ls"] :=
  ⟨by decide!, by decide!, by decide!,
    (createJob_wires_pipeline sortWc sortWcFirstChild (by decide!)).1,
    (createJob_wires_pipeline sortWc sortWcSecondChild (by decide!)).1,
    (createJob_wires_pipeline (mkLine "ls" []) lsChild (by decide!)).1,
    by decide!, by decide!, by decide!⟩

end Stsh

namespace Unixv6

/-- C23 (code defect): `inode_iget` returns -1 for the inumber 0 and for inumbers
beyond the last inode, and 0 in every other case. For a negative inumber it
returns 0, on every disk, after reading `buf` at a negative index; and when
`diskimg_readsector` fails (returns -1) for the sector of inode 1 it returns 0
as well, the value read is not looked at. -/
theorem inode_iget_reports_success_on_errors :
    (inode_iget v6 (sampleDisk 32 512) 0).1 = -1 ∧
    (inode_iget v6 (sampleDisk 32 512) 17).1 = -1 ∧
    (∀ fs : unixfilesystem,
      (inode_iget v6 fs (-1)).1 = 0 ∧ (inode_iget v6 fs (-1)).2.isNone = true) ∧
    (sampleDisk 32 (-1)).readsector 2 = -1 ∧
    (inode_iget v6 (sampleDisk 32 (-1)) 1).1 = 0 := by
  refine ⟨by decide, by decide, fun fs => ?_, rfl, by decide⟩
  have h16 : n_inode_per_sector v6 = 16 := by decide
  have hlt : ¬ ((-1 : Int) - 1 ≥ (fs.s_isize : Int) * 16) := by
    have : (0 : Int) ≤ (fs.s_isize : Int) * 16 := by positivity
    omega
  simp only [inode_iget, h16, hlt, if_false]
  refine ⟨by simp, ?_⟩
  simp [bufRead]
  decide

/-- C27 (code defect): the inner loop of `directory_findname` runs while
`i < sizeof(buf)`, the size of the buffer in bytes (512), not its number of
entries (32), and does not look at the number of valid bytes. For a directory
of 32 bytes (two entries) `file_getblock` reports 32 valid bytes; looking for a
name that is not there, the function reads `buf[32]`, outside the buffer; and
looking for `old` it returns the entry at index 5, which lies after the valid
bytes. -/
theorem directory_findname_reads_outside_buffer :
    file_getblock v6 (sampleDisk 32 512) 1 0 = some (32, some 10) ∧
    directory_findname v6 (sampleDisk 32 512) "new".toList 1 = .outside 0 32 ∧
    directory_findname v6 (sampleDisk 32 512) "old".toList 1
      = .ret 0 (some { d_inumber := 7, d_name := "old".toList }) ∧
    bufRead 32 ((sampleDisk 32 512).sector 10).dirents 5
      = some { d_inumber := 7, d_name := "old".toList } := by
  refine ⟨?_, ?_, ?_, ?_⟩ <;> decide!

theorem n_address_per_block_eq (L : Layout) (hS : L.DISKIMG_SECTOR_SIZE = 512) :
    n_address_per_block L = 256 := by
  unfold n_address_per_block
  rw [hS]
  decide

theorem inode_getsize_bound (inp : inode) (h0 : inp.i_size0 < 256) (h1 : inp.i_size1 < 65536) :
    0 ≤ inode_getsize inp ∧ inode_getsize inp < 16777216 := by
  unfold inode_getsize
  have ha : inp.i_size0 <<< 16 < 2 ^ 24 := by
    rw [Nat.shiftLeft_eq]
    omega
  have hb : inp.i_size1 < 2 ^ 24 := by omega
  have := Nat.or_lt_two_pow ha hb
  constructor
  · exact Int.ofNat_nonneg _
  · have h2 : ((2 : Nat) ^ 24 : Nat) = 16777216 := by norm_num
    rw [h2] at this
    exact_mod_cast this

theorem bufRead_inside {α : Type} (n : Int) (buf : Nat → α) (i : Int) (h0 : 0 ≤ i) (h1 : i < n) :
    bufRead n buf i = some (buf i.toNat) := by
  simp [bufRead, h0, h1]

theorem tdiv_nonneg_eq (a b : Int) (ha : 0 ≤ a) (hb : 0 ≤ b) :
    a.tdiv b = a / b ∧ a.tmod b = a % b :=
  ⟨Int.tdiv_eq_ediv ha hb, Int.tmod_eq_emod ha hb⟩

/-- C24: with sectors of 512 bytes (256 block numbers per sector) and the sizes of
`struct inode` (`i_size0` of 8 bits, `i_size1` of 16 bits), for every file
block index `k >= 0`: for a small file `inode_indexlookup` returns `i_addr[k]`
when `k < 8` and -1 otherwise; for a large file it returns entry `k mod 256` of
the block `i_addr[k div 256]` when `k < 7*256`, entry `(k - 7*256) mod 256` of
the block named by entry `(k - 7*256) div 256` of the block `i_addr[7]` when
`7*256 <= k < 7*256 + 256*256`, and -1 from there on. -/
theorem inode_indexlookup_mapping (L : Layout) (fs : unixfilesystem) (inp : inode) (k : Int)
    (hS : L.DISKIMG_SECTOR_SIZE = 512) (hk : 0 ≤ k)
    (h0 : inp.i_size0 < 256) (h1 : inp.i_size1 < 65536) :
    (inode_islarge L inp = false →
      inode_indexlookup L fs inp k =
        if k < 8 then some ((inp.i_addr k.toNat : Nat) : Int) else some (-1)) ∧
    (inode_islarge L inp = true →
      (k < 7 * 256 →
        inode_indexlookup L fs inp k =
          some (((fs.sector (inp.i_addr (k / 256).toNat : Nat)).words (k % 256).toNat : Nat) : Int)) ∧
      (7 * 256 ≤ k → k < 7 * 256 + 256 * 256 →
        inode_indexlookup L fs inp k =
          some (((fs.sector
            ((fs.sector (inp.i_addr 7 : Nat)).words ((k - 7 * 256) / 256).toNat : Nat)).words
              ((k - 7 * 256) % 256).toNat : Nat) : Int)) ∧
      (7 * 256 + 256 * 256 ≤ k → inode_indexlookup L fs inp k = some (-1))) := by
  have hn := n_address_per_block_eq L hS
  have hsz := inode_getsize_bound inp h0 h1
  have hmax : inode_getsize inp ≤ DISKIMG_MAX_FILESIZE L := by
    unfold DISKIMG_MAX_FILESIZE
    rw [hn, hS]
    omega
  have hw : L.DISKIMG_SECTOR_SIZE.tdiv 2 = 256 := hn
  constructor
  · intro hsmall
    unfold inode_indexlookup
    simp only [hsmall, Bool.not_false, if_true]
    by_cases h8 : k < 8
    · have : ¬ k ≥ 8 := by omega
      simp only [this, if_false, h8, if_true, addrAt, bufRead_inside 8 inp.i_addr k hk h8,
        Option.map_some']
      rfl
    · have : k ≥ 8 := by omega
      simp only [this, if_true, h8, if_false]
  · intro hlarge
    refine ⟨fun hlt => ?_, fun hge hlt => ?_, fun hge => ?_⟩
    · unfold inode_indexlookup
      simp only [hlarge, Bool.not_true, Bool.false_eq_true, if_false, hmax, if_true, hn]
      have hlt' : k < 7 * 256 := hlt
      obtain ⟨hd, hm⟩ := tdiv_nonneg_eq k 256 hk (by norm_num)
      have hd0 : 0 ≤ k / 256 := Int.ediv_nonneg hk (by norm_num)
      have hd8 : k / 256 < 8 := by omega
      have hm0 : 0 ≤ k % 256 := Int.emod_nonneg _ (by norm_num)
      have hm1 : k % 256 < 256 := Int.emod_lt_of_pos _ (by norm_num)
      simp only [hlt', if_true, hd, hm, addrAt, bufRead_inside 8 inp.i_addr _ hd0 hd8,
        Option.map_some', Option.some_bind, lookup_address_block, hw,
        bufRead_inside 256 _ _ hm0 hm1]
      rfl
    · unfold inode_indexlookup
      simp only [hlarge, Bool.not_true, Bool.false_eq_true, if_false, hmax, if_true, hn]
      have h1' : ¬ k < 7 * 256 := by omega
      have h2' : ¬ k ≥ 7 * 256 + 256 * 256 := by omega
      have hk2 : 0 ≤ k - 7 * 256 := by omega
      obtain ⟨hd, hm⟩ := tdiv_nonneg_eq (k - 7 * 256) 256 hk2 (by norm_num)
      have hd0 : 0 ≤ (k - 7 * 256) / 256 := Int.ediv_nonneg hk2 (by norm_num)
      have hd8 : (k - 7 * 256) / 256 < 256 := by omega
      have hm0 : 0 ≤ (k - 7 * 256) % 256 := Int.emod_nonneg _ (by norm_num)
      have hm1 : (k - 7 * 256) % 256 < 256 := Int.emod_lt_of_pos _ (by norm_num)
      simp only [h1', h2', if_false, hd, hm, addrAt,
        bufRead_inside 8 inp.i_addr 7 (by norm_num) (by norm_num),
        Option.map_some', Option.some_bind, lookup_address_block, hw,
        bufRead_inside 256 _ _ hm0 hm1, bufRead_inside 256 _ _ hd0 hd8]
      rfl
    · unfold inode_indexlookup
      simp only [hlarge, Bool.not_true, Bool.false_eq_true, if_false, hmax, if_true, hn]
      have h1' : ¬ k < 7 * 256 := by omega
      have h2' : k ≥ 7 * 256 + 256 * 256 := by omega
      simp only [h1', h2', if_false, if_true]

theorem inode_indexlookup_mapping_witness :
    v6.DISKIMG_SECTOR_SIZE = 512 ∧ (0 : Int) ≤ 300 ∧
    largeInode.i_size0 < 256 ∧ largeInode.i_size1 < 65536 ∧
    inode_islarge v6 largeInode = true ∧
    inode_indexlookup v6 (sampleDisk 32 512) largeInode 300 =
      some ((((sampleDisk 32 512).sector
        (largeInode.i_addr ((300 : Int) / 256).toNat : Nat)).words
          ((300 : Int) % 256).toNat : Nat) : Int) :=
  ⟨rfl, by decide, by decide, by decide, by decide,
    ((inode_indexlookup_mapping v6 (sampleDisk 32 512) largeInode 300 rfl (by decide)
      (by decide) (by decide)).2 (by decide)).1 (by decide)⟩

theorem inode_getsize_nonneg (inp : inode) : 0 ≤ inode_getsize inp := Int.ofNat_nonneg _

theorem file_getblock_value (L : Layout) (fs : unixfilesystem) (inumber : Int) (inp : inode)
    (k b : Int) (hS : L.DISKIMG_SECTOR_SIZE = 512)
    (hget : inode_iget L fs inumber = (0, some inp))
    (hlook : inode_indexlookup L fs inp k = some b) (hb : 0 ≤ b) (hread : 0 ≤ fs.readsector b) :
    file_getblock L fs inumber k =
      some (if k < claimedBlocks (inode_getsize inp) then claimedBytes (inode_getsize inp) k
        else -1, some b) := by
  have hs := inode_getsize_nonneg inp
  obtain ⟨hd, hm⟩ := tdiv_nonneg_eq (inode_getsize inp) 512 hs (by norm_num)
  unfold file_getblock
  simp only [hget, hlook, hS, hd, hm]
  have h1 : ¬ ((0 : Int) < 0) := by omega
  have h2 : ¬ (b < 0) := by omega
  have h3 : ¬ (fs.readsector b < 0) := by omega
  simp only [h1, h2, h3, if_false]
  unfold claimedBytes claimedBlocks
  generalize inode_getsize inp = s at hs ⊢
  by_cases hz : s % 512 = 0
  · simp only [hz, if_true]
    by_cases hlt : k < (s + 511) / 512
    · have : ¬ k ≥ s / 512 := by omega
      simp only [this, if_false, hlt, if_true]
      congr 2
      split <;> omega
    · have : k ≥ s / 512 := by omega
      simp only [this, if_true, hlt, if_false]
  · simp only [hz, if_false]
    by_cases hlt : k < (s + 511) / 512
    · have : ¬ k ≥ s / 512 + 1 := by omega
      simp only [this, if_false, hlt, if_true]
      by_cases hl : k = s / 512 + 1 - 1
      · have hl2 : k = (s + 511) / 512 - 1 := by omega
        simp only [hl, hl2, if_true]
        congr 2
        omega
      · have hl2 : ¬ k = (s + 511) / 512 - 1 := by omega
        simp only [hl, hl2, if_false]
    · have : k ≥ s / 512 + 1 := by omega
      simp only [this, if_true, hlt, if_false]

theorem claimedBytes_pos (s k : Int) : 0 < claimedBytes s k := by
  unfold claimedBytes claimedBlocks
  split <;> omega

theorem claimedBytes_sum (s : Int) (hs : 0 ≤ s) :
    ∑ k in Finset.range (claimedBlocks s).toNat, claimedBytes s (k : Int) = s := by
  have hn0 : 0 ≤ claimedBlocks s := by unfold claimedBlocks; omega
  obtain ⟨n, hn⟩ := Int.eq_ofNat_of_zero_le hn0
  rw [hn, Int.toNat_natCast]
  cases n with
  | zero =>
    simp only [Finset.range_zero, Finset.sum_empty]
    unfold claimedBlocks at hn
    omega
  | succ m =>
    rw [Finset.sum_range_succ]
    have hfirst : ∀ k ∈ Finset.range m, claimedBytes s (k : Int) = 512 := by
      intro k hk
      have hk' := Finset.mem_range.mp hk
      unfold claimedBytes
      rw [hn]
      have : ¬ ((k : Int) = ((m + 1 : Nat) : Int) - 1) := by omega
      simp only [this, if_false]
    rw [Finset.sum_congr rfl hfirst]
    simp only [Finset.sum_const, Finset.card_range, nsmul_eq_mul]
    unfold claimedBytes
    rw [hn]
    have : ((m : Int) = ((m + 1 : Nat) : Int) - 1) := by omega
    simp only [this, if_true]
    push_cast
    ring

/-- C28: for an inode of `s` bytes fetched by `inode_iget`, with sectors of 512
bytes. For a block index `k >= 0` whose lookup gives a block number `b >= 0`
and whose sector read succeeds, `file_getblock` reads sector `b` and returns a
count that is non-negative exactly when `k < ceil(s / 512)`; the count is then
512 for every block but the last and `s - 512 * (ceil(s / 512) - 1)` for the
last. When lookup and read succeed for every such `k`, the counts add up to
`s`. -/
theorem file_getblock_byte_counts (L : Layout) (fs : unixfilesystem) (inumber : Int) (inp : inode)
    (hS : L.DISKIMG_SECTOR_SIZE = 512) (hget : inode_iget L fs inumber = (0, some inp)) :
    (∀ k b : Int, 0 ≤ k → inode_indexlookup L fs inp k = some b → 0 ≤ b → 0 ≤ fs.readsector b →
      ∃ r : Int, file_getblock L fs inumber k = some (r, some b) ∧
        (0 ≤ r ↔ k < claimedBlocks (inode_getsize inp)) ∧
        (k < claimedBlocks (inode_getsize inp) → r = claimedBytes (inode_getsize inp) k)) ∧
    ((∀ k : Nat, (k : Int) < claimedBlocks (inode_getsize inp) →
        ∃ b : Int, inode_indexlookup L fs inp k = some b ∧ 0 ≤ b ∧ 0 ≤ fs.readsector b) →
      ∑ k in Finset.range (claimedBlocks (inode_getsize inp)).toNat,
        ((file_getblock L fs inumber (k : Int)).map (fun r => r.1)).getD 0 = inode_getsize inp) := by
  constructor
  · intro k b _ hlook hb hread
    refine ⟨_, file_getblock_value L fs inumber inp k b hS hget hlook hb hread, ?_, ?_⟩
    · by_cases hlt : k < claimedBlocks (inode_getsize inp)
      · simp only [hlt, if_true, iff_true]
        exact le_of_lt (claimedBytes_pos _ _)
      · simp only [hlt, if_false, iff_false]
        omega
    · intro hlt
      simp only [hlt, if_true]
  · intro hall
    have hs := inode_getsize_nonneg inp
    have hn0 : 0 ≤ claimedBlocks (inode_getsize inp) := by unfold claimedBlocks; omega
    refine Eq.trans ?_ (claimedBytes_sum (inode_getsize inp) hs)
    apply Finset.sum_congr rfl
    intro k hk
    have hk' : (k : Int) < claimedBlocks (inode_getsize inp) := by
      have := Finset.mem_range.mp hk
      omega
    obtain ⟨b, hlook, hb, hread⟩ := hall k hk'
    rw [file_getblock_value L fs inumber inp k b hS hget hlook hb hread]
    simp only [hk', if_true, Option.map_some', Option.getD_some]

theorem file_getblock_byte_counts_witness :
    v6.DISKIMG_SECTOR_SIZE = 512 ∧
    (inode_iget v6 (sampleDisk 700 512) 1).1 = 0 ∧
    inode_getsize (dirInode 700) = 700 ∧
    (∀ k b : Int, 0 ≤ k → inode_indexlookup v6 (sampleDisk 700 512) (dirInode 700) k = some b →
      0 ≤ b → 0 ≤ (sampleDisk 700 512).readsector b →
      ∃ r : Int, file_getblock v6 (sampleDisk 700 512) 1 k = some (r, some b) ∧
        (0 ≤ r ↔ k < claimedBlocks (inode_getsize (dirInode 700))) ∧
        (k < claimedBlocks (inode_getsize (dirInode 700)) →
          r = claimedBytes (inode_getsize (dirInode 700)) k)) ∧
    (file_getblock v6 (sampleDisk 700 512) 1 0).map (fun r => r.1) = some 512 ∧
    (file_getblock v6 (sampleDisk 700 512) 1 1).map (fun r => r.1) = some 188 ∧
    (file_getblock v6 (sampleDisk 700 512) 1 2).map (fun r => r.1) = some (-1) :=
  ⟨rfl, by decide, by decide,
    (file_getblock_byte_counts v6 (sampleDisk 700 512) 1 (dirInode 700) rfl rfl).1,
    by decide, by decide, by decide⟩

end Unixv6

namespace Amazon

/-! ## The vector handed to `searchKeywordIndex` -/

/-- Claim C22: `searchKeywordIndex` does not clear the vector it is given. On the
sample index the query `radio` matches no review (the search of its only term
gives the empty set, and with an empty vector the method returns false and
leaves it empty), yet called with a vector that holds the index 5 the method
returns true and leaves the vector with that one index. -/
theorem searchKeywordIndex_keeps_old_indexes :
    convertQuery "radio" = [["radio"]] ∧
    findReviewsContainingTerm sampleIndex ["radio"] = [] ∧
    searchKeywordIndex sampleIndex "radio" [] = (false, []) ∧
    searchKeywordIndex sampleIndex "radio" [5] = (true, [5]) := by
  decide!

/-! ## Sets kept as increasing lists -/

theorem KeywordInfo.lt_equiv (a b : KeywordInfo) (h1 : KeywordInfo.lt a b = false)
    (h2 : KeywordInfo.lt b a = false) : a = b := by
  cases a with
  | mk r1 p1 o1 =>
  cases b with
  | mk r2 p2 o2 =>
  simp only [KeywordInfo.lt, decide_eq_false_iff_not] at h1 h2
  have hr : r1 = r2 := by omega
  have hp : p1 = p2 := by omega
  have ho : o1 = o2 := by omega
  subst hr hp ho
  rfl

theorem KeywordInfo.lt_self (a : KeywordInfo) : KeywordInfo.lt a a = false := by
  simp [KeywordInfo.lt]

theorem natLt_equiv (a b : Nat) (h1 : natLt a b = false) (h2 : natLt b a = false) : a = b := by
  simp only [natLt, decide_eq_false_iff_not] at h1 h2
  omega

theorem mem_setInsert {α : Type} (lt : α → α → Bool)
    (heq : ∀ a b, lt a b = false → lt b a = false → a = b) (x y : α) (s : List α) :
    y ∈ setInsert lt x s ↔ y = x ∨ y ∈ s := by
  induction s with
  | nil => simp [setInsert]
  | cons z zs ih =>
    unfold setInsert
    by_cases h1 : lt x z = true
    · simp [h1]
    · by_cases h2 : lt z x = true
      · simp only [h1, h2, if_true, if_false, List.mem_cons, ih, Bool.false_eq_true]
        tauto
      · have hxz : x = z := heq x z (by simpa using h1) (by simpa using h2)
        subst hxz
        simp [h1]

theorem setFind_iff {α : Type} (lt : α → α → Bool)
    (heq : ∀ a b, lt a b = false → lt b a = false → a = b) (hirr : ∀ a, lt a a = false)
    (s : List α) (x : α) : setFind lt s x = true ↔ x ∈ s := by
  unfold setFind
  rw [List.any_eq_true]
  constructor
  · rintro ⟨y, hy, h⟩
    simp only [Bool.and_eq_true, Bool.not_eq_true'] at h
    rw [heq x y h.1 h.2]
    exact hy
  · intro h
    exact ⟨x, h, by simp [hirr]⟩

/-! ## Looking a keyword up -/

theorem findKeywordPtr_some (file : List KeywordRecord) (w : String) (e : KeywordRecord)
    (h : findKeywordPtr file w = some e) : e ∈ file ∧ e.keyword = w := by
  unfold findKeywordPtr at h
  split at h
  · exact absurd h (by simp)
  · rename_i e0 hf
    split at h
    · exact absurd h (by simp)
    · rename_i hk
      have hk2 : e0.keyword = w := not_not.mp hk
      have h3 : e0 = e := Option.some.inj h
      subst h3
      exact ⟨List.mem_of_find?_eq_some hf, hk2⟩

theorem findKeywordPtr_of_mem (file : List KeywordRecord)
    (hsorted : file.Pairwise (fun a b => a.keyword < b.keyword)) (e : KeywordRecord)
    (he : e ∈ file) : findKeywordPtr file e.keyword = some e := by
  induction file with
  | nil => simp at he
  | cons a rest ih =>
    rw [List.pairwise_cons] at hsorted
    rcases List.mem_cons.mp he with hea | her
    · subst hea
      simp [findKeywordPtr, List.find?]
    · have hlt : a.keyword < e.keyword := hsorted.1 e her
      have ih2 := ih hsorted.2 her
      unfold findKeywordPtr at ih2 ⊢
      simp only [List.find?, hlt, decide_True, Bool.not_true]
      exact ih2

theorem findKeywordPtr_none (file : List KeywordRecord)
    (hsorted : file.Pairwise (fun a b => a.keyword < b.keyword)) (w : String) :
    findKeywordPtr file w = none ↔ ∀ e ∈ file, e.keyword ≠ w := by
  constructor
  · intro h e he hk
    have := findKeywordPtr_of_mem file hsorted e he
    rw [hk, h] at this
    simp at this
  · intro h
    cases hf : findKeywordPtr file w with
    | none => rfl
    | some e =>
      have := findKeywordPtr_some file w e hf
      exact absurd this.2 (h e this.1)

theorem lists_iff (file : List KeywordRecord)
    (hsorted : file.Pairwise (fun a b => a.keyword < b.keyword)) (w : String) (r p o : Nat) :
    lists file w r p o = true ↔
      ∃ e, findKeywordPtr file w = some e ∧
        ∃ block ∈ e.entries, parse_keyword_info block = ⟨r, p, o⟩ := by
  unfold lists
  rw [List.any_eq_true]
  constructor
  · rintro ⟨e, he, h⟩
    simp only [Bool.and_eq_true, beq_iff_eq, List.any_eq_true] at h
    refine ⟨e, ?_, h.2⟩
    rw [← h.1]
    exact findKeywordPtr_of_mem file hsorted e he
  · rintro ⟨e, he, h⟩
    have := findKeywordPtr_some file w e he
    refine ⟨e, this.1, ?_⟩
    simp only [Bool.and_eq_true, beq_iff_eq, List.any_eq_true]
    exact ⟨this.2, h⟩

theorem parse_keyword_info_wordOffset (block : Nat × Nat) :
    (parse_keyword_info block).wordOffset < 2 ^ 24 := by
  unfold parse_keyword_info
  exact Nat.and_lt_two_pow _ (by norm_num)

/-! ## The loops of `findReviewsContainingTerm` -/

theorem mem_scan_round (isFirst : Bool) (set acc : List KeywordInfo) (k y : KeywordInfo) :
    y ∈ (if isFirst then setInsert KeywordInfo.lt k acc
        else if setFind KeywordInfo.lt set
            { k with wordOffset := (k.wordOffset + 2 ^ 32 - 1) % 2 ^ 32 } then
          setInsert KeywordInfo.lt k acc
        else acc) ↔
      y ∈ acc ∨ (k = y ∧ (isFirst = true ∨
          ({ y with wordOffset := (y.wordOffset + 2 ^ 32 - 1) % 2 ^ 32 } : KeywordInfo) ∈ set)) := by
  have e : y = k ↔ k = y := eq_comm
  cases isFirst with
  | true =>
    simp only [if_true, mem_setInsert KeywordInfo.lt KeywordInfo.lt_equiv, true_or, and_true]
    rw [e]
    exact Or.comm
  | false =>
    simp only [Bool.false_eq_true, if_false, false_or]
    by_cases hf : setFind KeywordInfo.lt set
        { k with wordOffset := (k.wordOffset + 2 ^ 32 - 1) % 2 ^ 32 } = true
    · have hm := (setFind_iff KeywordInfo.lt KeywordInfo.lt_equiv KeywordInfo.lt_self _ _).mp hf
      rw [if_pos hf, mem_setInsert KeywordInfo.lt KeywordInfo.lt_equiv, e]
      constructor
      · rintro (h | h)
        · subst h
          exact Or.inr ⟨rfl, hm⟩
        · exact Or.inl h
      · rintro (h | h)
        · exact Or.inr h
        · exact Or.inl h.1
    · have hm := fun h =>
        hf ((setFind_iff KeywordInfo.lt KeywordInfo.lt_equiv KeywordInfo.lt_self _ _).mpr h)
      rw [if_neg hf]
      constructor
      · intro h
        exact Or.inl h
      · rintro (h | h)
        · exact h
        · obtain ⟨h1, h2⟩ := h
          subst h1
          exact absurd h2 hm

theorem mem_foldl_scan (isFirst : Bool) (set : List KeywordInfo) (entries : List (Nat × Nat))
    (acc : List KeywordInfo) (y : KeywordInfo) :
    y ∈ entries.foldl (fun newKeywordInfoSet block =>
        let keywordInfo := parse_keyword_info block
        if isFirst then setInsert KeywordInfo.lt keywordInfo newKeywordInfoSet
        else
          let prevKeywordInfo :=
            { keywordInfo with wordOffset := (keywordInfo.wordOffset + 2 ^ 32 - 1) % 2 ^ 32 }
          if setFind KeywordInfo.lt set prevKeywordInfo then
            setInsert KeywordInfo.lt keywordInfo newKeywordInfoSet
          else newKeywordInfoSet) acc ↔
      y ∈ acc ∨ ∃ block ∈ entries, parse_keyword_info block = y ∧
        (isFirst = true ∨
          ({ y with wordOffset := (y.wordOffset + 2 ^ 32 - 1) % 2 ^ 32 } : KeywordInfo) ∈ set) := by
  induction entries generalizing acc with
  | nil => simp
  | cons b bs ih =>
    rw [List.foldl_cons, ih]
    simp only [List.mem_cons, exists_eq_or_imp]
    rw [mem_scan_round isFirst set acc (parse_keyword_info b) y]
    exact or_assoc

theorem mem_scanEntries (isFirst : Bool) (set : List KeywordInfo) (entries : List (Nat × Nat))
    (y : KeywordInfo) :
    y ∈ scanEntries isFirst set entries ↔
      ∃ block ∈ entries, parse_keyword_info block = y ∧
        (isFirst = true ∨
          ({ y with wordOffset := (y.wordOffset + 2 ^ 32 - 1) % 2 ^ 32 } : KeywordInfo) ∈ set) := by
  unfold scanEntries
  rw [mem_foldl_scan]
  simp

theorem prev_mem_iff (set : List KeywordInfo) (hb : ∀ z ∈ set, z.wordOffset < 2 ^ 24)
    (y : KeywordInfo) (hy : y.wordOffset < 2 ^ 24) :
    ({ y with wordOffset := (y.wordOffset + 2 ^ 32 - 1) % 2 ^ 32 } : KeywordInfo) ∈ set ↔
      1 ≤ y.wordOffset ∧ back 1 y ∈ set := by
  by_cases h0 : 1 ≤ y.wordOffset
  · have h1 : (y.wordOffset + 2 ^ 32 - 1) % 2 ^ 32 = y.wordOffset - 1 := by
      norm_num at hy ⊢
      omega
    rw [h1]
    simp [back, h0]
  · have h1 : y.wordOffset = 0 := by omega
    constructor
    · intro h
      have := hb _ h
      simp only [h1] at this
      norm_num at this
    · intro h
      exact absurd h.1 h0

theorem scanEntries_bound (isFirst : Bool) (set : List KeywordInfo) (entries : List (Nat × Nat))
    (z : KeywordInfo) (hz : z ∈ scanEntries isFirst set entries) : z.wordOffset < 2 ^ 24 := by
  rw [mem_scanEntries] at hz
  obtain ⟨b, _, hb, _⟩ := hz
  rw [← hb]
  exact parse_keyword_info_wordOffset b

theorem termLoop_none (file : List KeywordRecord) (ws : List String)
    (h : ∃ w ∈ ws, findKeywordPtr file w = none) (isFirst : Bool) (set : List KeywordInfo) :
    termLoop file ws isFirst set = none := by
  induction ws generalizing isFirst set with
  | nil => simp at h
  | cons w rest ih =>
    unfold termLoop
    cases hf : findKeywordPtr file w with
    | none => rfl
    | some e =>
      simp only []
      apply ih
      obtain ⟨w0, hw0, hn⟩ := h
      rcases List.mem_cons.mp hw0 with h1 | h1
      · subst h1
        rw [hf] at hn
        exact absurd hn (by simp)
      · exact ⟨w0, h1, hn⟩

theorem termLoop_rest (file : List KeywordRecord) (ws : List String)
    (hall : ∀ w ∈ ws, ∃ e, findKeywordPtr file w = some e) (set : List KeywordInfo)
    (hb : ∀ z ∈ set, z.wordOffset < 2 ^ 24) :
    ∃ out, termLoop file ws false set = some out ∧
      ∀ y, y ∈ out ↔ (ws.length ≤ y.wordOffset ∧ back ws.length y ∈ set ∧
        ∀ i w, ws[i]? = some w → listsAt file w (back (ws.length - 1 - i) y)) := by
  induction ws generalizing set with
  | nil =>
    refine ⟨set, rfl, fun y => ?_⟩
    simp [back]
  | cons w rest ih =>
    obtain ⟨e, he⟩ := hall w (List.mem_cons_self _ _)
    have hall2 : ∀ w ∈ rest, ∃ e, findKeywordPtr file w = some e :=
      fun w0 h0 => hall w0 (List.mem_cons_of_mem _ h0)
    obtain ⟨out, hout, hmem⟩ := ih hall2 (scanEntries false set e.entries)
      (fun z hz => scanEntries_bound _ _ _ z hz)
    refine ⟨out, ?_, fun y => ?_⟩
    · unfold termLoop
      rw [he]
      exact hout
    · rw [hmem y, mem_scanEntries]
      have hbk : ∀ n m, back n (back m y) = back (m + n) y := by
        intro n m
        simp [back, Nat.sub_sub]
      constructor
      · rintro ⟨hlen, ⟨b, hbe, hpb, hprev⟩, hrest⟩
        have hprev2 := hprev.resolve_left (by simp)
        have hyb : (back rest.length y).wordOffset < 2 ^ 24 := by
          rw [← hpb]
          exact parse_keyword_info_wordOffset b
        rw [prev_mem_iff set hb _ hyb] at hprev2
        have h1 : 1 ≤ y.wordOffset - rest.length := hprev2.1
        refine ⟨?_, ?_, ?_⟩
        · simp only [List.length_cons]
          omega
        · have := hprev2.2
          rw [hbk] at this
          exact this
        · intro i w0 hi
          cases i with
          | zero =>
            simp only [List.getElem?_cons_zero, Option.some.injEq] at hi
            subst hi
            simp only [List.length_cons, Nat.add_sub_cancel, Nat.sub_zero]
            exact ⟨e, he, b, hbe, hpb⟩
          | succ j =>
            simp only [List.getElem?_cons_succ] at hi
            have := hrest j w0 hi
            have hj : j < rest.length := by
              rcases List.getElem?_eq_some_iff.mp hi with ⟨h, _⟩
              exact h
            have e1 : (w :: rest).length - 1 - (j + 1) = rest.length - 1 - j := by
              simp only [List.length_cons]
              omega
            rw [e1]
            exact this
      · rintro ⟨hlen, hset, hrest⟩
        simp only [List.length_cons] at hlen
        have h0 := hrest 0 w (by simp)
        simp only [List.length_cons, Nat.add_sub_cancel, Nat.sub_zero] at h0
        obtain ⟨e0, he0, b, hbe, hpb⟩ := h0
        rw [he] at he0
        have he1 : e = e0 := Option.some.inj he0
        subst he1
        have hyb : (back rest.length y).wordOffset < 2 ^ 24 := by
          rw [← hpb]
          exact parse_keyword_info_wordOffset b
        refine ⟨by omega, ⟨b, hbe, hpb, Or.inr ?_⟩, ?_⟩
        · rw [prev_mem_iff set hb _ hyb]
          refine ⟨?_, ?_⟩
          · show 1 ≤ y.wordOffset - rest.length
            omega
          · rw [hbk]
            exact hset
        · intro i w0 hi
          have := hrest (i + 1) w0 (by simpa using hi)
          have hj : i < rest.length := by
            rcases List.getElem?_eq_some_iff.mp hi with ⟨h, _⟩
            exact h
          have e1 : (w :: rest).length - 1 - (i + 1) = rest.length - 1 - i := by
            simp only [List.length_cons]
            omega
          rw [e1] at this
          exact this

theorem mem_reviewIndices (set : List KeywordInfo) (acc : List Nat) (r : Nat) :
    r ∈ set.foldl (fun reviewIndices element =>
        setInsert natLt element.reviewIndex reviewIndices) acc ↔
      r ∈ acc ∨ ∃ y ∈ set, y.reviewIndex = r := by
  induction set generalizing acc with
  | nil => simp
  | cons a rest ih =>
    rw [List.foldl_cons, ih, mem_setInsert natLt natLt_equiv]
    simp only [List.mem_cons, exists_eq_or_imp]
    constructor
    · rintro ((h | h) | h)
      · exact Or.inr (Or.inl h.symm)
      · exact Or.inl h
      · exact Or.inr (Or.inr h)
    · rintro (h | h | h)
      · exact Or.inl (Or.inr h)
      · exact Or.inl (Or.inl h.symm)
      · exact Or.inr h

theorem setInsert_increasing (x : Nat) (s : List Nat) (hs : s.Pairwise (fun a b => a < b)) :
    (setInsert natLt x s).Pairwise (fun a b => a < b) := by
  induction s with
  | nil => simp [setInsert]
  | cons z zs ih =>
    rw [List.pairwise_cons] at hs
    unfold setInsert
    by_cases h1 : natLt x z = true
    · rw [if_pos h1]
      have hxz : x < z := by simpa [natLt] using h1
      refine List.pairwise_cons.mpr ⟨?_, List.pairwise_cons.mpr hs⟩
      intro b hb
      rcases List.mem_cons.mp hb with h | h
      · rw [h]
        exact hxz
      · exact lt_trans hxz (hs.1 b h)
    · rw [if_neg h1]
      by_cases h2 : natLt z x = true
      · rw [if_pos h2]
        have hzx : z < x := by simpa [natLt] using h2
        refine List.pairwise_cons.mpr ⟨?_, ih hs.2⟩
        intro b hb
        rcases (mem_setInsert natLt natLt_equiv x b zs).mp hb with h | h
        · rw [h]
          exact hzx
        · exact hs.1 b h
      · rw [if_neg h2]
        exact List.pairwise_cons.mpr hs

theorem reviewIndices_increasing (set : List KeywordInfo) (acc : List Nat)
    (hacc : acc.Pairwise (fun a b => a < b)) :
    (set.foldl (fun reviewIndices element =>
        setInsert natLt element.reviewIndex reviewIndices) acc).Pairwise (fun a b => a < b) := by
  induction set generalizing acc with
  | nil => exact hacc
  | cons a rest ih =>
    rw [List.foldl_cons]
    exact ih _ (setInsert_increasing _ _ hacc)

theorem lists_iff_listsAt (file : List KeywordRecord)
    (hsorted : file.Pairwise (fun a b => a.keyword < b.keyword)) (w : String) (r p o : Nat) :
    lists file w r p o = true ↔ listsAt file w ⟨r, p, o⟩ :=
  lists_iff file hsorted w r p o

/-! ## The reviews that contain a term -/

/-- Claim C25: on a keyword index whose keywords stand in strictly increasing
order (what the binary search of `findKeywordPtr` relies on), for a non-empty
term `findReviewsContainingTerm` returns, as an increasing list, exactly the
review indices `r` for which a portion `p` and a word offset `o` exist such that
the index lists the `i`-th word of the term (counted from 0) at review `r`,
portion `p`, offset `o + i`; and it returns the empty set when a word of the
term is not a keyword of the index. -/
theorem findReviewsContainingTerm_exact (file : List KeywordRecord) (term : List String)
    (hsorted : file.Pairwise (fun a b => a.keyword < b.keyword)) (hne : term ≠ []) :
    (∀ r, r ∈ findReviewsContainingTerm file term ↔
      ∃ p o, ∀ i w, term[i]? = some w → lists file w r p (o + i) = true) ∧
    (findReviewsContainingTerm file term).Pairwise (fun a b => a < b) ∧
    ((∃ w ∈ term, ∀ e ∈ file, e.keyword ≠ w) → findReviewsContainingTerm file term = []) := by
  refine ⟨fun r => ?_, ?_, ?_⟩
  · simp only [lists_iff_listsAt file hsorted]
    by_cases hall : ∀ w ∈ term, ∃ e, findKeywordPtr file w = some e
    · cases term with
      | nil => exact absurd rfl hne
      | cons w1 rest =>
        obtain ⟨e1, he1⟩ := hall w1 (List.mem_cons_self _ _)
        obtain ⟨out, hout, hmem⟩ := termLoop_rest file rest
          (fun w0 h0 => hall w0 (List.mem_cons_of_mem _ h0)) (scanEntries true [] e1.entries)
          (fun z hz => scanEntries_bound _ _ _ z hz)
        have hrun : termLoop file (w1 :: rest) true [] = some out := by
          unfold termLoop
          rw [he1]
          exact hout
        unfold findReviewsContainingTerm
        rw [hrun]
        simp only []
        rw [mem_reviewIndices]
        simp only [List.not_mem_nil, false_or]
        constructor
        · rintro ⟨y, hy, hr⟩
          obtain ⟨hlen, hfirst, hrest⟩ := (hmem y).mp hy
          rw [mem_scanEntries] at hfirst
          obtain ⟨b, hbe, hpb, _⟩ := hfirst
          refine ⟨y.reviewPortion, y.wordOffset - rest.length, ?_⟩
          intro i w hi
          cases i with
          | zero =>
            simp only [List.getElem?_cons_zero, Option.some.injEq] at hi
            subst hi
            refine ⟨e1, he1, b, hbe, ?_⟩
            rw [hpb, ← hr]
            rfl
          | succ j =>
            simp only [List.getElem?_cons_succ] at hi
            have hj : j < rest.length := by
              rcases List.getElem?_eq_some_iff.mp hi with ⟨h, _⟩
              exact h
            have h2 := hrest j w hi
            have e2 : back (rest.length - 1 - j) y =
                ⟨r, y.reviewPortion, y.wordOffset - rest.length + (j + 1)⟩ := by
              rw [← hr]
              simp only [back, KeywordInfo.mk.injEq, true_and]
              omega
            rw [e2] at h2
            exact h2
        · rintro ⟨p, o, h⟩
          refine ⟨⟨r, p, o + rest.length⟩, ?_, rfl⟩
          rw [hmem]
          refine ⟨Nat.le_add_left _ _, ?_, ?_⟩
          · rw [mem_scanEntries]
            obtain ⟨e0, he0, b, hbe, hpb⟩ := h 0 w1 (by simp)
            rw [he1] at he0
            have he : e1 = e0 := Option.some.inj he0
            subst he
            refine ⟨b, hbe, ?_, Or.inl rfl⟩
            rw [hpb]
            simp [back]
          · intro i w hi
            have hj : i < rest.length := by
              rcases List.getElem?_eq_some_iff.mp hi with ⟨h, _⟩
              exact h
            have h2 := h (i + 1) w (by simpa using hi)
            have e2 : back (rest.length - 1 - i) ⟨r, p, o + rest.length⟩ =
                ⟨r, p, o + (i + 1)⟩ := by
              simp only [back, KeywordInfo.mk.injEq, true_and]
              omega
            rw [e2]
            exact h2
    · have hex : ∃ w ∈ term, findKeywordPtr file w = none := by
        by_contra hcon
        apply hall
        intro w hw
        cases hf : findKeywordPtr file w with
        | none => exact absurd ⟨w, hw, hf⟩ hcon
        | some e => exact ⟨e, rfl⟩
      unfold findReviewsContainingTerm
      rw [termLoop_none file term hex]
      simp only [List.not_mem_nil, false_iff]
      rintro ⟨p, o, h⟩
      obtain ⟨w, hw, hnone⟩ := hex
      obtain ⟨i, hi⟩ := List.getElem?_of_mem hw
      obtain ⟨e, he, _⟩ := h i w hi
      rw [hnone] at he
      exact absurd he (by simp)
  · unfold findReviewsContainingTerm
    split
    · exact List.Pairwise.nil
    · exact reviewIndices_increasing _ _ List.Pairwise.nil
  · rintro ⟨w, hw, habs⟩
    unfold findReviewsContainingTerm
    rw [termLoop_none file term ⟨w, hw, (findKeywordPtr_none file hsorted w).mpr habs⟩]

/-- Instance of claim C25 on the sample index with the term `did not`, whose
reviews are 3 and 7. -/
theorem findReviewsContainingTerm_exact_witness :
    sampleIndex.Pairwise (fun a b => a.keyword < b.keyword) ∧ ["did", "not"] ≠ [] ∧
    findReviewsContainingTerm sampleIndex ["did", "not"] = [3, 7] ∧
    ((∀ r, r ∈ findReviewsContainingTerm sampleIndex ["did", "not"] ↔
      ∃ p o, ∀ i w, ["did", "not"][i]? = some w → lists sampleIndex w r p (o + i) = true) ∧
    (findReviewsContainingTerm sampleIndex ["did", "not"]).Pairwise (fun a b => a < b) ∧
    ((∃ w ∈ ["did", "not"], ∀ e ∈ sampleIndex, e.keyword ≠ w) →
      findReviewsContainingTerm sampleIndex ["did", "not"] = [])) :=
  ⟨by decide!, by decide, by decide!,
    findReviewsContainingTerm_exact sampleIndex ["did", "not"] (by decide!) (by decide)⟩

/-! ## Characters of a query -/

theorem toLower_alnum (c : Char) (h : c.isAlphanum = true) : c.toLower.isAlphanum = true := by
  unfold Char.toLower
  simp only []
  split
  · rename_i hu
    have h1 : 65 ≤ c.toNat := hu.1
    have h2 : c.toNat ≤ 90 := hu.2
    have hc : c = Char.ofNat c.toNat := by simp
    generalize c.toNat = n at h1 h2 hc
    subst hc
    interval_cases n <;> decide
  · exact h

theorem alnum_plain (c : Char) (h : c.isAlphanum = true) : c ≠ '"' ∧ c ≠ ' ' ∧ c ≠ '-' := by
  refine ⟨?_, ?_, ?_⟩ <;> (intro h0; subst h0; revert h; decide)

theorem cleanQuery_append (a b : List Char) : cleanQuery (a ++ b) = cleanQuery a ++ cleanQuery b := by
  simp [cleanQuery, List.filterMap_append]

theorem cleanQuery_cons_alnum (c : Char) (l : List Char) (h : c.isAlphanum = true) :
    cleanQuery (c :: l) = c.toLower :: cleanQuery l := by
  simp [cleanQuery, List.filterMap_cons, keepChar, toLower_alnum c h]

theorem cleanQuery_cons_quote (l : List Char) : cleanQuery ('"' :: l) = '"' :: cleanQuery l := by
  have h : keepChar ('"' : Char) = true := by decide
  have h2 : ('"' : Char).toLower = '"' := by decide
  simp [cleanQuery, List.filterMap_cons, h, h2]

theorem cleanQuery_cons_space (l : List Char) : cleanQuery (' ' :: l) = ' ' :: cleanQuery l := by
  have h : keepChar (' ' : Char) = true := by decide
  have h2 : (' ' : Char).toLower = ' ' := by decide
  simp [cleanQuery, List.filterMap_cons, h, h2]

theorem cleanQuery_cons_dash (l : List Char) : cleanQuery ('-' :: l) = '-' :: cleanQuery l := by
  have h : keepChar ('-' : Char) = true := by decide
  have h2 : ('-' : Char).toLower = '-' := by decide
  simp [cleanQuery, List.filterMap_cons, h, h2]

theorem cleanQuery_word (w : List Char) (h : ∀ c ∈ w, c.isAlphanum = true) :
    cleanQuery w = w.map Char.toLower := by
  induction w with
  | nil => rfl
  | cons c l ih =>
    rw [cleanQuery_cons_alnum c l (h c (List.mem_cons_self _ _)), List.map_cons,
      ih (fun d hd => h d (List.mem_cons_of_mem _ hd))]

theorem isWord_iff (w : List Char) :
    isWord w = true ↔ w ≠ [] ∧ ∀ c ∈ w, c.isAlphanum = true := by
  cases w <;> simp [isWord]

theorem cleanQuery_joinWith (sep : Char) (hsep : ∀ l, cleanQuery (sep :: l) = sep :: cleanQuery l)
    (ws : List (List Char)) (h : ∀ w ∈ ws, isWord w = true) :
    cleanQuery (joinWith sep ws) = joinWith sep (ws.map (fun w => w.map Char.toLower)) := by
  induction ws with
  | nil => rfl
  | cons w rest ih =>
    have hw := ((isWord_iff w).mp (h w (List.mem_cons_self _ _))).2
    cases rest with
    | nil => exact cleanQuery_word w hw
    | cons w2 rest2 =>
      have ih2 := ih (fun d hd => h d (List.mem_cons_of_mem _ hd))
      simp only [joinWith, List.map_cons] at ih2 ⊢
      rw [cleanQuery_append, hsep, cleanQuery_word w hw, ih2]

/-! ## The scan of `convertQuery` -/

theorem scan_word (st : QueryScan) (w : List Char)
    (h : ∀ c ∈ w, c ≠ '"' ∧ c ≠ ' ' ∧ c ≠ '-') :
    w.foldl scanStep st = { st with currentTerm := st.currentTerm ++ w } := by
  induction w generalizing st with
  | nil => simp
  | cons c l ih =>
    obtain ⟨h1, h2, h3⟩ := h c (List.mem_cons_self _ _)
    rw [List.foldl_cons, ih _ (fun d hd => h d (List.mem_cons_of_mem _ hd))]
    simp [scanStep, h1, h2, h3]

theorem scan_joined (sep : Char) (q : Bool) (hsep : sep = '-' ∨ (sep = ' ' ∧ q = true))
    (all : List (List (List Char))) (ws : List (List Char))
    (h : ∀ w ∈ ws, w ≠ [] ∧ ∀ c ∈ w, c ≠ '"' ∧ c ≠ ' ' ∧ c ≠ '-') (cur : List (List Char)) :
    pushTerm ((joinWith sep ws).foldl scanStep ⟨all, cur, [], q⟩) = ⟨all, cur ++ ws, [], q⟩ := by
  induction ws generalizing cur with
  | nil => simp [joinWith, pushTerm]
  | cons w rest ih =>
    obtain ⟨hne, hw⟩ := h w (List.mem_cons_self _ _)
    cases rest with
    | nil =>
      simp only [joinWith]
      rw [scan_word _ w hw]
      simp [pushTerm, hne]
    | cons w2 rest2 =>
      have ih2 := ih (fun d hd => h d (List.mem_cons_of_mem _ hd)) (cur ++ [w])
      simp only [joinWith] at ih2 ⊢
      rw [List.foldl_append, List.foldl_cons, scan_word _ w hw]
      have hstep : scanStep (QueryScan.mk all cur ([] ++ w) q) sep = ⟨all, cur ++ [w], [], q⟩ := by
        rcases hsep with hs | ⟨hs, hq⟩
        · subst hs
          simp [scanStep, pushTerm, hne]
        · subst hs
          subst hq
          simp [scanStep, pushTerm, hne]
      simp only [List.nil_append] at hstep ⊢
      rw [hstep, ih2]
      simp

theorem pushTerm_quoteFound (st : QueryScan) : (pushTerm st).quoteFound = st.quoteFound := by
  unfold pushTerm
  split <;> rfl

theorem pushTerms_quoteFound (st : QueryScan) : (pushTerms st).quoteFound = st.quoteFound := by
  unfold pushTerms
  split <;> rfl

theorem pushTerm_setQuote (st : QueryScan) (b : Bool) :
    pushTerm { st with quoteFound := b } = { pushTerm st with quoteFound := b } := by
  unfold pushTerm
  split <;> rfl

theorem scanStep_space (st : QueryScan) (h : st.quoteFound = false) :
    scanStep st ' ' = pushTerms (pushTerm st) := by
  have h2 : (' ' : Char) ≠ '"' := by decide
  simp [scanStep, h2, pushTerm_quoteFound, h]

theorem scanStep_quote_close (st : QueryScan) (h : st.quoteFound = true) :
    scanStep st '"' = { pushTerm st with quoteFound := false } := by
  simp [scanStep, h, pushTerm_setQuote]

theorem scan_item (all : List (List (List Char))) (it : QueryItem) (hne : it.words ≠ [])
    (h : ∀ w ∈ it.words, w ≠ [] ∧ ∀ c ∈ w, c ≠ '"' ∧ c ≠ ' ' ∧ c ≠ '-') :
    pushTerms (pushTerm (it.text.foldl scanStep ⟨all, [], [], false⟩)) =
      ⟨all ++ [it.words], [], [], false⟩ := by
  cases it with
  | word w =>
    obtain ⟨hw, hc⟩ := h w (by simp [QueryItem.words])
    simp only [QueryItem.text, QueryItem.words]
    rw [scan_word _ w hc]
    simp [pushTerm, pushTerms, hw]
  | hyphenated ws =>
    simp only [QueryItem.text, QueryItem.words] at h hne ⊢
    rw [scan_joined '-' false (Or.inl rfl) all ws h []]
    simp [pushTerms, hne]
  | phrase ws =>
    simp only [QueryItem.text, QueryItem.words] at h hne ⊢
    have h0 : scanStep ⟨all, [], [], false⟩ '"' = ⟨all, [], [], true⟩ := by
      simp [scanStep]
    have hj := scan_joined ' ' true (Or.inr ⟨rfl, rfl⟩) all ws h []
    have hq : ((joinWith ' ' ws).foldl scanStep ⟨all, [], [], true⟩).quoteFound = true := by
      rw [← pushTerm_quoteFound, hj]
    rw [List.cons_append, List.foldl_cons, h0, List.foldl_append, List.foldl_cons, List.foldl_nil,
      scanStep_quote_close _ hq, hj]
    simp [pushTerm, pushTerms, hne]

theorem scan_items (items : List QueryItem)
    (h : ∀ it ∈ items, it.words ≠ [] ∧
      ∀ w ∈ it.words, w ≠ [] ∧ ∀ c ∈ w, c ≠ '"' ∧ c ≠ ' ' ∧ c ≠ '-')
    (all : List (List (List Char))) :
    pushTerms (pushTerm ((queryText items).foldl scanStep ⟨all, [], [], false⟩)) =
      ⟨all ++ items.map QueryItem.words, [], [], false⟩ := by
  induction items generalizing all with
  | nil => simp [queryText, joinWith, pushTerm, pushTerms]
  | cons it rest ih =>
    obtain ⟨hne, hw⟩ := h it (List.mem_cons_self _ _)
    have hit := scan_item all it hne hw
    cases rest with
    | nil =>
      simp only [queryText, List.map_cons, List.map_nil, joinWith]
      exact hit
    | cons it2 rest2 =>
      have ih2 := ih (fun d hd => h d (List.mem_cons_of_mem _ hd)) (all ++ [it.words])
      simp only [queryText, List.map_cons, joinWith] at ih2 ⊢
      have hq : (it.text.foldl scanStep ⟨all, [], [], false⟩).quoteFound = false := by
        rw [← pushTerm_quoteFound, ← pushTerms_quoteFound, hit]
      rw [List.foldl_append, List.foldl_cons, scanStep_space _ hq, hit, ih2]
      simp

theorem cleanQuery_text (it : QueryItem) (h : it.wellFormed = true) :
    cleanQuery it.text = it.lower.text := by
  have hw : ∀ w ∈ it.words, isWord w = true := by
    simp only [QueryItem.wellFormed, Bool.and_eq_true, List.all_eq_true] at h
    exact h.2
  cases it with
  | word w =>
    simp only [QueryItem.text, QueryItem.lower]
    exact cleanQuery_word w ((isWord_iff w).mp (hw w (by simp [QueryItem.words]))).2
  | hyphenated ws =>
    simp only [QueryItem.text, QueryItem.lower]
    exact cleanQuery_joinWith '-' cleanQuery_cons_dash ws hw
  | phrase ws =>
    simp only [QueryItem.text, QueryItem.lower]
    rw [List.cons_append, cleanQuery_cons_quote, cleanQuery_append, cleanQuery_cons_quote,
      cleanQuery_joinWith ' ' cleanQuery_cons_space ws hw]
    rfl

theorem cleanQuery_queryText (items : List QueryItem) (h : ∀ it ∈ items, it.wellFormed = true) :
    cleanQuery (queryText items) = queryText (items.map QueryItem.lower) := by
  induction items with
  | nil => rfl
  | cons it rest ih =>
    have hit := cleanQuery_text it (h it (List.mem_cons_self _ _))
    cases rest with
    | nil =>
      simp only [queryText, List.map_cons, List.map_nil, joinWith]
      exact hit
    | cons it2 rest2 =>
      have ih2 := ih (fun d hd => h d (List.mem_cons_of_mem _ hd))
      simp only [queryText, List.map_cons, joinWith] at ih2 ⊢
      rw [cleanQuery_append, cleanQuery_cons_space, hit, ih2]

theorem lower_words (it : QueryItem) : it.lower.words = it.term := by
  cases it <;> rfl

theorem lower_plain (it : QueryItem) (h : it.wellFormed = true) :
    it.lower.words ≠ [] ∧
      ∀ w ∈ it.lower.words, w ≠ [] ∧ ∀ c ∈ w, c ≠ '"' ∧ c ≠ ' ' ∧ c ≠ '-' := by
  rw [lower_words]
  simp only [QueryItem.wellFormed, Bool.and_eq_true, List.all_eq_true, Bool.not_eq_true',
    List.isEmpty_eq_false] at h
  obtain ⟨hne, hw⟩ := h
  unfold QueryItem.term
  refine ⟨?_, ?_⟩
  · intro h0
    exact hne (List.map_eq_nil_iff.mp h0)
  · intro w hwm
    obtain ⟨w0, hw0, rfl⟩ := List.mem_map.mp hwm
    obtain ⟨h1, h2⟩ := (isWord_iff w0).mp (hw w0 hw0)
    refine ⟨?_, ?_⟩
    · intro h0
      exact h1 (List.map_eq_nil_iff.mp h0)
    · intro c hc
      obtain ⟨c0, hc0, rfl⟩ := List.mem_map.mp hc
      exact alnum_plain _ (toLower_alnum c0 (h2 c0 hc0))

/-! ## The terms of a query -/

/-- Claim C21: for a query made of items separated by single spaces, each item a
bare word, a double-quoted phrase of words separated by single spaces, or words
joined by hyphens (a word being one or more letters and digits), `convertQuery`
returns one term per item, in the order of the items: the words of the item in
lowercase, in order. -/
theorem convertQuery_one_term_per_item (items : List QueryItem)
    (h : ∀ it ∈ items, it.wellFormed = true) :
    convertQuery (String.mk (queryText items)) =
      items.map (fun it => it.term.map String.mk) := by
  unfold convertQuery convertChars
  have e : (String.mk (queryText items)).toList = queryText items := rfl
  rw [e, cleanQuery_queryText items h]
  have hs := scan_items (items.map QueryItem.lower)
    (fun it hit => by
      obtain ⟨it0, hit0, rfl⟩ := List.mem_map.mp hit
      exact lower_plain it0 (h it0 hit0)) []
  rw [hs]
  simp only [List.nil_append, List.map_map]
  apply List.map_congr_left
  intro it _
  simp [lower_words]

/-- Instance of claim C21 on the query of the doc comment of `convertQuery`. -/
theorem convertQuery_one_term_per_item_witness :
    (∀ it ∈ sampleItems, it.wellFormed = true) ∧
    String.mk (queryText sampleItems) = "TV \"did not work\" second-rate" ∧
    convertQuery "TV \"did not work\" second-rate" =
      [["tv"], ["did", "not", "work"], ["second", "rate"]] ∧
    convertQuery (String.mk (queryText sampleItems)) =
      sampleItems.map (fun it => it.term.map String.mk) :=
  ⟨by decide, by decide, by decide,
    convertQuery_one_term_per_item sampleItems (by decide)⟩

end Amazon

namespace Proxy

/-- C29 (code defect): the loop of `containsProxyLoop` compares the address of the
client with each address that is followed by a delimiter and never with the
last one of the list. For the header `1.2.3.4` (as `addHeaders` writes it for
the first proxy) and the client 1.2.3.4 it returns false, and so it does when
the address of the client is the last of two; it returns true when the
address is the first or a middle one. -/
theorem proxy_loop_check_skips_last_address :
    (addHeaders { header := [], clientIPAddress := "1.2.3.4" }).getValueAsString kForwardedForKey
      = "1.2.3.4" ∧
    containsProxyLoop (forwarded "1.2.3.4" "1.2.3.4") = false ∧
    containsProxyLoop (forwarded "5.6.7.8, 1.2.3.4" "1.2.3.4") = false ∧
    containsProxyLoop (forwarded "1.2.3.4, 5.6.7.8" "1.2.3.4") = true ∧
    containsProxyLoop (forwarded "9.9.9.9, 1.2.3.4, 5.6.7.8" "1.2.3.4") = true := by
  refine ⟨?_, ?_, ?_, ?_, ?_⟩ <;> decide!

end Proxy
